import Mathlib

/-!
# File registry of `script.js`

A shallow embedding of the in-memory file-set management layer of `script.js`:
the ordered file sequence `files`, the selection set `selectedIndices`, the
object-URL tracker (`fileObjectURLs`, `allObjectURLs`), the PDF cleanup map
`pdfCleanupTasks`, the selection-snapshot history and the virtual-scroll state;
and of the functions around it: the validation gate, the capacity check, the error
queue, the start of `processFiles`, split method 3 of `splitPDFs`, `sanitizeFileName`
and the rotate and flip buttons of the image editor.

Conventions of the embedding

* The module-level `let`/`const` bindings of `script.js` are the fields of `State`;
  every function that reads or writes them takes and returns a `State`.
* A JavaScript `Set` is a list in insertion order (`setAdd`, `setDelete`);
  a JavaScript `Map` is an association list in insertion order
  (`mapGet`, `mapSet`, `mapDelete`).  Indices are JavaScript numbers that may be
  negative, so keys and indices are `Int`.
* The browser's object-URL store is made explicit: `created` logs every
  `URL.createObjectURL` call (the URL handed out is the position in the log),
  `revoked` logs every `URL.revokeObjectURL` call in order.
* Of the DOM only the number of children of `#imagePreview` is kept
  (`previewChildren`); it is what `showPreview` and `toggleSelection` read.
  What `showNextError` writes into `#errorMessage` is logged in `shownErrors`, and
  `timersSet` counts the `setTimeout` calls whose identifiers go to `errorTimers`.
* `async` functions are cut at their `await`s: a definition is the synchronous
  run of the function up to its first suspension, and the code after an `await`
  is a definition of its own (`showPreviewFrom`, the PDF render completions, the
  phases `handleFilesStart`, `handleFilesConvert`, `handleFilesAppend` of
  `handleFiles`).
* A property lookup `table[key]` on an object literal also finds the properties
  inherited from `Object.prototype` (`RuleLookup`, `SignatureLookup`).
* The timers of the error display are made explicit in `ErrorClock`; the string
  handed to `sanitizeFileName` is its sequence of UTF-16 code units.
-/

namespace Convertion

/-! ## Data model -/

/-- A browser `File` (a `Blob`): `ref` is the identity of the JavaScript object, `size` the
byte length of its content and `bytes` the leading bytes of the content (what
`file.slice(0, 8)` reads). -/
structure File where
  ref : Nat
  name : String
  type : String
  size : Nat
  bytes : List Nat := []
deriving DecidableEq, Repr

/-- An object URL, identified by its position in the log of `URL.createObjectURL` calls. -/
abbrev URL := Nat

/-- The value stored in `pdfCleanupTasks`: `{ blob, img }` by `renderPDFWithWorker`
(the `img` element carries the object URL in its `src`), `{ pdf, canvas, context }` by
`renderPDFMainThread`. -/
inductive PdfTask where
  | worker (blob : File) (imgSrc : URL)
  | mainThread (pdf : Nat)
deriving DecidableEq, Repr

/-- One entry of `selectionHistory`. `fileNames` holds `files[i]?.name`, which is
`undefined` (`none`) when `i` is not an index of `files`. -/
structure SelectionSnapshot where
  indices : List Int
  fileNames : List (Option String)
  timestamp : Nat
deriving DecidableEq, Repr

/-- The `error` of a rejecting result of `validateFileType`, by the template it is built from:
the invalid extension, the suspicious double extension, the signature that does not match
the declared type, the missing `ftyp` marker of a HEIC/HEIF file, and the failure caught by
the `try`/`catch`. -/
inductive ValidationError where
  | invalidExtension
  | doubleExtension
  | signatureMismatch (fileName type : String)
  | notHeic (fileName : String)
  | failed
deriving DecidableEq, Repr

/-- The text handed to `showError`, by the template literal it is built from and the values
interpolated into it (numbers are kept as numbers, not formatted). -/
inductive Message where
  | modeRejected (fileName ruleMessage : String)
  | noValidFiles
  | memoryLimitExceeded (availableBytes : Int)
  | fileCountLimit (availableCount : Int)
  | fileTooLarge (fileName : String)
  | invalidFile (error : ValidationError)
  | heicConversionFailed
  | noFilesProcessed
  | noSelectionToRestore
  | other (text : String)
deriving DecidableEq, Repr

/-- One entry of `errorQueue` (its `timestamp`, which is never read, is left out). -/
structure ErrorEntry where
  message : Message
  priority : String
deriving DecidableEq, Repr

/-- The field `virtualScrollState.visibleRange`. -/
structure VisibleRange where
  start : Int
  stop : Int
deriving DecidableEq, Repr

/-- The mutable module state of `script.js` together with the object-URL store and the
child count of `#imagePreview`. The defaults are the initial values in the source. -/
structure State where
  files : List File := []
  selectedIndices : List Int := []
  allObjectURLs : List URL := []
  fileObjectURLs : List (Int × List URL) := []
  pdfCleanupTasks : List (Int × PdfTask) := []
  currentMemoryUsage : Nat := 0
  selectionHistory : List SelectionSnapshot := []
  canRestoreSelection : Bool := false
  currentMode : String := "pdf"
  virtualScrollEnabled : Bool := false
  itemHeight : Int := 155
  itemWidth : Int := 155
  itemsPerRow : Int := 5
  visibleRange : VisibleRange := ⟨0, 20⟩
  previewChildren : Nat := 0
  created : List File := []
  revoked : List URL := []
  destroyedPdfs : List Nat := []
  errorQueue : List ErrorEntry := []
  errorTimers : List Nat := []
  isShowingError : Bool := false
  shownErrors : List ErrorEntry := []
  timersSet : Nat := 0
deriving DecidableEq, Repr

/-! ## JavaScript collections -/

/-- `Set.prototype.add`. -/
def setAdd {α : Type} [DecidableEq α] (s : List α) (x : α) : List α :=
  if x ∈ s then s else s ++ [x]

/-- `Set.prototype.delete`. -/
def setDelete {α : Type} [DecidableEq α] (s : List α) (x : α) : List α :=
  s.filter (fun y => decide (y ≠ x))

/-- `Map.prototype.get`. -/
def mapGet {β : Type} (m : List (Int × β)) (k : Int) : Option β :=
  match m with
  | [] => none
  | (j, v) :: rest => if j = k then some v else mapGet rest k

/-- `Map.prototype.has`. -/
def mapHas {β : Type} (m : List (Int × β)) (k : Int) : Bool :=
  (mapGet m k).isSome

/-- `Map.prototype.set`: an existing key keeps its position, a new key goes last. -/
def mapSet {β : Type} (m : List (Int × β)) (k : Int) (v : β) : List (Int × β) :=
  match m with
  | [] => [(k, v)]
  | (j, w) :: rest => if j = k then (j, v) :: rest else (j, w) :: mapSet rest k v

/-- `Map.prototype.delete`. -/
def mapDelete {β : Type} (m : List (Int × β)) (k : Int) : List (Int × β) :=
  m.filter (fun e => decide (e.1 ≠ k))

/-- The keys of a `Map`, in iteration order. -/
def mapKeys {β : Type} (m : List (Int × β)) : List Int :=
  m.map Prod.fst

/-- The element `xs[i]` of an array for a number `i` (`undefined` is `none`). -/
def arrayAt {α : Type} (xs : List α) (i : Int) : Option α :=
  if i < 0 then none else xs[i.toNat]?

/-- The array left by `xs.splice(index, 1)`: a negative `index` counts from the end,
the start is clamped to `[0, length]`, and at most one element is removed. -/
def splice1 {α : Type} (xs : List α) (index : Int) : List α :=
  let len : Int := xs.length
  let start : Int := if index < 0 then max (len + index) 0 else min index len
  xs.eraseIdx start.toNat

/-- `xs.slice(a, b)` for `0 ≤ a`, `0 ≤ b`. -/
def slice {α : Type} (xs : List α) (a b : Nat) : List α :=
  (xs.take b).drop a

/-! ## Error queue (`showError`, `showNextError`, `clearErrorQueue`) -/

/-- `showNextError()`: the head of the queue is displayed and a timer is set for the next. -/
def showNextError (s : State) : State :=
  match s.errorQueue with
  | [] => { s with isShowingError := false }
  | error :: rest =>
    { s with isShowingError := true, errorQueue := rest,
             shownErrors := s.shownErrors ++ [error],
             errorTimers := s.errorTimers ++ [s.timersSet],
             timersSet := s.timersSet + 1 }

/-- `showError(message, priority = "error")`, the definition in force (the later of the two
declarations of that name). -/
def showError (s : State) (message : Message) (priority : String) : State :=
  let s1 := { s with errorQueue := s.errorQueue ++ [{ message := message, priority := priority }] }
  if !s1.isShowingError then showNextError s1 else s1

/-- `clearErrorQueue()`. -/
def clearErrorQueue (s : State) : State :=
  { s with errorQueue := [], errorTimers := [], isShowingError := false }

/-! ## Object-URL tracker (`createTrackedURL`, `revokeFileURLs`, `revokeAllTrackedURLs`) -/

/-- `URL.createObjectURL(blob)`: a fresh URL, logged with the blob it was created for. -/
def createObjectURL (s : State) (blob : File) : URL × State :=
  (s.created.length, { s with created := s.created ++ [blob] })

/-- `URL.revokeObjectURL(url)`. -/
def revokeObjectURL (s : State) (url : URL) : State :=
  { s with revoked := s.revoked ++ [url] }

/-- `createTrackedURL(blob, fileIndex = null)`. -/
def createTrackedURL (s : State) (blob : File) (fileIndex : Option Int) : URL × State :=
  let (url, s1) := createObjectURL s blob
  match fileIndex with
  | some i =>
    let m := if mapHas s1.fileObjectURLs i then s1.fileObjectURLs
             else mapSet s1.fileObjectURLs i []
    let urls := (mapGet m i).getD []
    (url, { s1 with fileObjectURLs := mapSet m i (urls ++ [url]) })
  | none => (url, { s1 with allObjectURLs := setAdd s1.allObjectURLs url })

/-- `revokeFileURLs(fileIndex)`. -/
def revokeFileURLs (s : State) (fileIndex : Int) : State :=
  match mapGet s.fileObjectURLs fileIndex with
  | some urls =>
    let s1 := urls.foldl revokeObjectURL s
    { s1 with fileObjectURLs := mapDelete s1.fileObjectURLs fileIndex }
  | none => s

/-- `revokeAllTrackedURLs()`. -/
def revokeAllTrackedURLs (s : State) : State :=
  let s1 := s.fileObjectURLs.foldl (fun st e => e.2.foldl revokeObjectURL st) s
  let s2 := { s1 with fileObjectURLs := [] }
  let s3 := s2.allObjectURLs.foldl revokeObjectURL s2
  { s3 with allObjectURLs := [] }

/-! ## PDF preview bookkeeping -/

/-- The `onmessage` handler installed by `renderPDFWithWorker(arrayBuffer, div, loadingDiv, index)`
on a successful reply carrying `blob`. -/
def renderPDFWithWorker_onmessage (s : State) (index : Int) (blob : File) : State :=
  let (url, s1) := createObjectURL s blob
  { s1 with pdfCleanupTasks := mapSet s1.pdfCleanupTasks index (PdfTask.worker blob url) }

/-- The end of `renderPDFMainThread(arrayBuffer, div, loadingDiv, index)` for the loaded
document `pdf`. -/
def renderPDFMainThread_done (s : State) (index : Int) (pdf : Nat) : State :=
  { s with pdfCleanupTasks := mapSet s.pdfCleanupTasks index (PdfTask.mainThread pdf) }

/-- `cleanupPDFPreview(index)`: clears the canvas and destroys the document of a main-thread
task; a worker task has neither, its entry is only deleted. -/
def cleanupPDFPreview (s : State) (index : Int) : State :=
  match mapGet s.pdfCleanupTasks index with
  | some task =>
    let s1 := match task with
      | PdfTask.mainThread pdf => { s with destroyedPdfs := s.destroyedPdfs ++ [pdf] }
      | PdfTask.worker _ _ => s
    { s1 with pdfCleanupTasks := mapDelete s1.pdfCleanupTasks index }
  | none => s

/-! ## Rendering (`createPreviewCard`, `showPreview`, `renderVisibleItems`) -/

/-- The effect of `createPreviewCard(file, index)` on the state: an image gets a tracked
preview URL; for a PDF `renderPDFPreview` is started, which touches the state only when
its render completes (`renderPDFWithWorker_onmessage`, `renderPDFMainThread_done`). -/
def createPreviewCard (s : State) (file : File) (index : Int) : State :=
  if file.type = "application/pdf" then s
  else (createTrackedURL s file (some index)).2

/-- `createPreviewCard(file, index)` followed by appending the card to `#imagePreview`. -/
def appendPreviewCard (s : State) (file : File) (index : Int) : State :=
  let s1 := createPreviewCard s file index
  { s1 with previewChildren := s1.previewChildren + 1 }

/-- One iteration of the batch loop of `showPreview` at offset `i` (`BATCH_SIZE = 10`):
the cards of `files.slice(i, Math.min(i + 10, files.length))` are created and appended.
The loop suspends after the iteration; the iteration at `i + 10` is run by the event loop. -/
def showPreviewFrom (s : State) (i : Nat) : State :=
  if i < s.files.length then
    let batch := slice s.files i (min (i + 10) s.files.length)
    batch.enum.foldl (fun st e => appendPreviewCard st e.2 ((i + e.1 : Nat) : Int)) s
  else s

/-- The synchronous run of `showPreview()`: the URLs of the indices
`0 .. previewContainer.children.length - 1` are revoked, the container is emptied and the
first batch is rendered. -/
def showPreview (s : State) : State :=
  let s1 := (List.range s.previewChildren).foldl (fun st (i : Nat) => revokeFileURLs st (i : Int)) s
  let s2 := { s1 with previewChildren := 0 }
  showPreviewFrom s2 0

/-- `renderVisibleItems()`: the container is emptied and a card is created for every index of
`visibleRange` below `files.length`. (`visibleRange.start` is never negative in the source;
for a negative start `files[i]` is `undefined` and the loop throws at its first card.) -/
def renderVisibleItems (s : State) : State :=
  let s1 := { s with previewChildren := 0 }
  let lo := s1.visibleRange.start.toNat
  let hi := min s1.visibleRange.stop.toNat s1.files.length
  if s1.visibleRange.start < 0 then s1
  else (List.range' lo (hi - lo)).foldl
    (fun st (i : Nat) => match st.files[i]? with
      | some file => appendPreviewCard st file (i : Int)
      | none => st) s1

/-! ## Removal (`removeFile`) -/

/-- The loop building `newIndices` in `removeFile`. -/
def shiftSelection (sel : List Int) (index : Int) : List Int :=
  sel.foldl (fun acc i =>
    if i > index then setAdd acc (i - 1)
    else if i < index then setAdd acc i
    else acc) []

/-- The loops building `newURLMap` and `newTasks` in `removeFile`, followed by the copy of
the new map back into the cleared original. -/
def shiftMap {β : Type} (m : List (Int × β)) (index : Int) : List (Int × β) :=
  let newMap := m.foldl (fun acc e =>
    if e.1 < index then mapSet acc e.1 e.2
    else if e.1 > index then mapSet acc (e.1 - 1) e.2
    else acc) []
  newMap.foldl (fun acc e => mapSet acc e.1 e.2) []

/-- The body of `removeFile(index)` up to and including the re-indexing of
`pdfCleanupTasks`, that is, before the final `showPreview()`. -/
def removeFileReindex (s : State) (index : Int) : State :=
  let s1 := revokeFileURLs s index
  let s2 := cleanupPDFPreview s1 index
  let s3 := { s2 with files := splice1 s2.files index }
  let s4 := { s3 with selectedIndices := setDelete s3.selectedIndices index }
  let s5 := { s4 with selectedIndices := shiftSelection s4.selectedIndices index }
  let s6 := { s5 with fileObjectURLs := shiftMap s5.fileObjectURLs index }
  { s6 with pdfCleanupTasks := shiftMap s6.pdfCleanupTasks index }

/-- `removeFile(index)`. -/
def removeFile (s : State) (index : Int) : State :=
  showPreview (removeFileReindex s index)

/-! ## Selection snapshots -/

/-- `saveSelectionState()`; `now` is the value of `Date.now()`. -/
def saveSelectionState (s : State) (now : Nat) : State :=
  let state : SelectionSnapshot :=
    { indices := s.selectedIndices
      fileNames := s.selectedIndices.map (fun i => (arrayAt s.files i).map File.name)
      timestamp := now }
  let history := s.selectionHistory ++ [state]
  let history := if history.length > 10 then history.drop 1 else history
  { s with selectionHistory := history, canRestoreSelection := true }

/-- `files.findIndex((f) => f.name === fileName)`, with `none` for `-1`. -/
def findIndexByName (files : List File) (fileName : Option String) : Option Nat :=
  files.findIdx? (fun f => decide (some f.name = fileName))

/-- `restoreSelectionState()`: the returned boolean and the new state. -/
def restoreSelectionState (s : State) : Bool × State :=
  if s.selectionHistory.length = 0 || !s.canRestoreSelection then (false, s)
  else
    match s.selectionHistory.getLast? with
    | none => (false, s)
    | some lastState =>
      let sel := lastState.fileNames.foldl (fun acc fileName =>
        match findIndexByName s.files fileName with
        | some index => setAdd acc (index : Int)
        | none => acc) []
      let s1 := showPreview { s with selectedIndices := sel }
      (decide (s1.selectedIndices.length > 0), s1)

/-- `clearSelectionHistory()`. -/
def clearSelectionHistory (s : State) : State :=
  { s with selectionHistory := [], canRestoreSelection := false }

/-! ## Virtual scrolling -/

/-- `VIRTUAL_SCROLL_THRESHOLD`. -/
def VIRTUAL_SCROLL_THRESHOLD : Nat := 50

/-- `VISIBLE_BUFFER`. -/
def VISIBLE_BUFFER : Int := 5

/-- `updateVirtualScroll()` on a page that has the elements `#imagePreviewViewport` and
`#imagePreview` it looks up: apart from styling them it renders the visible items. -/
def updateVirtualScroll (s : State) : State :=
  renderVisibleItems s

/-- `initVirtualScroll()` on a page that has the element `#imagePreviewContainer`;
`containerWidth` is `container.offsetWidth`. The quotient is
`Math.floor(containerWidth / itemWidth)` for the positive `itemWidth`. -/
def initVirtualScroll (s : State) (containerWidth : Int) : State :=
  updateVirtualScroll { s with itemsPerRow := containerWidth / s.itemWidth }

/-- `enableVirtualScroll()`. -/
def enableVirtualScroll (s : State) (containerWidth : Int) : State :=
  if s.files.length > VIRTUAL_SCROLL_THRESHOLD then
    initVirtualScroll { s with virtualScrollEnabled := true } containerWidth
  else { s with virtualScrollEnabled := false }

/-- `handleVirtualScroll()`; `scrollTop` is `container.scrollTop` and `offsetHeight` is
`container.offsetHeight`, in whole pixels. For the positive `itemHeight`,
`scrollTop / itemHeight` is `Math.floor` of the quotient and
`-((-offsetHeight) / itemHeight)` is `Math.ceil` of the quotient. -/
def handleVirtualScroll (s : State) (scrollTop offsetHeight : Int) : State :=
  let firstVisibleRow := scrollTop / s.itemHeight
  let visibleRows := -((-offsetHeight) / s.itemHeight)
  let start := max 0 ((firstVisibleRow - VISIBLE_BUFFER) * s.itemsPerRow)
  let stop := min (s.files.length : Int)
    ((firstVisibleRow + visibleRows + VISIBLE_BUFFER) * s.itemsPerRow)
  if start ≠ s.visibleRange.start ∨ stop ≠ s.visibleRange.stop then
    updateVirtualScroll { s with visibleRange := ⟨start, stop⟩ }
  else s

/-! ## Appending (`handleFiles`) -/

/-- `calculateMemoryUsage()`. -/
def calculateMemoryUsage (s : State) : State :=
  { s with currentMemoryUsage := s.files.foldl (fun total file => total + file.size) 0 }

/-- The tail of `handleFiles` that follows its last `await`: `convertedFiles` is the list
collected by the validation loop, `containerWidth` the width read by `initVirtualScroll`. -/
def handleFilesAppend (s : State) (convertedFiles : List File) (containerWidth : Int) : State :=
  if convertedFiles.length = 0 then showError s Message.noFilesProcessed "error"
  else
    let s1 := { s with files := s.files ++ convertedFiles }
    if s1.files.length > 0 then
      let s2 := calculateMemoryUsage s1
      let s3 := enableVirtualScroll s2 containerWidth
      showPreview s3
    else s1

/-! ## Validation gate (`validateFileType`, `validateFileForMode`) -/

/-- `VALID_IMAGE_TYPES`. -/
def VALID_IMAGE_TYPES : List String :=
  ["image/jpeg", "image/jpg", "image/png", "image/heic", "image/heif", "image/svg+xml",
   "image/webp"]

/-- What the property lookup `FILE_SIGNATURES[type]` finds. -/
inductive SignatureLookup where
  | signatures (patterns : List (List Nat))
  | inherited
  | absent
deriving DecidableEq, Repr

/-- The property names every object inherits from `Object.prototype`. -/
def objectPrototypeKeys : List String :=
  ["constructor", "__defineGetter__", "__defineSetter__", "hasOwnProperty",
   "__lookupGetter__", "__lookupSetter__", "isPrototypeOf", "propertyIsEnumerable",
   "toString", "valueOf", "__proto__", "toLocaleString"]

/-- `FILE_SIGNATURES[type]`: the registered signatures of the four own keys; for a name
inherited from `Object.prototype` the lookup yields a value that is no array. -/
def FILE_SIGNATURES (type : String) : SignatureLookup :=
  if type = "image/jpeg" then SignatureLookup.signatures [[0xff, 0xd8, 0xff]]
  else if type = "image/png" then SignatureLookup.signatures [[0x89, 0x50, 0x4e, 0x47]]
  else if type = "image/webp" then SignatureLookup.signatures [[0x52, 0x49, 0x46, 0x46]]
  else if type = "application/pdf" then SignatureLookup.signatures [[0x25, 0x50, 0x44, 0x46]]
  else if type ∈ objectPrototypeKeys then SignatureLookup.inherited
  else SignatureLookup.absent

/-- `validExtensions` in `validateFileType`. -/
def validExtensions : List String :=
  [".jpg", ".jpeg", ".png", ".webp", ".pdf", ".heic", ".heif"]

/-- The characters of `name.toLowerCase()`. (`Char.toLower` lowers the letters `A`–`Z`; the
extensions and the `.` that the result is matched against are ASCII.) -/
def toLowerCase (name : String) : List Char :=
  name.data.map Char.toLower

/-- `fileName.endsWith(ext)`. -/
def endsWith (fileName : List Char) (ext : String) : Bool :=
  ext.data.isSuffixOf fileName

/-- `hay.includes(needle)`. -/
def includes (hay needle : List Char) : Bool :=
  hay.tails.any (fun t => needle.isPrefixOf t)

/-- `validExtensions.some((ext) => fileName.endsWith(ext))`. -/
def hasValidExtension (fileName : List Char) : Bool :=
  validExtensions.any (fun ext => endsWith fileName ext)

/-- `(fileName.match(/\./g) || []).length`. -/
def extensionCount (fileName : List Char) : Nat :=
  fileName.count '.'

/-- `fileName.split(".")`. -/
def splitDot : List Char → List (List Char)
  | [] => [[]]
  | c :: cs =>
    if c = '.' then [] :: splitDot cs
    else match splitDot cs with
      | [] => [[c]]
      | seg :: rest => (c :: seg) :: rest

/-- `fileName.split(".").slice(-2).join(".")`. -/
def lastTwo (fileName : List Char) : List Char :=
  let parts := splitDot fileName
  List.intercalate ['.'] (parts.drop (parts.length - 2))

/-- `signature.every((byte, index) => bytes[index] === byte)`. -/
def signatureMatches (bytes signature : List Nat) : Bool :=
  signature.enum.all (fun e => decide (bytes[e.1]? = some e.2))

/-- The result of `validateFileType`. -/
inductive ValidationResult where
  | valid
  | invalid (error : ValidationError)
deriving DecidableEq, Repr

/-- `validateFileType(file)` for a file whose leading bytes can be read (the `await` of
`file.slice(0, 8).arrayBuffer()` resolves). -/
def validateFileType (file : File) : ValidationResult :=
  let fileName := toLowerCase file.name
  if !hasValidExtension fileName then
    ValidationResult.invalid ValidationError.invalidExtension
  else if extensionCount fileName > 1 ∧
      ¬ (lastTwo fileName ∈ ["tar.gz".data, "backup.zip".data]) then
    ValidationResult.invalid ValidationError.doubleExtension
  else
    let bytes := file.bytes.take 8
    match FILE_SIGNATURES file.type with
    | SignatureLookup.inherited => ValidationResult.invalid ValidationError.failed
    | SignatureLookup.signatures expectedSignatures =>
      if !expectedSignatures.any (fun signature => signatureMatches bytes signature) then
        ValidationResult.invalid (ValidationError.signatureMismatch file.name file.type)
      else if includes file.type.data "heic".data || includes file.type.data "heif".data then
        if !includes ((slice bytes 4 8).map Char.ofNat) "ftyp".data then
          ValidationResult.invalid (ValidationError.notHeic file.name)
        else ValidationResult.valid
      else ValidationResult.valid
    | SignatureLookup.absent =>
      if includes file.type.data "heic".data || includes file.type.data "heif".data then
        if !includes ((slice bytes 4 8).map Char.ofNat) "ftyp".data then
          ValidationResult.invalid (ValidationError.notHeic file.name)
        else ValidationResult.valid
      else ValidationResult.valid

/-- One entry of `modeRules`. -/
structure ModeRule where
  accept : List String
  reject : List String
  message : String
deriving DecidableEq, Repr

/-- What the property lookup `modeRules[mode]` finds: an entry of the table, a value
inherited from `Object.prototype` (a function or the prototype object, which is truthy and has
no property `accept`), or `undefined`. -/
inductive RuleLookup where
  | rule (entry : ModeRule)
  | inherited
  | absent
deriving DecidableEq, Repr

/-- `modeRules[mode]`. -/
def modeRules (mode : String) : RuleLookup :=
  if mode = "pdf" then RuleLookup.rule ⟨["image"], ["application/pdf"],
    "PDF mode only accepts images (they will be converted to PDF)"⟩
  else if mode = "merge" then RuleLookup.rule ⟨["application/pdf"], ["image"],
    "Merge mode only accepts PDF files"⟩
  else if mode = "split" then RuleLookup.rule ⟨["application/pdf"], ["image"],
    "Split mode only accepts PDF files"⟩
  else if mode = "jpeg" then RuleLookup.rule ⟨["image/heic", "image/heif"],
    ["application/pdf", "image/jpeg", "image/jpg", "image/png"],
    "HEIC to JPG mode only accepts HEIC/HEIF files"⟩
  else if mode = "compress" then RuleLookup.rule ⟨["image"], [],
    "Compress mode works best with images"⟩
  else if mode = "rotate" then RuleLookup.rule ⟨["image"], ["application/pdf"],
    "Rotate mode only accepts images"⟩
  else if mode = "filter" then RuleLookup.rule ⟨["image"], ["application/pdf"],
    "Filter mode only accepts images"⟩
  else if mode = "convert" then RuleLookup.rule ⟨["image"], ["application/pdf"],
    "Convert mode only accepts images"⟩
  else if mode = "editor" then RuleLookup.rule ⟨["image"], ["application/pdf"],
    "Editor mode only accepts images (1 at a time)"⟩
  else if mode = "delete" then RuleLookup.rule ⟨["image", "application/pdf"], [],
    "Delete mode accepts all files"⟩
  else if mode = "ocr" then RuleLookup.rule ⟨["image"], ["application/pdf"],
    "OCR mode only accepts images"⟩
  else if mode ∈ objectPrototypeKeys then RuleLookup.inherited
  else RuleLookup.absent

/-- The callback of `rule.accept.some` and of `rule.reject.some` in `validateFileForMode`. -/
def matchesClass (file : File) (type : String) : Bool :=
  if type = "image" then decide (file.type ∈ VALID_IMAGE_TYPES)
  else if type = "application/pdf" then decide (file.type = "application/pdf")
  else decide (file.type = type)

/-- The outcome of `validateFileForMode`: `{ valid: true }`, `{ valid: false, error }` with the
message of the rule that rejects the file, or the `TypeError` thrown by `rule.accept.length`
when `rule` is a value inherited from `Object.prototype`. -/
inductive ModeValidation where
  | valid
  | invalid (ruleMessage : String)
  | typeError
deriving DecidableEq, Repr

/-- `validateFileForMode(file, mode)`. -/
def validateFileForMode (file : File) (mode : String) : ModeValidation :=
  match modeRules mode with
  | RuleLookup.absent => ModeValidation.valid
  | RuleLookup.inherited => ModeValidation.typeError
  | RuleLookup.rule rule =>
    if rule.accept.length > 0 ∧ ¬ (rule.accept.any (matchesClass file) = true) then
      ModeValidation.invalid rule.message
    else if rule.reject.length > 0 ∧ rule.reject.any (matchesClass file) = true then
      ModeValidation.invalid rule.message
    else ModeValidation.valid

/-! ## Capacity check (`checkMemoryLimit`) -/

/-- `MAX_FILE_SIZE`. -/
def MAX_FILE_SIZE : Nat := 20 * 1024 * 1024

/-- `MAX_TOTAL_MEMORY`. -/
def MAX_TOTAL_MEMORY : Nat := 500 * 1024 * 1024

/-- `MAX_FILES_COUNT`. -/
def MAX_FILES_COUNT : Nat := 200

/-- `list.reduce((total, file) => total + file.size, 0)`. -/
def totalSize (list : List File) : Nat :=
  list.foldl (fun total file => total + file.size) 0

/-- The result of `checkMemoryLimit`: `none` for `{ allowed: true }`, otherwise the message of
the rejection. -/
def checkMemoryLimit (s : State) (newFiles : List File) : Option Message :=
  let newFilesSize := totalSize newFiles
  let totalAfterAdd := s.currentMemoryUsage + newFilesSize
  if totalAfterAdd > MAX_TOTAL_MEMORY then
    some (Message.memoryLimitExceeded ((MAX_TOTAL_MEMORY : Int) - s.currentMemoryUsage))
  else if s.files.length + newFiles.length > MAX_FILES_COUNT then
    some (Message.fileCountLimit ((MAX_FILES_COUNT : Int) - s.files.length))
  else none

/-! ## `handleFiles` -/

/-- The first loop of `handleFiles(newFiles)`: a file that does not fit the current mode is
reported and skipped; the state and `filteredFiles` are returned. (Every call of
`validateFileForMode` in the loop has the same `currentMode`, so a call that throws is the
first one; `handleFilesStart` deals with it before the loop.) -/
def handleFilesFilter (s : State) (newFiles : List File) : State × List File :=
  newFiles.foldl (fun acc f =>
    match validateFileForMode f acc.1.currentMode with
    | ModeValidation.invalid error =>
      (showError acc.1 (Message.modeRejected f.name error) "warning", acc.2)
    | ModeValidation.valid => (acc.1, acc.2 ++ [f])
    | ModeValidation.typeError => acc) (s, [])

/-- The synchronous run of `handleFiles(newFiles)` up to its first `await`: the mode filter,
the check for an empty batch and the capacity check. The second component is `filteredFiles`
when the function goes on, `none` when it has returned or has thrown: the `TypeError` of
`validateFileForMode` leaves the function at the first file, before anything is written. -/
def handleFilesStart (s : State) (newFiles : List File) : State × Option (List File) :=
  if newFiles.length > 0 ∧ modeRules s.currentMode = RuleLookup.inherited then (s, none)
  else
    let (s1, filteredFiles) := handleFilesFilter s newFiles
    if filteredFiles.length = 0 then (showError s1 Message.noValidFiles "error", none)
    else
      match checkMemoryLimit s1 filteredFiles with
      | some message => (showError s1 message "error", none)
      | none => (s1, some filteredFiles)

/-- The test `isHeic` in `handleFiles`. -/
def isHeic (f : File) : Bool :=
  decide (f.type = "image/heic") || decide (f.type = "image/heif") ||
    endsWith (toLowerCase f.name) ".heic" || endsWith (toLowerCase f.name) ".heif"

/-- The second loop of `handleFiles`, which collects `convertedFiles`. `heic f` is the
outcome of `convertHeicToJpeg(f, 0.9)`: the converted files, or `none` when it throws. The
loop suspends at its `await`s; it reads no module state and writes only the error queue. -/
def handleFilesConvert (s : State) (filteredFiles : List File)
    (heic : File → Option (List File)) : State × List File :=
  filteredFiles.foldl (fun acc f =>
    if f.size > MAX_FILE_SIZE then
      (showError acc.1 (Message.fileTooLarge f.name) "warning", acc.2)
    else match validateFileType f with
      | ValidationResult.invalid error =>
        (showError acc.1 (Message.invalidFile error) "warning", acc.2)
      | ValidationResult.valid =>
        if isHeic f then
          match heic f with
          | some converted => (acc.1, acc.2 ++ converted)
          | none => (showError acc.1 Message.heicConversionFailed "warning", acc.2)
        else (acc.1, acc.2 ++ [f])) (s, [])

/-- A run of `handleFiles(newFiles)` during whose suspensions no other event occurs. -/
def handleFiles (s : State) (newFiles : List File) (heic : File → Option (List File))
    (containerWidth : Int) : State :=
  match handleFilesStart s newFiles with
  | (s1, none) => s1
  | (s1, some filteredFiles) =>
    let (s2, convertedFiles) := handleFilesConvert s1 filteredFiles heic
    handleFilesAppend s2 convertedFiles containerWidth

/-- `manualRestoreSelection()`. -/
def manualRestoreSelection (s : State) : State :=
  let (restored, s1) := restoreSelectionState s
  if restored then { s1 with canRestoreSelection := false }
  else showError s1 Message.noSelectionToRestore "warning"

/-! ## Clearing and selection mutators -/

/-- `clearFiles()`. The `forEach` over `pdfCleanupTasks` deletes the entry it visits and
so visits every key the map had. -/
def clearFiles (s : State) : State :=
  let s1 := (mapKeys s.pdfCleanupTasks).foldl cleanupPDFPreview s
  let s2 := { s1 with files := [], selectedIndices := [], currentMemoryUsage := 0,
                      virtualScrollEnabled := false }
  let s3 := clearSelectionHistory s2
  let s4 := showPreview s3
  let s5 := { s4 with currentMode := "pdf" }
  revokeAllTrackedURLs s5

/-- `toggleSelection(index)`: `previewContainer.children[index]` exists exactly when
`0 ≤ index < children.length`. -/
def toggleSelection (s : State) (index : Int) : State :=
  if index < 0 ∨ (s.previewChildren : Int) ≤ index then s
  else if index ∈ s.selectedIndices then
    { s with selectedIndices := setDelete s.selectedIndices index }
  else { s with selectedIndices := setAdd s.selectedIndices index }

/-- `selectAll()`. -/
def selectAll (s : State) : State :=
  let sel := (List.range s.files.length).foldl (fun acc (i : Nat) => setAdd acc (i : Int)) []
  showPreview { s with selectedIndices := sel }

/-- `deselectAll()`. -/
def deselectAll (s : State) : State :=
  showPreview { s with selectedIndices := [] }

/-- `invertSelection()`. -/
def invertSelection (s : State) : State :=
  let newSelection := (List.range s.files.length).foldl
    (fun acc (i : Nat) => if (i : Int) ∈ s.selectedIndices then acc else setAdd acc (i : Int)) []
  showPreview { s with selectedIndices := newSelection }

/-- `deleteSelected()`. -/
def deleteSelected (s : State) : State :=
  if s.selectedIndices.length = 0 then showError s (Message.other "No files selected!") "error"
  else
    let toKeep := (s.files.enum.filter
      (fun e => decide ((e.1 : Int) ∉ s.selectedIndices))).map Prod.snd
    showPreview { s with files := toKeep, selectedIndices := [] }

/-! ## Bulk deletion (`deleteFiles`) -/

/-- `files.indexOf(file)`, with `none` for `-1`; files are compared as objects. -/
def indexOfFile (files : List File) (file : File) : Option Nat :=
  files.findIdx? (fun f => decide (f = file))

/-- The body of the loop `indicesToDelete.forEach` in `deleteFiles`. -/
def deleteAt (s : State) (index : Int) : State :=
  let s1 := revokeFileURLs s index
  let s2 := cleanupPDFPreview s1 index
  let s3 := { s2 with files := splice1 s2.files index }
  { s3 with selectedIndices := setDelete s3.selectedIndices index }

/-- The `confirmDelete` click handler of `deleteFiles(filesToProcess)`; `now` is the value of
`Date.now()` read by `saveSelectionState`. -/
def deleteFiles (s : State) (filesToProcess : List File) (now : Nat) : State :=
  let s1 := saveSelectionState s now
  let indicesToDelete : List Int := filesToProcess.foldl (fun acc fileToDelete =>
    match indexOfFile s1.files fileToDelete with
    | some index => acc ++ [(index : Int)]
    | none => acc) []
  let sorted := indicesToDelete.insertionSort (fun a b => b ≤ a)
  let s2 := sorted.foldl deleteAt s1
  let s3 := showPreview s2
  if s3.files.length = 0 then clearSelectionHistory s3 else s3

/-! ## Batch operations (`processFiles`, `splitPDFs`) -/

/-- The constant `filesToProcess` of `processFiles`: the files at the selected indices when
the selection is not empty, every file otherwise. -/
def filesToProcess (s : State) : List File :=
  if s.selectedIndices.length > 0 then
    (s.files.enum.filter (fun e => decide ((e.1 : Int) ∈ s.selectedIndices))).map Prod.snd
  else s.files

/-- The run of `processFiles()` up to the `switch` over `currentMode`: the state, and the list
handed to the pipeline of the mode (`none` when the function has returned before). `now` is
the value of `Date.now()` read by `saveSelectionState`. -/
def processFilesStart (s : State) (now : Nat) : State × Option (List File) :=
  if s.files.length = 0 then
    (showError s (Message.other "Please select files first!") "error", none)
  else if (filesToProcess s).length = 0 then
    (showError s (Message.other "No files to process!") "error", none)
  else (saveSelectionState s now, some (filesToProcess s))

/-- The loop `for (let i = 0; i < totalPages; i += n)` of split method 3 in `splitPDFs`, from
the offset `i` with the part number `partNum`: every part is its number (which names the zip
entry `_part_N.pdf`) and its `pageIndices`. `fuel` bounds the number of iterations. -/
def splitEveryFrom (totalPages n : Nat) : Nat → Nat → Nat → List (Nat × List Nat)
  | 0, _, _ => []
  | fuel + 1, i, partNum =>
    if i < totalPages then
      let endPage := min (i + n) totalPages
      (partNum, (List.range (endPage - i)).map (fun idx => i + idx)) ::
        splitEveryFrom totalPages n fuel (i + n) (partNum + 1)
    else []

/-- Split method 3 of `splitPDFs` for a document of `totalPages` pages; `n` is the value of
`parseInt(nPages)`, `none` for `NaN`. The result is `none` when the number is refused
(`"Invalid number!"`). The loop advances by `n ≥ 1`, so `totalPages` iterations suffice. -/
def splitEvery (totalPages : Nat) (n : Option Int) : Option (List (Nat × List Nat)) :=
  match n with
  | none => none
  | some n =>
    if n < 1 then none
    else some (splitEveryFrom totalPages n.toNat totalPages 0 1)

/-! ## File names for downloads (`sanitizeFileName`) -/

/-- The argument of `sanitizeFileName`: a string, as its sequence of UTF-16 code units, or a
value of another type. -/
inductive NameArgument where
  | string (units : List Nat)
  | other
deriving DecidableEq, Repr

/-- The code units matched by the class `[<>:"/\\|?*\x00-\x1f]`: the nine characters
`<`, `>`, `:`, `"`, `/`, `\`, `|`, `?`, `*` and the control characters up to `0x1f`. -/
def isDangerousUnit (c : Nat) : Bool :=
  decide (c ∈ [0x3c, 0x3e, 0x3a, 0x22, 0x2f, 0x5c, 0x7c, 0x3f, 0x2a]) || decide (c ≤ 0x1f)

/-- The code units of `"file"`. -/
def fileUnits : List Nat := [0x66, 0x69, 0x6c, 0x65]

/-- `sanitizeFileName(name)`, the definition in force (the later of the two declarations of
that name): every dangerous code unit becomes `_` (`0x5f`), the leading run of `.` (`0x2e`)
is removed and the result is cut to 255 code units. -/
def sanitizeFileName (name : NameArgument) : List Nat :=
  match name with
  | NameArgument.other => fileUnits
  | NameArgument.string units =>
    if units.length = 0 then fileUnits
    else
      let replaced := units.map (fun c => if isDangerousUnit c then 0x5f else c)
      let stripped := replaced.dropWhile (fun c => decide (c = 0x2e))
      stripped.take 255

/-! ## Image editor (`openImageEditor`) -/

/-- The variables of `openImageEditor` that the rotate and flip buttons use: the size of the
loaded image `img`, the size of the canvas, and `currentRotation`, `currentFlipH`,
`currentFlipV`. -/
structure Editor where
  imgWidth : Nat
  imgHeight : Nat
  canvasWidth : Nat
  canvasHeight : Nat
  currentRotation : Int := 0
  currentFlipH : Int := 1
  currentFlipV : Int := 1
deriving DecidableEq, Repr

/-- The editor as `openImageEditor` initialises it for an image of the given size. -/
def openImageEditor (width height : Nat) : Editor :=
  { imgWidth := width, imgHeight := height, canvasWidth := width, canvasHeight := height }

/-- `applyTransform()`: `w` and `h` are read from the canvas. The remainder `%` of JavaScript
takes the sign of the dividend (`Int.tmod`). -/
def applyTransform (e : Editor) : Editor :=
  let w := e.canvasWidth
  let h := e.canvasHeight
  if (Int.tmod e.currentRotation 180).natAbs = 90 then
    { e with canvasWidth := h, canvasHeight := w }
  else { e with canvasWidth := w, canvasHeight := h }

/-- The four buttons `rotate90`, `rotate270`, `flipH`, `flipV`. -/
inductive EditorClick where
  | rotate90
  | rotate270
  | flipH
  | flipV
deriving DecidableEq, Repr

/-- The `onclick` handler of a button. -/
def editorClick (e : Editor) : EditorClick → Editor
  | EditorClick.rotate90 => applyTransform { e with currentRotation := e.currentRotation + 90 }
  | EditorClick.rotate270 => applyTransform { e with currentRotation := e.currentRotation - 90 }
  | EditorClick.flipH => applyTransform { e with currentFlipH := e.currentFlipH * -1 }
  | EditorClick.flipV => applyTransform { e with currentFlipV := e.currentFlipV * -1 }

/-- The editor after a sequence of clicks. -/
def editorRun (e : Editor) (clicks : List EditorClick) : Editor :=
  clicks.foldl editorClick e

/-! ## Events -/

/-- The events that drive the registry: the calls made by the page's handlers and the
resumptions of suspended `async` functions. -/
inductive Op where
  | handleFilesAppend (convertedFiles : List File) (containerWidth : Int)
  | removeFile (index : Int)
  | toggleSelection (index : Int)
  | selectAll
  | deselectAll
  | invertSelection
  | deleteSelected
  | deleteFiles (filesToProcess : List File) (now : Nat)
  | clearFiles
  | saveSelectionState (now : Nat)
  | restoreSelectionState
  | createTrackedURL (blob : File) (fileIndex : Option Int)
  | revokeFileURLs (fileIndex : Int)
  | revokeAllTrackedURLs
  | showPreview
  | showPreviewFrom (i : Nat)
  | renderVisibleItems
  | handleVirtualScroll (scrollTop offsetHeight : Int)
  | renderPDFWithWorker_onmessage (index : Int) (blob : File)
  | renderPDFMainThread_done (index : Int) (pdf : Nat)
deriving DecidableEq, Repr

/-- The state after one event. -/
def step (s : State) : Op → State
  | Op.handleFilesAppend convertedFiles w => handleFilesAppend s convertedFiles w
  | Op.removeFile index => removeFile s index
  | Op.toggleSelection index => toggleSelection s index
  | Op.selectAll => selectAll s
  | Op.deselectAll => deselectAll s
  | Op.invertSelection => invertSelection s
  | Op.deleteSelected => deleteSelected s
  | Op.deleteFiles fs now => deleteFiles s fs now
  | Op.clearFiles => clearFiles s
  | Op.saveSelectionState now => saveSelectionState s now
  | Op.restoreSelectionState => (restoreSelectionState s).2
  | Op.createTrackedURL blob fileIndex => (createTrackedURL s blob fileIndex).2
  | Op.revokeFileURLs i => revokeFileURLs s i
  | Op.revokeAllTrackedURLs => revokeAllTrackedURLs s
  | Op.showPreview => showPreview s
  | Op.showPreviewFrom i => showPreviewFrom s i
  | Op.renderVisibleItems => renderVisibleItems s
  | Op.handleVirtualScroll t h => handleVirtualScroll s t h
  | Op.renderPDFWithWorker_onmessage index blob => renderPDFWithWorker_onmessage s index blob
  | Op.renderPDFMainThread_done index pdf => renderPDFMainThread_done s index pdf

/-- The state after a sequence of events. -/
def run (s : State) (ops : List Op) : State :=
  ops.foldl step s

/-- Every event of the sequence satisfies the guard `g` in the state it is applied to. -/
def Guarded (g : State → Op → Bool) : State → List Op → Bool
  | _, [] => true
  | s, op :: rest => g s op && Guarded g (step s op) rest

/-- The state of a freshly loaded page. -/
def init : State := {}

/-! ## Frames, invariants and example states used by the theorems -/

/-- What rendering leaves alone: `showPreview`, `renderVisibleItems` and the URL tracker
write only `fileObjectURLs`, `allObjectURLs`, `previewChildren` and the object-URL store. -/
structure RenderFrame (s t : State) : Prop where
  files : t.files = s.files
  selectedIndices : t.selectedIndices = s.selectedIndices
  pdfCleanupTasks : t.pdfCleanupTasks = s.pdfCleanupTasks
  currentMemoryUsage : t.currentMemoryUsage = s.currentMemoryUsage
  selectionHistory : t.selectionHistory = s.selectionHistory
  canRestoreSelection : t.canRestoreSelection = s.canRestoreSelection
  virtualScrollEnabled : t.virtualScrollEnabled = s.virtualScrollEnabled
  visibleRange : t.visibleRange = s.visibleRange
  destroyedPdfs : t.destroyedPdfs = s.destroyedPdfs

/-- Four image files and a PDF used in the examples. -/
def fileA : File := { ref := 1, name := "A.png", type := "image/png", size := 10 }

/-- Second example image. -/
def fileB : File := { ref := 2, name := "B.png", type := "image/png", size := 20 }

/-- Third example image. -/
def fileC : File := { ref := 3, name := "C.png", type := "image/png", size := 30 }

/-- Fourth example image. -/
def fileD : File := { ref := 4, name := "D.png", type := "image/png", size := 40 }

/-- An example PDF. -/
def fileP : File := { ref := 5, name := "P.pdf", type := "application/pdf", size := 50 }

/-- The registry `[A, B, C, D]` with selection `{1, 3}`, all four cards rendered. -/
def exampleABCD : State :=
  { files := [fileA, fileB, fileC, fileD]
    selectedIndices := [1, 3]
    fileObjectURLs := [(0, [0]), (1, [1]), (2, [2]), (3, [3])]
    created := [fileA, fileB, fileC, fileD]
    previewChildren := 4 }

/-- The shift rule in the words of the specification: an index below the removed one is
unchanged, an index above it goes down by one, the removed index is dropped. -/
def shiftRule (removed : Int) (i : Int) : Option Int :=
  if i < removed then some i
  else if i > removed then some (i - 1)
  else none

/-- The shift rule applied to the key of a map entry; the value is kept. -/
def shiftEntry {β : Type} (removed : Int) (e : Int × β) : Option (Int × β) :=
  (shiftRule removed e.1).map (fun j => (j, e.2))

/-- A state whose three per-index collections are populated, for the re-keying example. -/
def exampleTracked : State :=
  { files := [fileA, fileP, fileB, fileP, fileC]
    selectedIndices := [4, 1, 0]
    fileObjectURLs := [(0, [0]), (2, [1, 2]), (4, [3])]
    pdfCleanupTasks := [(3, PdfTask.mainThread 7), (1, PdfTask.worker fileP 4)]
    created := [fileA, fileB, fileB, fileC, fileP]
    previewChildren := 5 }

/-- The lists of the state represent a `Set` and two `Map`s: no element and no key occurs
twice. -/
def Collections (s : State) : Prop :=
  s.selectedIndices.Nodup ∧ (mapKeys s.fileObjectURLs).Nodup ∧
    (mapKeys s.pdfCleanupTasks).Nodup

/-- Every selected index and every key of the two per-index maps is below `files.length`. -/
def IndicesBelowLength (s : State) : Prop :=
  (∀ i ∈ s.selectedIndices, i < (s.files.length : Int)) ∧
  (∀ i ∈ mapKeys s.fileObjectURLs, i < (s.files.length : Int)) ∧
  (∀ i ∈ mapKeys s.pdfCleanupTasks, i < (s.files.length : Int))

/-- The registry `[A, B, C, D]` with the stale selection `{4}`. -/
def exampleStale : State :=
  { files := [fileA, fileB, fileC, fileD]
    selectedIndices := [4] }

/-- Whether the index is an index of `files`. -/
def inRange (s : State) (index : Int) : Bool :=
  decide (0 ≤ index ∧ index < (s.files.length : Int))

/-- The events of C4: appending, `removeFile` and `toggleSelection` at an index of `files`, the
selection mutators, the snapshot functions, `deleteSelected`, `clearFiles`, and the rendering
events, which can occur between any two of them. -/
def selectionEvents (s : State) : Op → Bool
  | Op.handleFilesAppend _ _ => true
  | Op.removeFile index => inRange s index
  | Op.toggleSelection index => inRange s index
  | Op.selectAll => true
  | Op.deselectAll => true
  | Op.invertSelection => true
  | Op.deleteSelected => true
  | Op.clearFiles => true
  | Op.saveSelectionState _ => true
  | Op.restoreSelectionState => true
  | Op.showPreview => true
  | Op.showPreviewFrom _ => true
  | Op.renderVisibleItems => true
  | Op.handleVirtualScroll _ _ => true
  | _ => false

/-- Every selected index is an index of `files`. -/
def SelectionInRange (s : State) : Prop :=
  ∀ i ∈ s.selectedIndices, 0 ≤ i ∧ i < (s.files.length : Int)

/-- A session that appends four files, selects two, removes one, uses the selection
mutators and the snapshot functions, and removes another file. -/
def exampleSession : List Op :=
  [Op.handleFilesAppend [fileA, fileB, fileC, fileD] 800,
   Op.toggleSelection 1, Op.toggleSelection 3, Op.removeFile 1,
   Op.saveSelectionState 1000, Op.invertSelection, Op.selectAll,
   Op.restoreSelectionState, Op.removeFile 0]

/-- Every key of the tracker map `m` is an index of `files`, and every URL recorded under a
key was created (`created[u]`) for the file that sits at that index. -/
def TrackerOn (files created : List File) (m : List (Int × List URL)) : Prop :=
  ∀ e ∈ m, (0 ≤ e.1 ∧ e.1 < (files.length : Int)) ∧
    ∀ u ∈ e.2, ∃ f, created[u]? = some f ∧ arrayAt files e.1 = some f

/-- The invariant of C5 on a state. -/
def TrackerLive (s : State) : Prop :=
  TrackerOn s.files s.created s.fileObjectURLs

/-- The events of C5: appending, allocating a preview URL for the file at an index of `files`
(`createTrackedURL(files[index], index)`), `removeFile` at an index of `files`, and the
rendering events, which allocate in the same way. -/
def trackerEvents (s : State) : Op → Bool
  | Op.handleFilesAppend _ _ => true
  | Op.createTrackedURL blob (some index) => decide (arrayAt s.files index = some blob)
  | Op.removeFile index => inRange s index
  | Op.showPreview => true
  | Op.showPreviewFrom _ => true
  | Op.renderVisibleItems => true
  | Op.handleVirtualScroll _ _ => true
  | _ => false

/-- A session for C5: twelve files are appended (the first ten are rendered at once, the last
two after the suspension of `showPreview`), one more preview URL is allocated for index `1`,
and index `0` is removed. -/
def exampleTrackerSession : List Op :=
  [Op.handleFilesAppend
     [fileA, fileB, fileP, fileC, fileD, fileA, fileB, fileC, fileD, fileA, fileB, fileC] 800,
   Op.showPreviewFrom 10,
   Op.createTrackedURL fileB (some 1),
   Op.removeFile 0]

/-- An image file with object identity `n`. -/
def imageFile (n : Nat) : File :=
  { ref := n, name := "image.png", type := "image/png", size := 1000 }

/-- The session of C6: fifty-one images are appended in a container 800 pixels wide, then the
container, 620 pixels high, receives a scroll event at offset `0`. -/
def leakSession : List Op :=
  [Op.handleFilesAppend ((List.range 51).map imageFile) 800,
   Op.handleVirtualScroll 0 620]

/-- The words of the specification for `removeMany(indices)`: `removeFile` applied once for
each index, in strictly descending order. -/
def removeManyDescending (s : State) (indices : List Int) : State :=
  (indices.insertionSort (fun a b => b ≤ a)).foldl removeFile s

/-- The session of C7: an image and a PDF are appended, the main-thread render of the PDF
preview completes, and the image is selected. -/
def deleteSession : List Op :=
  [Op.handleFilesAppend [fileA, fileP] 800,
   Op.renderPDFMainThread_done 1 7,
   Op.toggleSelection 0]

/-- The blob a PDF worker replies with. -/
def previewBlob : File := { ref := 100, name := "", type := "image/png", size := 2000 }

/-- The session of C9: a PDF is appended and its worker-rendered preview arrives. -/
def pdfSession : List Op :=
  [Op.handleFilesAppend [fileP] 800,
   Op.renderPDFWithWorker_onmessage 0 previewBlob]

/-- How often the URL `u` is recorded in the tracker map `m`. -/
def mapCount (m : List (Int × List URL)) (u : URL) : Nat :=
  match m with
  | [] => 0
  | e :: rest => e.2.count u + mapCount rest u

/-- How often the URL `u` is held by the tracker (in `fileObjectURLs` or `allObjectURLs`) or
has been passed to `URL.revokeObjectURL`. -/
def handleCount (s : State) (u : URL) : Nat :=
  mapCount s.fileObjectURLs u + s.allObjectURLs.count u + s.revoked.count u

/-- Every URL is tracked or revoked at most once in total, and a URL that has not been
created yet is neither. -/
def HandlesOnce (s : State) : Prop :=
  ∀ u, handleCount s u ≤ 1 ∧ (s.created.length ≤ u → handleCount s u = 0)

/-- The step from `s` to `t` revokes nothing, leaves `allObjectURLs` alone, records no URL
more often in `fileObjectURLs` and forgets no created URL. -/
def Quiet (s t : State) : Prop :=
  t.revoked = s.revoked ∧ t.allObjectURLs = s.allObjectURLs ∧
  (∀ u, mapCount t.fileObjectURLs u ≤ mapCount s.fileObjectURLs u) ∧
  s.created.length ≤ t.created.length

/-- The state `t` differs from `s` at most in the error queue (`errorQueue`, `errorTimers`,
`isShowingError`, and the logs `shownErrors`, `timersSet`). -/
def ErrorsOnly (s t : State) : Prop :=
  ∃ q tm b l n, t =
    { s with errorQueue := q, errorTimers := tm, isShowingError := b, shownErrors := l,
             timersSet := n }

/-- A PNG image of 20 MiB (`MAX_FILE_SIZE`) with object identity `n`. -/
def bigImage (n : Nat) : File :=
  { ref := n, name := "photo.png", type := "image/png", size := 20 * 1024 * 1024,
    bytes := [0x89, 0x50, 0x4e, 0x47, 0x0d, 0x0a, 0x1a, 0x0a] }

/-- A PNG image of one kibibyte. -/
def smallImage : File :=
  { ref := 1000, name := "icon.png", type := "image/png", size := 1024,
    bytes := [0x89, 0x50, 0x4e, 0x47, 0x0d, 0x0a, 0x1a, 0x0a] }

/-- Twenty-five images of 20 MiB each, 500 MiB together. -/
def fullBatch : List File := (List.range 25).map bigImage

/-- The state after `handleFiles` has accepted `fullBatch` on the freshly loaded page: the
registry holds exactly `MAX_TOTAL_MEMORY` bytes. -/
def fullState : State := handleFiles init fullBatch (fun _ => none) 800

/-- The state of C12: `fullState` after `removeFile(0)`. -/
def staleState : State := removeFile fullState 0

/-- The object `state` that `saveSelectionState()` pushes, taken in state `s` at time `now`. -/
def selectionSnapshot (s : State) (now : Nat) : SelectionSnapshot :=
  { indices := s.selectedIndices
    fileNames := s.selectedIndices.map (fun i => (arrayAt s.files i).map File.name)
    timestamp := now }

/-- The snapshots taken by the `saveSelectionState` calls of an event sequence, in the order
they were taken. -/
def snapshotsTaken : State → List Op → List SelectionSnapshot
  | _, [] => []
  | s, Op.saveSelectionState now :: rest =>
    selectionSnapshot s now :: snapshotsTaken (step s (Op.saveSelectionState now)) rest
  | s, op :: rest => snapshotsTaken (step s op) rest

/-- The events of C14: every event except those that clear the history, `clearFiles` and
`deleteFiles`. -/
def historyEvents (_s : State) : Op → Bool
  | Op.clearFiles => false
  | Op.deleteFiles _ _ => false
  | _ => true

/-- The last `n` entries of a list. -/
def lastN {α : Type} (n : Nat) (l : List α) : List α :=
  l.drop (l.length - n)

/-- Twelve `saveSelectionState` calls with a selection change before the last one. -/
def exampleSaves : List Op :=
  [Op.handleFilesAppend [fileA, fileB] 800,
   Op.saveSelectionState 1, Op.saveSelectionState 2, Op.saveSelectionState 3,
   Op.saveSelectionState 4, Op.saveSelectionState 5, Op.saveSelectionState 6,
   Op.saveSelectionState 7, Op.saveSelectionState 8, Op.saveSelectionState 9,
   Op.saveSelectionState 10, Op.saveSelectionState 11, Op.toggleSelection 1,
   Op.saveSelectionState 12]

/-- The image `x.png` of the snapshot example. -/
def fileX : File := { ref := 11, name := "x.png", type := "image/png", size := 10 }

/-- The image `y.png` of the snapshot example. -/
def fileY : File := { ref := 12, name := "y.png", type := "image/png", size := 10 }

/-- The words of the specification for `restore`: the current indices obtained by looking up
each name stored in a snapshot in the current file sequence; a name that no longer occurs
yields no index. -/
def lookedUpIndices (files : List File) (snapshot : SelectionSnapshot) : List Int :=
  snapshot.fileNames.filterMap (fun name =>
    (findIndexByName files name).map (fun (i : Nat) => (i : Int)))

/-- The `forEach` loop over `lastState.fileNames` in `restoreSelectionState`. -/
def restoreLoop (files : List File) (fileNames : List (Option String)) : List Int :=
  fileNames.foldl (fun acc fileName =>
    match findIndexByName files fileName with
    | some index => setAdd acc (index : Int)
    | none => acc) []

/-- The example of the specification: `y.png` and `x.png` are appended and both selected,
the selection is saved, `y.png` is removed (so `x.png` moves from index `1` to index `0`) and
the selection is emptied. -/
def restoreSession : List Op :=
  [Op.handleFilesAppend [fileY, fileX] 800,
   Op.toggleSelection 1, Op.toggleSelection 0,
   Op.saveSelectionState 7,
   Op.removeFile 0, Op.deselectAll]

/-- The state of the example before `restoreSelectionState`. -/
def restoreExample : State := run init restoreSession

/-- The same session without the removal: both saved names are still in the registry. -/
def restoreBoth : State :=
  run init [Op.handleFilesAppend [fileY, fileX] 800,
   Op.toggleSelection 1, Op.toggleSelection 0,
   Op.saveSelectionState 7, Op.deselectAll]

/-- The state of the example after a manual restore and a `deselectAll`: the history is not
empty, but `canRestoreSelection` has been reset. -/
def restoreSpent : State := deselectAll (manualRestoreSelection restoreExample)

/-- A registry emptied after a snapshot was saved: `x.png` is appended, selected, saved and
removed. -/
def restoreEmptied : State :=
  run init [Op.handleFilesAppend [fileX] 800, Op.toggleSelection 0,
   Op.saveSelectionState 7, Op.removeFile 0]

/-- The registry of the viewport example: two hundred images appended in a container 800
pixels wide (five items per row). -/
def viewportExample : State :=
  run init [Op.handleFilesAppend ((List.range 200).map imageFile) 800]

/-- The session of C18: sixty images are appended and the container is scrolled to offset
`1240`, the bottom of the twelve rows; then all files but the first ten are deleted. -/
def shrunkSession : List Op :=
  [Op.handleFilesAppend ((List.range 60).map imageFile) 800,
   Op.handleVirtualScroll 1240 620,
   Op.selectAll,
   Op.toggleSelection 0, Op.toggleSelection 1, Op.toggleSelection 2, Op.toggleSelection 3,
   Op.toggleSelection 4, Op.toggleSelection 5, Op.toggleSelection 6, Op.toggleSelection 7,
   Op.toggleSelection 8, Op.toggleSelection 9,
   Op.deleteSelected]

/-- The session of C19: fifty-one images are appended, one is removed, and the suspended
`showPreview` of the removal renders its remaining batches. -/
def thresholdSession : List Op :=
  [Op.handleFilesAppend ((List.range 51).map imageFile) 800,
   Op.removeFile 0,
   Op.showPreviewFrom 10, Op.showPreviewFrom 20, Op.showPreviewFrom 30, Op.showPreviewFrom 40]

/-- The file of the validation example: named `photo.png`, declared `image/png`, with the
leading bytes `FF D8 FF E0` of a JPEG. -/
def fakePng : File :=
  { ref := 21, name := "photo.png", type := "image/png", size := 4096,
    bytes := [0xff, 0xd8, 0xff, 0xe0, 0x00, 0x10, 0x4a, 0x46] }

/-- A PNG file whose leading bytes are the PNG signature. -/
def realPng : File :=
  { ref := 22, name := "Photo.PNG", type := "image/png", size := 4096,
    bytes := [0x89, 0x50, 0x4e, 0x47, 0x0d, 0x0a, 0x1a, 0x0a] }

/-- The declared types that have a registered signature. -/
def signedTypes : List String :=
  ["image/jpeg", "image/png", "image/webp", "application/pdf"]

/-- The eleven keys of the table `modeRules`. -/
def knownModes : List String :=
  ["pdf", "merge", "split", "jpeg", "compress", "rotate", "filter", "convert", "editor",
   "delete", "ocr"]

/-- The words of the specification for a type class of a mode rule: the class `image` holds
the declared types of `VALID_IMAGE_TYPES`, every other class (`application/pdf`, an exact
MIME type) holds the files declared with that type. -/
def inTypeClass (file : File) (typeClass : String) : Bool :=
  if typeClass = "image" then decide (file.type ∈ VALID_IMAGE_TYPES)
  else decide (file.type = typeClass)

/-- The words of the specification for the list handed to a pipeline: the files at the
selected indices, taken in ascending index order. -/
def selectedInRegistryOrder (files : List File) (selection : List Int) : List File :=
  (selection.insertionSort (fun a b => a ≤ b)).filterMap (arrayAt files)

/-- The browser's timer table for the error display: next to the module state, the identifiers
of the four-second timers of `showNextError` whose callback has run (`fired`) or that
`clearErrorQueue` has cleared (`cleared`), and the number of 300 ms timeouts set by those
callbacks that have not run yet (`delays`). A timer set by `showNextError` has the
identifier `timersSet` had at that moment, so the timers set so far are `0 .. timersSet - 1`. -/
structure ErrorClock where
  state : State
  fired : List Nat := []
  cleared : List Nat := []
  delays : Nat := 0
deriving DecidableEq, Repr

/-- The events of the error display: a call of `showError`, the expiry of the four-second
timer `timer`, the expiry of a 300 ms timeout, and a call of `clearErrorQueue`. -/
inductive ErrorEvent where
  | showError (message : Message) (priority : String)
  | timerFires (timer : Nat)
  | delayElapses
  | clearErrorQueue
deriving DecidableEq, Repr

/-- The state after one event. The callback of a four-second timer hides the message and sets
the 300 ms timeout whose callback is `showNextError`; a timer that was not set, has fired or
was cleared does not fire, and without a pending timeout none elapses. -/
def errorStep (c : ErrorClock) : ErrorEvent → ErrorClock
  | ErrorEvent.showError message priority => { c with state := showError c.state message priority }
  | ErrorEvent.timerFires timer =>
    if timer < c.state.timersSet ∧ timer ∉ c.fired ∧ timer ∉ c.cleared then
      { c with fired := c.fired ++ [timer], delays := c.delays + 1 }
    else c
  | ErrorEvent.delayElapses =>
    if c.delays > 0 then { c with state := showNextError c.state, delays := c.delays - 1 }
    else c
  | ErrorEvent.clearErrorQueue =>
    { c with state := clearErrorQueue c.state, cleared := c.cleared ++ c.state.errorTimers }

/-- The state after a sequence of events. -/
def errorRun (c : ErrorClock) (events : List ErrorEvent) : ErrorClock :=
  events.foldl errorStep c

/-- The entries passed to `showError` by a sequence of events, in order. -/
def reported : List ErrorEvent → List ErrorEntry
  | [] => []
  | ErrorEvent.showError message priority :: rest =>
    { message := message, priority := priority } :: reported rest
  | _ :: rest => reported rest

/-- The number of four-second timers that are set and have neither fired nor been cleared. -/
def pendingTimers (c : ErrorClock) : Nat :=
  ((List.range c.state.timersSet).filter
    (fun t => decide (t ∉ c.fired ∧ t ∉ c.cleared))).length

/-- Three errors reported in quick succession, the second and third while the first is on
display, with the timers of the first two expiring in between. -/
def errorSession : List ErrorEvent :=
  [ErrorEvent.showError (Message.other "first") "error",
   ErrorEvent.showError (Message.other "second") "warning",
   ErrorEvent.timerFires 0, ErrorEvent.delayElapses,
   ErrorEvent.showError (Message.other "third") "error",
   ErrorEvent.timerFires 1, ErrorEvent.delayElapses]

/-- The registry together with the runs of `handleFiles` that are suspended in their
validation loop (at `await validateFileType(f)`, after the capacity check and before
`files.push`), each given by its `filteredFiles`, oldest first. -/
structure Registry where
  state : State
  suspended : List (List File) := []
deriving DecidableEq, Repr

/-- The events of C30 on the registry: a call of `handleFiles`, which runs up to its first
`await`; the rest of a suspended run of `handleFiles` (the validation loop, in which no HEIC
conversion yields a file, and the append); `removeFile`, `deleteSelected`, the confirmed
`deleteFiles` and `clearFiles`. The validation loop reads no module state and writes only the
error queue, so where its iterations fall among the other events matters to the error queue
only, and the loop is taken in one piece with the append. -/
inductive RegistryOp where
  | handleFiles (newFiles : List File)
  | handleFilesResume (run : Nat) (containerWidth : Int)
  | removeFile (index : Int)
  | deleteSelected
  | deleteFiles (filesToProcess : List File) (now : Nat)
  | clearFiles
deriving DecidableEq, Repr

/-- The registry after one event. A run that is not suspended cannot go on. -/
def registryStep (r : Registry) : RegistryOp → Registry
  | RegistryOp.handleFiles newFiles =>
    match handleFilesStart r.state newFiles with
    | (s1, none) => { r with state := s1 }
    | (s1, some filteredFiles) => { state := s1, suspended := r.suspended ++ [filteredFiles] }
  | RegistryOp.handleFilesResume run w =>
    match r.suspended[run]? with
    | none => r
    | some filteredFiles =>
      let (s2, convertedFiles) := handleFilesConvert r.state filteredFiles (fun _ => none)
      { state := handleFilesAppend s2 convertedFiles w, suspended := r.suspended.eraseIdx run }
  | RegistryOp.removeFile index => { r with state := removeFile r.state index }
  | RegistryOp.deleteSelected => { r with state := deleteSelected r.state }
  | RegistryOp.deleteFiles fs now => { r with state := deleteFiles r.state fs now }
  | RegistryOp.clearFiles => { r with state := clearFiles r.state }

/-- The registry after a sequence of events. -/
def registryRun (r : Registry) (ops : List RegistryOp) : Registry :=
  ops.foldl registryStep r

/-- The guard of a session without overlapping runs: `handleFiles` is called only while no
run of it is suspended. -/
def noOverlap (r : Registry) : RegistryOp → Bool
  | RegistryOp.handleFiles _ => r.suspended.isEmpty
  | _ => true

/-- Every event of the sequence satisfies the guard `g` in the registry it is applied to. -/
def RegistryGuarded (g : Registry → RegistryOp → Bool) : Registry → List RegistryOp → Bool
  | _, [] => true
  | r, op :: rest => g r op && RegistryGuarded g (registryStep r op) rest

/-- The budget of C30: the files fit the cached usage, which fits `MAX_TOTAL_MEMORY`, and
there are at most `MAX_FILES_COUNT` files. -/
def WithinBudget (s : State) : Prop :=
  totalSize s.files ≤ s.currentMemoryUsage ∧ s.currentMemoryUsage ≤ MAX_TOTAL_MEMORY ∧
    s.files.length ≤ MAX_FILES_COUNT

/-- A suspended run with the files `filteredFiles` passed the capacity check, and the check
would still pass in state `s`. -/
def CheckPassed (s : State) (filteredFiles : List File) : Prop :=
  s.currentMemoryUsage + totalSize filteredFiles ≤ MAX_TOTAL_MEMORY ∧
    s.files.length + filteredFiles.length ≤ MAX_FILES_COUNT

/-- The invariant of a session without overlapping runs: the registry is within its budget, at
most one run is suspended, and the check of a suspended run still passes. -/
def RegistryInvariant (r : Registry) : Prop :=
  WithinBudget r.state ∧ r.suspended.length ≤ 1 ∧
    ∀ filteredFiles ∈ r.suspended, CheckPassed r.state filteredFiles

/-- A file with three dots in its name. -/
def multiDot : File :=
  { ref := 31, name := "my.photo.jpg", type := "image/jpeg", size := 4096,
    bytes := [0xff, 0xd8, 0xff, 0xe0, 0x00, 0x10, 0x4a, 0x46] }

/-- The invariant of the error display while `clearErrorQueue` is not called: the entries
displayed so far followed by the pending ones are the entries reported so far (`entries`);
an idle display has an empty queue; exactly one timer or timeout is pending while an error
is on display and none otherwise; and only timers that were set have fired. -/
def ErrorInvariant (c : ErrorClock) (entries : List ErrorEntry) : Prop :=
  c.state.shownErrors ++ c.state.errorQueue = entries ∧
  (c.state.isShowingError = false → c.state.errorQueue = []) ∧
  pendingTimers c + c.delays = (if c.state.isShowingError = true then 1 else 0) ∧
  (∀ t ∈ c.fired, t < c.state.timersSet) ∧
  c.cleared = []

/-- The code units of the name `..a<b/c.txt`. -/
def dottedName : List Nat :=
  [0x2e, 0x2e, 0x61, 0x3c, 0x62, 0x2f, 0x63, 0x2e, 0x74, 0x78, 0x74]

/-- The step from `s` to `t` only removes files and leaves the cached `currentMemoryUsage`
alone. -/
def Shrinks (s t : State) : Prop :=
  t.files.Sublist s.files ∧ t.currentMemoryUsage = s.currentMemoryUsage

/-- A session without overlapping runs: the twenty-five images of 20 MiB are appended, a
further image is refused, one image is removed and the further image is refused again. -/
def budgetSession : List RegistryOp :=
  [RegistryOp.handleFiles fullBatch, RegistryOp.handleFilesResume 0 800,
   RegistryOp.handleFiles [smallImage],
   RegistryOp.removeFile 0, RegistryOp.handleFiles [smallImage]]

/-- A second batch of twenty-five images of 20 MiB. -/
def secondBatch : List File := (List.range 25).map (fun n => bigImage (n + 25))

/-- Two runs of `handleFiles` that overlap: the second run, for a second batch of twenty-five
images of 20 MiB, starts while the first is suspended in its validation loop, so both pass the
capacity check against the empty registry before either appends. -/
def overlappingRuns : State :=
  match handleFilesStart init fullBatch with
  | (s1, some filtered1) =>
    match handleFilesStart s1 secondBatch with
    | (s2, some filtered2) =>
      let (s3, converted1) := handleFilesConvert s2 filtered1 (fun _ => none)
      let s4 := handleFilesAppend s3 converted1 800
      let (s5, converted2) := handleFilesConvert s4 filtered2 (fun _ => none)
      handleFilesAppend s5 converted2 800
    | (s2, none) => s2
  | (s1, none) => s1

/-- The same two runs as events of the registry: both calls, then the rest of each run. -/
def overlapSession : List RegistryOp :=
  [RegistryOp.handleFiles fullBatch, RegistryOp.handleFiles secondBatch,
   RegistryOp.handleFilesResume 0 800, RegistryOp.handleFilesResume 0 800]

/-! # Theorems -/

/-! ## Lemmas on the collections -/

theorem foldl_preserves {α σ : Type} (P : σ → Prop) (f : σ → α → σ)
    (hf : ∀ st x, P st → P (f st x)) (l : List α) (s : σ) (hs : P s) :
    P (l.foldl f s) := by
  induction l generalizing s with
  | nil => simpa using hs
  | cons x xs ih => exact ih _ (hf _ _ hs)

theorem mem_setAdd {α : Type} [DecidableEq α] (s : List α) (x y : α) :
    y ∈ setAdd s x ↔ y ∈ s ∨ y = x := by
  unfold setAdd
  split
  · constructor
    · intro h; exact Or.inl h
    · rintro (h | h)
      · exact h
      · subst h; assumption
  · simp

theorem mem_setDelete {α : Type} [DecidableEq α] (s : List α) (x y : α) :
    y ∈ setDelete s x ↔ y ∈ s ∧ y ≠ x := by
  simp [setDelete]

theorem nodup_setAdd {α : Type} [DecidableEq α] (s : List α) (x : α) (h : s.Nodup) :
    (setAdd s x).Nodup := by
  unfold setAdd
  split
  · exact h
  · rename_i hx
    exact List.Nodup.append h (List.nodup_singleton x) (by simpa using hx)

theorem splice1_of_nonneg {α : Type} (xs : List α) (k : Int) (hk : 0 ≤ k) :
    splice1 xs k = xs.eraseIdx k.toNat := by
  unfold splice1
  have h1 : ¬ k < 0 := not_lt.mpr hk
  simp only [h1, if_false]
  by_cases hlen : k ≤ (xs.length : Int)
  · rw [min_eq_left hlen]
  · have hlt : (xs.length : Int) < k := not_le.mp hlen
    rw [min_eq_right (le_of_lt hlt)]
    have h2 : xs.length ≤ k.toNat := by omega
    rw [List.eraseIdx_of_length_le h2]
    simp

theorem mem_shiftSelection_aux (index : Int) (sel acc : List Int) (j : Int) :
    j ∈ sel.foldl (fun acc i =>
        if i > index then setAdd acc (i - 1)
        else if i < index then setAdd acc i
        else acc) acc ↔
      j ∈ acc ∨ ∃ i ∈ sel, (i > index ∧ j = i - 1) ∨ (i < index ∧ j = i) := by
  induction sel generalizing acc with
  | nil => simp
  | cons a rest ih =>
    rw [List.foldl_cons, ih]
    by_cases h1 : a > index
    · simp only [h1, if_true, mem_setAdd, List.mem_cons]
      constructor
      · rintro ((h | h) | ⟨i, hi, h⟩)
        · exact Or.inl h
        · exact Or.inr ⟨a, Or.inl rfl, Or.inl ⟨h1, h⟩⟩
        · exact Or.inr ⟨i, Or.inr hi, h⟩
      · rintro (h | ⟨i, (hi | hi), h⟩)
        · exact Or.inl (Or.inl h)
        · subst hi
          rcases h with ⟨_, h⟩ | ⟨h, _⟩
          · exact Or.inl (Or.inr h)
          · omega
        · exact Or.inr ⟨i, hi, h⟩
    · by_cases h2 : a < index
      · simp only [h1, h2, if_true, if_false, mem_setAdd, List.mem_cons]
        constructor
        · rintro ((h | h) | ⟨i, hi, h⟩)
          · exact Or.inl h
          · exact Or.inr ⟨a, Or.inl rfl, Or.inr ⟨h2, h⟩⟩
          · exact Or.inr ⟨i, Or.inr hi, h⟩
        · rintro (h | ⟨i, (hi | hi), h⟩)
          · exact Or.inl (Or.inl h)
          · subst hi
            rcases h with ⟨h, _⟩ | ⟨_, h⟩
            · omega
            · exact Or.inl (Or.inr h)
          · exact Or.inr ⟨i, hi, h⟩
      · simp only [h1, h2, if_false, List.mem_cons]
        constructor
        · rintro (h | ⟨i, hi, h⟩)
          · exact Or.inl h
          · exact Or.inr ⟨i, Or.inr hi, h⟩
        · rintro (h | ⟨i, (hi | hi), h⟩)
          · exact Or.inl h
          · subst hi
            rcases h with ⟨h, _⟩ | ⟨h, _⟩ <;> omega
          · exact Or.inr ⟨i, hi, h⟩

theorem mem_shiftSelection (sel : List Int) (index j : Int) :
    j ∈ shiftSelection sel index ↔
      ∃ i ∈ sel, (i > index ∧ j = i - 1) ∨ (i < index ∧ j = i) := by
  unfold shiftSelection
  rw [mem_shiftSelection_aux]
  simp

theorem nodup_shiftSelection (sel : List Int) (index : Int) :
    (shiftSelection sel index).Nodup := by
  unfold shiftSelection
  refine foldl_preserves (fun acc : List Int => acc.Nodup) _ ?_ _ _ List.nodup_nil
  intro st x h
  dsimp only
  split
  · exact nodup_setAdd _ _ h
  · split
    · exact nodup_setAdd _ _ h
    · exact h

end Convertion

namespace Convertion

/-! ## What rendering leaves alone -/

theorem renderFrame_refl (s : State) : RenderFrame s s :=
  ⟨rfl, rfl, rfl, rfl, rfl, rfl, rfl, rfl, rfl⟩

theorem renderFrame_trans {s t u : State} (h1 : RenderFrame s t) (h2 : RenderFrame t u) :
    RenderFrame s u :=
  ⟨h2.files.trans h1.files, h2.selectedIndices.trans h1.selectedIndices,
   h2.pdfCleanupTasks.trans h1.pdfCleanupTasks,
   h2.currentMemoryUsage.trans h1.currentMemoryUsage,
   h2.selectionHistory.trans h1.selectionHistory,
   h2.canRestoreSelection.trans h1.canRestoreSelection,
   h2.virtualScrollEnabled.trans h1.virtualScrollEnabled,
   h2.visibleRange.trans h1.visibleRange,
   h2.destroyedPdfs.trans h1.destroyedPdfs⟩

theorem renderFrame_foldl {α : Type} (f : State → α → State)
    (hf : ∀ st x, RenderFrame st (f st x)) (l : List α) (s : State) :
    RenderFrame s (l.foldl f s) :=
  foldl_preserves (fun t => RenderFrame s t) f
    (fun st x h => renderFrame_trans h (hf st x)) l s (renderFrame_refl s)

theorem renderFrame_revokeObjectURL (s : State) (u : URL) :
    RenderFrame s (revokeObjectURL s u) :=
  ⟨rfl, rfl, rfl, rfl, rfl, rfl, rfl, rfl, rfl⟩

theorem renderFrame_revokeFileURLs (s : State) (i : Int) :
    RenderFrame s (revokeFileURLs s i) := by
  unfold revokeFileURLs
  split
  · rename_i urls _
    have h := renderFrame_foldl revokeObjectURL renderFrame_revokeObjectURL urls s
    exact ⟨h.files, h.selectedIndices, h.pdfCleanupTasks, h.currentMemoryUsage,
      h.selectionHistory, h.canRestoreSelection, h.virtualScrollEnabled, h.visibleRange,
      h.destroyedPdfs⟩
  · exact renderFrame_refl s

theorem renderFrame_createTrackedURL (s : State) (blob : File) (i : Int) :
    RenderFrame s (createTrackedURL s blob (some i)).2 :=
  ⟨rfl, rfl, rfl, rfl, rfl, rfl, rfl, rfl, rfl⟩

theorem renderFrame_createPreviewCard (s : State) (file : File) (i : Int) :
    RenderFrame s (createPreviewCard s file i) := by
  unfold createPreviewCard
  split
  · exact renderFrame_refl s
  · exact renderFrame_createTrackedURL s file i

theorem renderFrame_appendPreviewCard (s : State) (file : File) (i : Int) :
    RenderFrame s (appendPreviewCard s file i) := by
  have h := renderFrame_createPreviewCard s file i
  exact ⟨h.files, h.selectedIndices, h.pdfCleanupTasks, h.currentMemoryUsage,
    h.selectionHistory, h.canRestoreSelection, h.virtualScrollEnabled, h.visibleRange,
    h.destroyedPdfs⟩

theorem renderFrame_showPreviewFrom (s : State) (i : Nat) :
    RenderFrame s (showPreviewFrom s i) := by
  unfold showPreviewFrom
  split
  · exact renderFrame_foldl _ (fun st e => renderFrame_appendPreviewCard st _ _) _ s
  · exact renderFrame_refl s

theorem renderFrame_showPreview (s : State) : RenderFrame s (showPreview s) := by
  unfold showPreview
  have h1 := renderFrame_foldl (fun st (i : Nat) => revokeFileURLs st (i : Int))
    (fun st i => renderFrame_revokeFileURLs st _) (List.range s.previewChildren) s
  refine renderFrame_trans ?_ (renderFrame_showPreviewFrom _ 0)
  exact ⟨h1.files, h1.selectedIndices, h1.pdfCleanupTasks, h1.currentMemoryUsage,
    h1.selectionHistory, h1.canRestoreSelection, h1.virtualScrollEnabled, h1.visibleRange,
    h1.destroyedPdfs⟩

theorem renderFrame_renderVisibleItems (s : State) : RenderFrame s (renderVisibleItems s) := by
  unfold renderVisibleItems
  have h0 : RenderFrame s { s with previewChildren := 0 } :=
    ⟨rfl, rfl, rfl, rfl, rfl, rfl, rfl, rfl, rfl⟩
  dsimp only
  split
  · exact h0
  · refine renderFrame_trans h0 (renderFrame_foldl _ ?_ _ _)
    intro st i
    dsimp only
    split
    · exact renderFrame_appendPreviewCard st _ _
    · exact renderFrame_refl st

/-! ## C1: `removeFile` on an index of the registry -/

theorem removeFileReindex_files (s : State) (k : Int) :
    (removeFileReindex s k).files = splice1 s.files k := by
  have h1 := renderFrame_revokeFileURLs s k
  have h2 : (cleanupPDFPreview (revokeFileURLs s k) k).files = (revokeFileURLs s k).files := by
    unfold cleanupPDFPreview
    split
    · split <;> rfl
    · rfl
  show splice1 (cleanupPDFPreview (revokeFileURLs s k) k).files k = _
  rw [h2, h1.files]

theorem removeFileReindex_selectedIndices (s : State) (k : Int) :
    (removeFileReindex s k).selectedIndices =
      shiftSelection (setDelete s.selectedIndices k) k := by
  have h1 := renderFrame_revokeFileURLs s k
  have h2 : (cleanupPDFPreview (revokeFileURLs s k) k).selectedIndices
      = (revokeFileURLs s k).selectedIndices := by
    unfold cleanupPDFPreview
    split
    · split <;> rfl
    · rfl
  show shiftSelection (setDelete (cleanupPDFPreview (revokeFileURLs s k) k).selectedIndices k) k
    = _
  rw [h2, h1.selectedIndices]

theorem removeFile_files (s : State) (k : Int) :
    (removeFile s k).files = splice1 s.files k := by
  unfold removeFile
  rw [(renderFrame_showPreview _).files, removeFileReindex_files]

theorem removeFile_selectedIndices (s : State) (k : Int) :
    (removeFile s k).selectedIndices = shiftSelection (setDelete s.selectedIndices k) k := by
  unfold removeFile
  rw [(renderFrame_showPreview _).selectedIndices, removeFileReindex_selectedIndices]

/-- C1: for an index `k` with `0 ≤ k < files.length`, `removeFile(k)` leaves the file sequence
equal to the old one with exactly the `k`-th entry erased (so the rest keeps its order and the
length drops by one), and the new selection is the set
`{i | i ∈ S, i < k} ∪ {i - 1 | i ∈ S, i > k}` of the old selection `S`, without duplicates. -/
theorem removeFile_erases_and_shifts (s : State) (k : Int)
    (h0 : 0 ≤ k) (hk : k < (s.files.length : Int)) :
    (removeFile s k).files = s.files.eraseIdx k.toNat ∧
    (removeFile s k).files.length = s.files.length - 1 ∧
    (∀ j : Int, j ∈ (removeFile s k).selectedIndices ↔
      (j ∈ s.selectedIndices ∧ j < k) ∨ (∃ i ∈ s.selectedIndices, i > k ∧ j = i - 1)) ∧
    (removeFile s k).selectedIndices.Nodup := by
  have hf : (removeFile s k).files = s.files.eraseIdx k.toNat := by
    rw [removeFile_files, splice1_of_nonneg _ _ h0]
  refine ⟨hf, ?_, ?_, ?_⟩
  · rw [hf, List.length_eraseIdx]
    have : k.toNat < s.files.length := by omega
    simp [this]
  · intro j
    rw [removeFile_selectedIndices, mem_shiftSelection]
    constructor
    · rintro ⟨i, hi, h⟩
      rw [mem_setDelete] at hi
      rcases h with ⟨h1, h2⟩ | ⟨h1, h2⟩
      · exact Or.inr ⟨i, hi.1, h1, h2⟩
      · subst h2; exact Or.inl ⟨hi.1, h1⟩
    · rintro (⟨h1, h2⟩ | ⟨i, hi, h1, h2⟩)
      · exact ⟨j, (mem_setDelete _ _ _).mpr ⟨h1, by omega⟩, Or.inr ⟨h2, rfl⟩⟩
      · exact ⟨i, (mem_setDelete _ _ _).mpr ⟨hi, by omega⟩, Or.inl ⟨h1, h2⟩⟩
  · rw [removeFile_selectedIndices]
    exact nodup_shiftSelection _ _

/-- C1, the example of the specification: from registry `[A, B, C, D]` with selection `{1, 3}`,
`removeFile(1)` gives registry `[A, C, D]` and selection `{2}`. -/
theorem removeFile_erases_and_shifts_witness :
    (removeFile exampleABCD 1).files = [fileA, fileC, fileD] ∧
    (removeFile exampleABCD 1).selectedIndices = [2] ∧
    ((removeFile exampleABCD 1).files = exampleABCD.files.eraseIdx (1 : Int).toNat ∧
     (removeFile exampleABCD 1).files.length = exampleABCD.files.length - 1 ∧
     (∀ j : Int, j ∈ (removeFile exampleABCD 1).selectedIndices ↔
       (j ∈ exampleABCD.selectedIndices ∧ j < 1) ∨
         (∃ i ∈ exampleABCD.selectedIndices, i > 1 ∧ j = i - 1)) ∧
     (removeFile exampleABCD 1).selectedIndices.Nodup) :=
  ⟨by decide, by decide, removeFile_erases_and_shifts exampleABCD 1 (by decide) (by decide)⟩

/-! ## C2: one shift rule for the selection and the two side maps -/

theorem mapSet_of_not_mem {β : Type} (m : List (Int × β)) (k : Int) (v : β)
    (h : k ∉ mapKeys m) : mapSet m k v = m ++ [(k, v)] := by
  induction m with
  | nil => rfl
  | cons e rest ih =>
    obtain ⟨j, w⟩ := e
    have hj : ¬ j = k := by
      intro hjk
      apply h
      simp [mapKeys, hjk]
    have hrest : k ∉ mapKeys rest := by
      intro hmem
      apply h
      simp only [mapKeys, List.map_cons, List.mem_cons]
      exact Or.inr hmem
    simp [mapSet, hj, ih hrest]

theorem mapDelete_of_get_none {β : Type} (m : List (Int × β)) (k : Int)
    (h : mapGet m k = none) : mapDelete m k = m := by
  induction m with
  | nil => rfl
  | cons e rest ih =>
    obtain ⟨j, w⟩ := e
    unfold mapGet at h
    by_cases hj : j = k
    · simp [hj] at h
    · simp only [hj, if_false] at h
      have := ih h
      unfold mapDelete at this ⊢
      rw [List.filter_cons_of_pos (by simpa using hj), this]

theorem mapKeys_append {β : Type} (a b : List (Int × β)) :
    mapKeys (a ++ b) = mapKeys a ++ mapKeys b := by
  simp [mapKeys]

theorem shiftRule_injective (k a b j : Int)
    (ha : shiftRule k a = some j) (hb : shiftRule k b = some j) : a = b := by
  unfold shiftRule at ha hb
  by_cases h1 : a < k <;> by_cases h2 : a > k <;> by_cases h3 : b < k <;>
    by_cases h4 : b > k <;> simp [h1, h2, h3, h4] at ha hb <;> omega

theorem mapKeys_filterMap_shiftEntry {β : Type} (m : List (Int × β)) (k : Int) :
    mapKeys (m.filterMap (shiftEntry k)) = (mapKeys m).filterMap (shiftRule k) := by
  induction m with
  | nil => rfl
  | cons e rest ih =>
    obtain ⟨j, w⟩ := e
    unfold mapKeys at ih ⊢
    cases hr : shiftRule k j with
    | none => simp [List.filterMap_cons, shiftEntry, hr, ih]
    | some x => simp [List.filterMap_cons, shiftEntry, hr, ih]

theorem nodup_filterMap_shiftRule (l : List Int) (k : Int) (h : l.Nodup) :
    (l.filterMap (shiftRule k)).Nodup := by
  refine List.Nodup.filterMap ?_ h
  intro a a2 b hb hb2
  exact shiftRule_injective k a a2 b (by simpa using hb) (by simpa using hb2)

theorem shiftFold_eq {β : Type} (k : Int) (m acc : List (Int × β))
    (h : (mapKeys (acc ++ m.filterMap (shiftEntry k))).Nodup) :
    m.foldl (fun acc e =>
      if e.1 < k then mapSet acc e.1 e.2
      else if e.1 > k then mapSet acc (e.1 - 1) e.2
      else acc) acc = acc ++ m.filterMap (shiftEntry k) := by
  induction m generalizing acc with
  | nil => simp
  | cons e rest ih =>
    obtain ⟨j, w⟩ := e
    rw [List.foldl_cons]
    by_cases h1 : j < k
    · have hs : shiftEntry k (j, w) = some (j, w) := by simp [shiftEntry, shiftRule, h1]
      rw [List.filterMap_cons, hs] at h ⊢
      have hnot : j ∉ mapKeys acc := by
        rw [mapKeys_append] at h
        have := (List.nodup_append.mp h).2.2
        intro hmem
        exact this hmem (by simp [mapKeys])
      simp only [h1, if_true]
      rw [mapSet_of_not_mem _ _ _ hnot, ih]
      · simp
      · simpa using h
    · by_cases h2 : j > k
      · have hs : shiftEntry k (j, w) = some (j - 1, w) := by
          simp [shiftEntry, shiftRule, h1, h2]
        rw [List.filterMap_cons, hs] at h ⊢
        have hnot : (j - 1) ∉ mapKeys acc := by
          rw [mapKeys_append] at h
          have := (List.nodup_append.mp h).2.2
          intro hmem
          exact this hmem (by simp [mapKeys])
        simp only [h1, h2, if_true, if_false]
        rw [mapSet_of_not_mem _ _ _ hnot, ih]
        · simp
        · simpa using h
      · have hs : shiftEntry k (j, w) = none := by simp [shiftEntry, shiftRule, h1, h2]
        rw [List.filterMap_cons, hs] at h ⊢
        simp only [h1, h2, if_false]
        exact ih acc h

theorem copyFold_eq {β : Type} (m acc : List (Int × β))
    (h : (mapKeys (acc ++ m)).Nodup) :
    m.foldl (fun acc e => mapSet acc e.1 e.2) acc = acc ++ m := by
  induction m generalizing acc with
  | nil => simp
  | cons e rest ih =>
    obtain ⟨j, w⟩ := e
    rw [List.foldl_cons]
    have hnot : j ∉ mapKeys acc := by
      rw [mapKeys_append] at h
      have := (List.nodup_append.mp h).2.2
      intro hmem
      exact this hmem (by simp [mapKeys])
    rw [mapSet_of_not_mem _ _ _ hnot, ih]
    · simp
    · simpa using h

theorem shiftMap_eq_filterMap {β : Type} (m : List (Int × β)) (k : Int)
    (h : (mapKeys m).Nodup) : shiftMap m k = m.filterMap (shiftEntry k) := by
  have hk : (mapKeys (m.filterMap (shiftEntry k))).Nodup := by
    rw [mapKeys_filterMap_shiftEntry]
    exact nodup_filterMap_shiftRule _ _ h
  unfold shiftMap
  rw [shiftFold_eq k m [] (by simpa using hk)]
  simp only [List.nil_append]
  rw [copyFold_eq _ [] (by simpa using hk)]
  simp

theorem filterMap_shiftEntry_mapDelete {β : Type} (m : List (Int × β)) (k : Int) :
    (mapDelete m k).filterMap (shiftEntry k) = m.filterMap (shiftEntry k) := by
  induction m with
  | nil => rfl
  | cons e rest ih =>
    obtain ⟨j, w⟩ := e
    unfold mapDelete at ih ⊢
    by_cases hj : j = k
    · subst hj
      have hs : shiftEntry j (j, w) = none := by simp [shiftEntry, shiftRule]
      rw [List.filter_cons_of_neg (by simp), List.filterMap_cons_none hs]
      exact ih
    · rw [List.filter_cons_of_pos (by simpa using hj), List.filterMap_cons, List.filterMap_cons,
        ih]

theorem nodup_mapKeys_mapDelete {β : Type} (m : List (Int × β)) (k : Int)
    (h : (mapKeys m).Nodup) : (mapKeys (mapDelete m k)).Nodup := by
  unfold mapKeys mapDelete
  exact List.Nodup.sublist (List.Sublist.map _ (List.filter_sublist _)) h

theorem shiftSelectionFold_eq (k : Int) (sel acc : List Int)
    (h : (acc ++ sel.filterMap (shiftRule k)).Nodup) :
    sel.foldl (fun acc i =>
      if i > k then setAdd acc (i - 1)
      else if i < k then setAdd acc i
      else acc) acc = acc ++ sel.filterMap (shiftRule k) := by
  induction sel generalizing acc with
  | nil => simp
  | cons a rest ih =>
    rw [List.foldl_cons]
    by_cases h1 : a < k
    · have h2 : ¬ a > k := by omega
      have hs : shiftRule k a = some a := by simp [shiftRule, h1]
      rw [List.filterMap_cons, hs] at h ⊢
      have hnot : a ∉ acc := by
        have := (List.nodup_append.mp h).2.2
        intro hmem
        exact this hmem (by simp)
      simp only [h1, h2, if_true, if_false]
      rw [setAdd, if_neg hnot, ih]
      · simp
      · simpa using h
    · by_cases h2 : a > k
      · have hs : shiftRule k a = some (a - 1) := by simp [shiftRule, h1, h2]
        rw [List.filterMap_cons, hs] at h ⊢
        have hnot : (a - 1) ∉ acc := by
          have := (List.nodup_append.mp h).2.2
          intro hmem
          exact this hmem (by simp)
        simp only [h2, if_true]
        rw [setAdd, if_neg hnot, ih]
        · simp
        · simpa using h
      · have hs : shiftRule k a = none := by simp [shiftRule, h1, h2]
        rw [List.filterMap_cons, hs] at h ⊢
        simp only [h1, h2, if_false]
        exact ih acc h

theorem filterMap_shiftRule_setDelete (sel : List Int) (k : Int) :
    (setDelete sel k).filterMap (shiftRule k) = sel.filterMap (shiftRule k) := by
  induction sel with
  | nil => rfl
  | cons a rest ih =>
    unfold setDelete at ih ⊢
    by_cases ha : a = k
    · subst ha
      have hs : shiftRule a a = none := by simp [shiftRule]
      rw [List.filter_cons_of_neg (by simp), List.filterMap_cons_none hs]
      exact ih
    · rw [List.filter_cons_of_pos (by simpa using ha), List.filterMap_cons, List.filterMap_cons,
        ih]

theorem shiftSelection_eq_filterMap (sel : List Int) (k : Int) (h : sel.Nodup) :
    shiftSelection (setDelete sel k) k = sel.filterMap (shiftRule k) := by
  unfold shiftSelection
  rw [shiftSelectionFold_eq k _ []]
  · simp [filterMap_shiftRule_setDelete]
  · rw [List.nil_append, filterMap_shiftRule_setDelete]
    exact nodup_filterMap_shiftRule _ _ h

theorem foldl_revokeObjectURL (urls : List URL) (s : State) :
    urls.foldl revokeObjectURL s = { s with revoked := s.revoked ++ urls } := by
  induction urls generalizing s with
  | nil => simp
  | cons u rest ih =>
    rw [List.foldl_cons, ih]
    simp [revokeObjectURL]

theorem revokeFileURLs_fileObjectURLs (s : State) (i : Int) :
    (revokeFileURLs s i).fileObjectURLs = mapDelete s.fileObjectURLs i := by
  unfold revokeFileURLs
  split
  · rw [foldl_revokeObjectURL]
  · rename_i h
    exact (mapDelete_of_get_none _ _ h).symm

theorem cleanupPDFPreview_pdfCleanupTasks (s : State) (i : Int) :
    (cleanupPDFPreview s i).pdfCleanupTasks = mapDelete s.pdfCleanupTasks i := by
  unfold cleanupPDFPreview
  split
  · split <;> rfl
  · rename_i h
    exact (mapDelete_of_get_none _ _ h).symm

theorem cleanupPDFPreview_fileObjectURLs (s : State) (i : Int) :
    (cleanupPDFPreview s i).fileObjectURLs = s.fileObjectURLs := by
  unfold cleanupPDFPreview
  split
  · split <;> rfl
  · rfl

theorem removeFileReindex_fileObjectURLs (s : State) (k : Int) :
    (removeFileReindex s k).fileObjectURLs = shiftMap (mapDelete s.fileObjectURLs k) k := by
  show shiftMap (cleanupPDFPreview (revokeFileURLs s k) k).fileObjectURLs k = _
  rw [cleanupPDFPreview_fileObjectURLs, revokeFileURLs_fileObjectURLs]

theorem removeFileReindex_pdfCleanupTasks (s : State) (k : Int) :
    (removeFileReindex s k).pdfCleanupTasks = shiftMap (mapDelete s.pdfCleanupTasks k) k := by
  show shiftMap (cleanupPDFPreview (revokeFileURLs s k) k).pdfCleanupTasks k = _
  rw [cleanupPDFPreview_pdfCleanupTasks, (renderFrame_revokeFileURLs s k).pdfCleanupTasks]

theorem removeFileReindex_selection_shifted (s : State) (k : Int)
    (hS : s.selectedIndices.Nodup) :
    (removeFileReindex s k).selectedIndices = s.selectedIndices.filterMap (shiftRule k) := by
  rw [removeFileReindex_selectedIndices, shiftSelection_eq_filterMap _ _ hS]

theorem removeFileReindex_urls_shifted (s : State) (k : Int)
    (hU : (mapKeys s.fileObjectURLs).Nodup) :
    (removeFileReindex s k).fileObjectURLs = s.fileObjectURLs.filterMap (shiftEntry k) := by
  rw [removeFileReindex_fileObjectURLs,
    shiftMap_eq_filterMap _ _ (nodup_mapKeys_mapDelete _ _ hU),
    filterMap_shiftEntry_mapDelete]

theorem removeFileReindex_tasks_shifted (s : State) (k : Int)
    (hT : (mapKeys s.pdfCleanupTasks).Nodup) :
    (removeFileReindex s k).pdfCleanupTasks = s.pdfCleanupTasks.filterMap (shiftEntry k) := by
  rw [removeFileReindex_pdfCleanupTasks,
    shiftMap_eq_filterMap _ _ (nodup_mapKeys_mapDelete _ _ hT),
    filterMap_shiftEntry_mapDelete]

/-- C2 as stated fails for the object-URL map: `removeFile(1)` on the registry `[A, B, C, D]`
with the preview URLs `0, 1, 2, 3` returns with `fileObjectURLs` holding the fresh URLs
`4, 5, 6` under the keys `0, 1, 2`, not the old values `0, 2, 3` that the shift rule gives:
the `showPreview()` that ends `removeFile` has revoked the shifted entries and created new
URLs for the rendered cards. -/
theorem removeFile_rekeys_counterexample :
    (removeFile exampleABCD 1).fileObjectURLs = [(0, [4]), (1, [5]), (2, [6])] ∧
    exampleABCD.fileObjectURLs.filterMap (shiftEntry 1) = [(0, [0]), (1, [2]), (2, [3])] ∧
    (removeFile exampleABCD 1).fileObjectURLs
      ≠ exampleABCD.fileObjectURLs.filterMap (shiftEntry 1) ∧
    (removeFile exampleABCD 1).revoked = [1, 0, 2, 3] := by
  decide

/-- C2, amended: the three hand-written shifts of `removeFile(k)` are one index mapping, the
shift rule of the specification (`shiftRule k`: a key `i < k` stays `i`, a key `i > k`
becomes `i - 1`, the key `k` is dropped). At the end of the re-indexing code of `removeFile`
(before its final `showPreview()`) the selection is the old selection mapped through the
rule, and `fileObjectURLs` and `pdfCleanupTasks` are the old maps with every key mapped
through the same rule and every value unchanged, in the old order; the selection and the PDF
cleanup map are still so when `removeFile` returns. -/
theorem removeFile_rekeys_by_shiftRule (s : State) (k : Int)
    (hS : s.selectedIndices.Nodup) (hU : (mapKeys s.fileObjectURLs).Nodup)
    (hT : (mapKeys s.pdfCleanupTasks).Nodup) :
    (removeFileReindex s k).selectedIndices = s.selectedIndices.filterMap (shiftRule k) ∧
    (removeFileReindex s k).fileObjectURLs = s.fileObjectURLs.filterMap (shiftEntry k) ∧
    (removeFileReindex s k).pdfCleanupTasks = s.pdfCleanupTasks.filterMap (shiftEntry k) ∧
    (removeFile s k).selectedIndices = s.selectedIndices.filterMap (shiftRule k) ∧
    (removeFile s k).pdfCleanupTasks = s.pdfCleanupTasks.filterMap (shiftEntry k) := by
  have h1 := removeFileReindex_selection_shifted s k hS
  have h2 := removeFileReindex_urls_shifted s k hU
  have h3 := removeFileReindex_tasks_shifted s k hT
  refine ⟨h1, h2, h3, ?_, ?_⟩
  · unfold removeFile
    rw [(renderFrame_showPreview _).selectedIndices, h1]
  · unfold removeFile
    rw [(renderFrame_showPreview _).pdfCleanupTasks, h3]

/-- C2 amended, at a state with all three collections populated, removing index `2`. -/
theorem removeFile_rekeys_by_shiftRule_witness :
    (removeFileReindex exampleTracked 2).selectedIndices = [3, 1, 0] ∧
    (removeFileReindex exampleTracked 2).fileObjectURLs = [(0, [0]), (3, [3])] ∧
    (removeFileReindex exampleTracked 2).pdfCleanupTasks
      = [(2, PdfTask.mainThread 7), (1, PdfTask.worker fileP 4)] ∧
    ((removeFileReindex exampleTracked 2).selectedIndices
        = exampleTracked.selectedIndices.filterMap (shiftRule 2) ∧
      (removeFileReindex exampleTracked 2).fileObjectURLs
        = exampleTracked.fileObjectURLs.filterMap (shiftEntry 2) ∧
      (removeFileReindex exampleTracked 2).pdfCleanupTasks
        = exampleTracked.pdfCleanupTasks.filterMap (shiftEntry 2) ∧
      (removeFile exampleTracked 2).selectedIndices
        = exampleTracked.selectedIndices.filterMap (shiftRule 2) ∧
      (removeFile exampleTracked 2).pdfCleanupTasks
        = exampleTracked.pdfCleanupTasks.filterMap (shiftEntry 2)) :=
  ⟨by decide, by decide, by decide,
    removeFile_rekeys_by_shiftRule exampleTracked 2 (by decide) (by decide) (by decide)⟩

/-! ## C3: `removeFile` outside the index range -/

theorem filterMap_shiftRule_of_lt (l : List Int) (k : Int) (h : ∀ i ∈ l, i < k) :
    l.filterMap (shiftRule k) = l := by
  induction l with
  | nil => rfl
  | cons a rest ih =>
    have ha : a < k := h a (by simp)
    have hs : shiftRule k a = some a := by simp [shiftRule, ha]
    rw [List.filterMap_cons, hs, ih (fun i hi => h i (by simp [hi]))]

theorem filterMap_shiftEntry_of_lt {β : Type} (m : List (Int × β)) (k : Int)
    (h : ∀ i ∈ mapKeys m, i < k) : m.filterMap (shiftEntry k) = m := by
  induction m with
  | nil => rfl
  | cons e rest ih =>
    obtain ⟨j, w⟩ := e
    have hj : j < k := h j (by simp [mapKeys])
    have hs : shiftEntry k (j, w) = some (j, w) := by simp [shiftEntry, shiftRule, hj]
    have hrest : ∀ i ∈ mapKeys rest, i < k := by
      intro i hi
      apply h
      simp only [mapKeys, List.map_cons, List.mem_cons]
      exact Or.inr hi
    rw [List.filterMap_cons, hs, ih hrest]

/-- C3 as stated fails: `removeFile(-1)` on `[A, B, C, D]` with selection `{1, 3}` removes the
last file `D` and moves the selection to `{0, 2}` (`splice` counts a negative index from the
end); `removeFile(4)`, with `4 = files.length`, drops the stale selected index `4`; and even on
a state with live indices `removeFile(4)` ends in `showPreview()`, which revokes the preview
URLs and allocates new ones, so `fileObjectURLs` is not the map it was. -/
theorem removeFile_out_of_range_counterexample :
    ((-1 : Int) < 0 ∧
      (removeFile exampleABCD (-1)).files = [fileA, fileB, fileC] ∧
      (removeFile exampleABCD (-1)).selectedIndices = [0, 2]) ∧
    (((exampleStale.files.length : Int) ≤ 4) ∧
      exampleStale.selectedIndices = [4] ∧
      (removeFile exampleStale 4).selectedIndices = []) ∧
    (((exampleABCD.files.length : Int) ≤ 4) ∧
      exampleABCD.fileObjectURLs = [(0, [0]), (1, [1]), (2, [2]), (3, [3])] ∧
      (removeFile exampleABCD 4).fileObjectURLs = [(0, [4]), (1, [5]), (2, [6]), (3, [7])]) := by
  refine ⟨⟨by decide, by decide, by decide⟩, ⟨by decide, by decide, by decide⟩,
    ⟨by decide, by decide, by decide⟩⟩

/-- C3 amended: when no selected index and no key of the two per-index maps reaches
`files.length`, `removeFile(index)` for an `index ≥ files.length` leaves the file sequence, the
selection and `pdfCleanupTasks` unchanged, and its re-indexing code leaves `fileObjectURLs`
unchanged (the `showPreview()` that ends `removeFile` then re-creates the preview URLs). -/
theorem removeFile_beyond_length_unchanged (s : State) (index : Int)
    (hc : Collections s) (hlive : IndicesBelowLength s)
    (hidx : (s.files.length : Int) ≤ index) :
    (removeFile s index).files = s.files ∧
    (removeFile s index).selectedIndices = s.selectedIndices ∧
    (removeFile s index).pdfCleanupTasks = s.pdfCleanupTasks ∧
    (removeFileReindex s index).fileObjectURLs = s.fileObjectURLs := by
  obtain ⟨hS, hU, hT⟩ := hc
  obtain ⟨lS, lU, lT⟩ := hlive
  have h0 : 0 ≤ index := le_trans (Int.ofNat_nonneg _) hidx
  refine ⟨?_, ?_, ?_, ?_⟩
  · rw [removeFile_files, splice1_of_nonneg _ _ h0]
    exact List.eraseIdx_of_length_le (by omega)
  · unfold removeFile
    rw [(renderFrame_showPreview _).selectedIndices,
      removeFileReindex_selection_shifted s index hS]
    exact filterMap_shiftRule_of_lt _ _ (fun i hi => lt_of_lt_of_le (lS i hi) hidx)
  · unfold removeFile
    rw [(renderFrame_showPreview _).pdfCleanupTasks,
      removeFileReindex_tasks_shifted s index hT]
    exact filterMap_shiftEntry_of_lt _ _ (fun i hi => lt_of_lt_of_le (lT i hi) hidx)
  · rw [removeFileReindex_urls_shifted s index hU]
    exact filterMap_shiftEntry_of_lt _ _ (fun i hi => lt_of_lt_of_le (lU i hi) hidx)

/-- C3 amended, at `[A, B, C, D]` with selection `{1, 3}` and index `4 = files.length`. -/
theorem removeFile_beyond_length_unchanged_witness :
    Collections exampleABCD ∧ IndicesBelowLength exampleABCD ∧
    ((exampleABCD.files.length : Int) ≤ 4) ∧
    ((removeFile exampleABCD 4).files = exampleABCD.files ∧
      (removeFile exampleABCD 4).selectedIndices = exampleABCD.selectedIndices ∧
      (removeFile exampleABCD 4).pdfCleanupTasks = exampleABCD.pdfCleanupTasks ∧
      (removeFileReindex exampleABCD 4).fileObjectURLs = exampleABCD.fileObjectURLs) :=
  ⟨by unfold Collections; decide, by unfold IndicesBelowLength; decide, by decide,
    removeFile_beyond_length_unchanged exampleABCD 4 (by unfold Collections; decide)
      (by unfold IndicesBelowLength; decide) (by decide)⟩

/-! ## C4: selected indices stay inside the registry -/

theorem foldl_preserves_mem {α σ : Type} (P : σ → Prop) (f : σ → α → σ) (l : List α)
    (hf : ∀ st x, x ∈ l → P st → P (f st x)) (s : σ) (hs : P s) :
    P (l.foldl f s) := by
  induction l generalizing s with
  | nil => simpa using hs
  | cons x xs ih =>
    rw [List.foldl_cons]
    exact ih (fun st y hy => hf st y (List.mem_cons_of_mem _ hy)) _
      (hf _ _ (List.mem_cons_self _ _) hs)

theorem renderFrame_set_fileObjectURLs (s : State) (m : List (Int × List URL)) :
    RenderFrame s { s with fileObjectURLs := m } :=
  ⟨rfl, rfl, rfl, rfl, rfl, rfl, rfl, rfl, rfl⟩

theorem renderFrame_set_allObjectURLs (s : State) (m : List URL) :
    RenderFrame s { s with allObjectURLs := m } :=
  ⟨rfl, rfl, rfl, rfl, rfl, rfl, rfl, rfl, rfl⟩

theorem renderFrame_revokeAllTrackedURLs (s : State) :
    RenderFrame s (revokeAllTrackedURLs s) := by
  unfold revokeAllTrackedURLs
  have h1 := renderFrame_foldl (fun st (e : Int × List URL) => e.2.foldl revokeObjectURL st)
    (fun st e => renderFrame_foldl revokeObjectURL renderFrame_revokeObjectURL e.2 st)
    s.fileObjectURLs s
  refine renderFrame_trans h1 (renderFrame_trans (renderFrame_set_fileObjectURLs _ []) ?_)
  exact renderFrame_trans (renderFrame_foldl revokeObjectURL renderFrame_revokeObjectURL _ _)
    (renderFrame_set_allObjectURLs _ [])

theorem showNextError_eq (s : State) :
    ∃ q t b l n, showNextError s =
      { s with errorQueue := q, errorTimers := t, isShowingError := b, shownErrors := l,
               timersSet := n } := by
  unfold showNextError
  split
  · exact ⟨s.errorQueue, s.errorTimers, false, s.shownErrors, s.timersSet, rfl⟩
  · rename_i error rest _
    exact ⟨rest, s.errorTimers ++ [s.timersSet], true, s.shownErrors ++ [error],
      s.timersSet + 1, rfl⟩

theorem showError_eq (s : State) (m : Message) (p : String) :
    ∃ q t b l n, showError s m p =
      { s with errorQueue := q, errorTimers := t, isShowingError := b, shownErrors := l,
               timersSet := n } := by
  unfold showError
  dsimp only
  split
  · obtain ⟨q, t, b, l, n, h⟩ := showNextError_eq
      { s with errorQueue := s.errorQueue ++ [{ message := m, priority := p }] }
    exact ⟨q, t, b, l, n, h⟩
  · exact ⟨s.errorQueue ++ [{ message := m, priority := p }], s.errorTimers,
      s.isShowingError, s.shownErrors, s.timersSet, rfl⟩

theorem enableVirtualScroll_files (s : State) (w : Int) :
    (enableVirtualScroll s w).files = s.files := by
  unfold enableVirtualScroll
  split
  · exact (renderFrame_renderVisibleItems _).files
  · rfl

theorem enableVirtualScroll_selectedIndices (s : State) (w : Int) :
    (enableVirtualScroll s w).selectedIndices = s.selectedIndices := by
  unfold enableVirtualScroll
  split
  · exact (renderFrame_renderVisibleItems _).selectedIndices
  · rfl

theorem handleVirtualScroll_files (s : State) (t h : Int) :
    (handleVirtualScroll s t h).files = s.files := by
  unfold handleVirtualScroll
  dsimp only
  split
  · exact (renderFrame_renderVisibleItems _).files
  · rfl

theorem handleVirtualScroll_selectedIndices (s : State) (t h : Int) :
    (handleVirtualScroll s t h).selectedIndices = s.selectedIndices := by
  unfold handleVirtualScroll
  dsimp only
  split
  · exact (renderFrame_renderVisibleItems _).selectedIndices
  · rfl

theorem handleFilesAppend_files (s : State) (cf : List File) (w : Int) :
    (handleFilesAppend s cf w).files = s.files ++ cf := by
  unfold handleFilesAppend
  split
  · rename_i h
    have : cf = [] := List.length_eq_zero.mp h
    obtain ⟨q, t, b, l, n, he⟩ := showError_eq s Message.noFilesProcessed "error"
    rw [he]
    simp [this]
  · dsimp only
    split
    · rw [(renderFrame_showPreview _).files, enableVirtualScroll_files]
      rfl
    · rfl

theorem handleFilesAppend_selectedIndices (s : State) (cf : List File) (w : Int) :
    (handleFilesAppend s cf w).selectedIndices = s.selectedIndices := by
  unfold handleFilesAppend
  split
  · obtain ⟨q, t, b, l, n, he⟩ := showError_eq s Message.noFilesProcessed "error"
    rw [he]
  · dsimp only
    split
    · rw [(renderFrame_showPreview _).selectedIndices, enableVirtualScroll_selectedIndices]
      rfl
    · rfl

theorem clearFiles_files (s : State) : (clearFiles s).files = [] := by
  unfold clearFiles
  rw [(renderFrame_revokeAllTrackedURLs _).files]
  show (showPreview _).files = []
  rw [(renderFrame_showPreview _).files]
  rfl

theorem clearFiles_selectedIndices (s : State) : (clearFiles s).selectedIndices = [] := by
  unfold clearFiles
  rw [(renderFrame_revokeAllTrackedURLs _).selectedIndices]
  show (showPreview _).selectedIndices = []
  rw [(renderFrame_showPreview _).selectedIndices]
  rfl

theorem findIndexByName_lt (files : List File) (name : Option String) (i : Nat)
    (h : findIndexByName files name = some i) : i < files.length := by
  unfold findIndexByName at h
  obtain ⟨hlt, _⟩ := List.findIdx?_eq_some_iff_getElem.mp h
  exact hlt

theorem restoreSelectionState_selectionInRange (s : State) (h : SelectionInRange s) :
    SelectionInRange (restoreSelectionState s).2 := by
  unfold restoreSelectionState
  split
  · exact h
  · split
    · exact h
    · intro j hj
      dsimp only at hj ⊢
      rw [(renderFrame_showPreview _).selectedIndices] at hj
      rw [(renderFrame_showPreview _).files]
      revert j
      refine foldl_preserves_mem
        (fun acc : List Int => ∀ j ∈ acc, 0 ≤ j ∧ j < (s.files.length : Int)) _ _ ?_ _ ?_
      · intro acc name _ hacc j hj
        split at hj
        · rename_i index hidx
          rcases (mem_setAdd _ _ _).mp hj with hj | hj
          · exact hacc j hj
          · subst hj
            have := findIndexByName_lt _ _ _ hidx
            omega
        · exact hacc j hj
      · intro j hj
        simp at hj

theorem step_selectionInRange (s : State) (op : Op) (h : SelectionInRange s)
    (hg : selectionEvents s op = true) : SelectionInRange (step s op) := by
  cases op with
  | handleFilesAppend cf w =>
    intro i hi
    simp only [step] at hi ⊢
    rw [handleFilesAppend_selectedIndices] at hi
    rw [handleFilesAppend_files, List.length_append]
    have := h i hi
    omega
  | removeFile k =>
    have hk : 0 ≤ k ∧ k < (s.files.length : Int) := by
      simpa [selectionEvents, inRange] using hg
    intro j hj
    simp only [step] at hj ⊢
    rw [removeFile_selectedIndices, mem_shiftSelection] at hj
    rw [removeFile_files, splice1_of_nonneg _ _ hk.1, List.length_eraseIdx]
    have hlt : k.toNat < s.files.length := by omega
    simp only [hlt, if_true]
    obtain ⟨i, hi, hcase⟩ := hj
    have hi2 := h i ((mem_setDelete _ _ _).mp hi).1
    rcases hcase with ⟨h1, h2⟩ | ⟨h1, h2⟩ <;> omega
  | toggleSelection k =>
    have hk : 0 ≤ k ∧ k < (s.files.length : Int) := by
      simpa [selectionEvents, inRange] using hg
    intro j hj
    simp only [step, toggleSelection] at hj ⊢
    split at hj
    · rename_i hc
      simp only [hc, if_true]
      exact h j hj
    · rename_i hc
      simp only [hc, if_false] at hj ⊢
      split at hj
      · rename_i hm
        simp only [hm, if_true]
        exact h j ((mem_setDelete _ _ _).mp hj).1
      · rename_i hm
        simp only [hm, if_false]
        rcases (mem_setAdd _ _ _).mp hj with hj | hj
        · exact h j hj
        · subst hj; exact hk
  | selectAll =>
    intro j hj
    simp only [step, selectAll] at hj ⊢
    rw [(renderFrame_showPreview _).selectedIndices] at hj
    rw [(renderFrame_showPreview _).files]
    revert j
    refine foldl_preserves_mem
      (fun acc : List Int => ∀ j ∈ acc, 0 ≤ j ∧ j < (s.files.length : Int)) _ _ ?_ _ ?_
    · intro acc i hi hacc j hj
      rcases (mem_setAdd _ _ _).mp hj with hj | hj
      · exact hacc j hj
      · subst hj
        have := List.mem_range.mp hi
        omega
    · intro j hj
      simp at hj
  | deselectAll =>
    intro j hj
    simp only [step, deselectAll] at hj
    rw [(renderFrame_showPreview _).selectedIndices] at hj
    simp at hj
  | invertSelection =>
    intro j hj
    simp only [step, invertSelection] at hj ⊢
    rw [(renderFrame_showPreview _).selectedIndices] at hj
    rw [(renderFrame_showPreview _).files]
    revert j
    refine foldl_preserves_mem
      (fun acc : List Int => ∀ j ∈ acc, 0 ≤ j ∧ j < (s.files.length : Int)) _ _ ?_ _ ?_
    · intro acc i hi hacc j hj
      split at hj
      · exact hacc j hj
      · rcases (mem_setAdd _ _ _).mp hj with hj | hj
        · exact hacc j hj
        · subst hj
          have := List.mem_range.mp hi
          omega
    · intro j hj
      simp at hj
  | deleteSelected =>
    intro j hj
    have hj2 : j ∈ (deleteSelected s).selectedIndices := hj
    show 0 ≤ j ∧ j < ((deleteSelected s).files.length : Int)
    unfold deleteSelected at hj2 ⊢
    split at hj2
    · rename_i hc
      rw [if_pos hc]
      obtain ⟨q, t, b, l, n, he⟩ := showError_eq s (Message.other "No files selected!") "error"
      rw [he] at hj2 ⊢
      exact h j hj2
    · rw [(renderFrame_showPreview _).selectedIndices] at hj2
      simp at hj2
  | deleteFiles fs now => simp [selectionEvents] at hg
  | clearFiles =>
    intro j hj
    simp only [step] at hj
    rw [clearFiles_selectedIndices] at hj
    simp at hj
  | saveSelectionState now => exact h
  | restoreSelectionState => exact restoreSelectionState_selectionInRange s h
  | createTrackedURL blob fileIndex => simp [selectionEvents] at hg
  | revokeFileURLs i => simp [selectionEvents] at hg
  | revokeAllTrackedURLs => simp [selectionEvents] at hg
  | showPreview =>
    intro j hj
    simp only [step] at hj ⊢
    rw [(renderFrame_showPreview _).selectedIndices] at hj
    rw [(renderFrame_showPreview _).files]
    exact h j hj
  | showPreviewFrom i =>
    intro j hj
    simp only [step] at hj ⊢
    rw [(renderFrame_showPreviewFrom _ _).selectedIndices] at hj
    rw [(renderFrame_showPreviewFrom _ _).files]
    exact h j hj
  | renderVisibleItems =>
    intro j hj
    simp only [step] at hj ⊢
    rw [(renderFrame_renderVisibleItems _).selectedIndices] at hj
    rw [(renderFrame_renderVisibleItems _).files]
    exact h j hj
  | handleVirtualScroll t ht =>
    intro j hj
    simp only [step] at hj ⊢
    rw [handleVirtualScroll_selectedIndices] at hj
    rw [handleVirtualScroll_files]
    exact h j hj
  | renderPDFWithWorker_onmessage index blob => simp [selectionEvents] at hg
  | renderPDFMainThread_done index pdf => simp [selectionEvents] at hg

theorem run_selectionInRange (ops : List Op) (s : State) (h : SelectionInRange s)
    (hg : Guarded selectionEvents s ops = true) : SelectionInRange (run s ops) := by
  induction ops generalizing s with
  | nil => exact h
  | cons op rest ih =>
    simp only [Guarded, Bool.and_eq_true] at hg
    exact ih (step s op) (step_selectionInRange s op h hg.1) hg.2

/-- C4: in every state reached from the freshly loaded page by appending (`handleFiles`),
`removeFile` and `toggleSelection` at an index of `files`, `selectAll`, `deselectAll`,
`invertSelection`, `restoreSelectionState` and `clearFiles` (and also `saveSelectionState`,
`deleteSelected` and the rendering events in between), every member `i` of `selectedIndices`
satisfies `0 ≤ i < files.length`. -/
theorem selectedIndices_in_range (ops : List Op)
    (hg : Guarded selectionEvents init ops = true) :
    ∀ i ∈ (run init ops).selectedIndices,
      0 ≤ i ∧ i < ((run init ops).files.length : Int) := by
  have h0 : SelectionInRange init := by
    intro i hi
    simp [init] at hi
  exact run_selectionInRange ops init h0 hg

/-- C4 on a session that ends with registry `[C, D]` and selection `{1}`. -/
theorem selectedIndices_in_range_witness :
    Guarded selectionEvents init exampleSession = true ∧
    (run init exampleSession).files = [fileC, fileD] ∧
    (run init exampleSession).selectedIndices = [1] ∧
    (∀ i ∈ (run init exampleSession).selectedIndices,
      0 ≤ i ∧ i < ((run init exampleSession).files.length : Int)) :=
  ⟨by decide, by decide, by decide, selectedIndices_in_range exampleSession (by decide)⟩

/-! ## C5: keys of the URL tracker are live indices -/

theorem mem_mapSet {β : Type} (m : List (Int × β)) (k : Int) (v : β) (e : Int × β)
    (h : e ∈ mapSet m k v) : e ∈ m ∨ e = (k, v) := by
  induction m with
  | nil =>
    simp only [mapSet, List.mem_singleton] at h
    exact Or.inr h
  | cons a rest ih =>
    obtain ⟨j, w⟩ := a
    unfold mapSet at h
    by_cases hj : j = k
    · simp only [hj, if_true, List.mem_cons] at h
      rcases h with h | h
      · exact Or.inr h
      · exact Or.inl (List.mem_cons_of_mem _ h)
    · simp only [hj, if_false, List.mem_cons] at h
      rcases h with h | h
      · exact Or.inl (by rw [h]; exact List.mem_cons_self _ _)
      · rcases ih h with h2 | h2
        · exact Or.inl (List.mem_cons_of_mem _ h2)
        · exact Or.inr h2

theorem mem_of_mapGet {β : Type} (m : List (Int × β)) (k : Int) (v : β)
    (h : mapGet m k = some v) : (k, v) ∈ m := by
  induction m with
  | nil => simp [mapGet] at h
  | cons a rest ih =>
    obtain ⟨j, w⟩ := a
    unfold mapGet at h
    by_cases hj : j = k
    · simp only [hj, if_true, Option.some.injEq] at h
      rw [hj, h]
      exact List.mem_cons_self _ _
    · simp only [hj, if_false] at h
      exact List.mem_cons_of_mem _ (ih h)

theorem mem_mapDelete {β : Type} (m : List (Int × β)) (k : Int) (e : Int × β)
    (h : e ∈ mapDelete m k) : e ∈ m :=
  (List.mem_filter.mp h).1

theorem arrayAt_lt {α : Type} (xs : List α) (i : Int) (x : α) (h : arrayAt xs i = some x) :
    0 ≤ i ∧ i < (xs.length : Int) := by
  unfold arrayAt at h
  split at h
  · simp at h
  · rename_i hneg
    obtain ⟨hlt, _⟩ := List.getElem?_eq_some.mp h
    omega

theorem arrayAt_append {α : Type} (xs ys : List α) (i : Int) (x : α)
    (h : arrayAt xs i = some x) : arrayAt (xs ++ ys) i = some x := by
  have hr := arrayAt_lt xs i x h
  unfold arrayAt at h ⊢
  have hneg : ¬ i < 0 := by omega
  simp only [hneg, if_false] at h ⊢
  rw [List.getElem?_append_left (by omega)]
  exact h

theorem getElem?_append_some {α : Type} (xs ys : List α) (u : Nat) (x : α)
    (h : xs[u]? = some x) : (xs ++ ys)[u]? = some x := by
  obtain ⟨hlt, _⟩ := List.getElem?_eq_some.mp h
  rw [List.getElem?_append_left hlt]
  exact h

theorem trackerOn_sub (files created : List File) (m m2 : List (Int × List URL))
    (hsub : ∀ e ∈ m2, e ∈ m) (h : TrackerOn files created m) : TrackerOn files created m2 :=
  fun e he => h e (hsub e he)

theorem trackerOn_created_append (files created : List File) (m : List (Int × List URL))
    (blob : File) (h : TrackerOn files created m) : TrackerOn files (created ++ [blob]) m := by
  intro e he
  refine ⟨(h e he).1, ?_⟩
  intro u hu
  obtain ⟨f, hf1, hf2⟩ := (h e he).2 u hu
  exact ⟨f, getElem?_append_some _ _ _ _ hf1, hf2⟩

theorem trackerOn_files_append (files created cf : List File) (m : List (Int × List URL))
    (h : TrackerOn files created m) : TrackerOn (files ++ cf) created m := by
  intro e he
  refine ⟨?_, ?_⟩
  · have := (h e he).1
    rw [List.length_append]
    omega
  · intro u hu
    obtain ⟨f, hf1, hf2⟩ := (h e he).2 u hu
    exact ⟨f, hf1, arrayAt_append _ _ _ _ hf2⟩

theorem trackerOn_mapSet (files created : List File) (m : List (Int × List URL))
    (i : Int) (v : List URL) (h : TrackerOn files created m)
    (hi : 0 ≤ i ∧ i < (files.length : Int))
    (hv : ∀ u ∈ v, ∃ f, created[u]? = some f ∧ arrayAt files i = some f) :
    TrackerOn files created (mapSet m i v) := by
  intro e he
  rcases mem_mapSet _ _ _ _ he with he | he
  · exact h e he
  · subst he
    exact ⟨hi, hv⟩

theorem trackerLive_createTrackedURL (s : State) (blob : File) (i : Int)
    (h : TrackerLive s) (hb : arrayAt s.files i = some blob) :
    TrackerLive (createTrackedURL s blob (some i)).2 := by
  have hi := arrayAt_lt _ _ _ hb
  have h1 : TrackerOn s.files (s.created ++ [blob]) s.fileObjectURLs :=
    trackerOn_created_append _ _ _ _ h
  have hnew : (s.created ++ [blob])[s.created.length]? = some blob := by simp
  show TrackerOn s.files (s.created ++ [blob]) (mapSet _ i _)
  by_cases hhas : mapHas s.fileObjectURLs i = true
  · have hm : (if mapHas s.fileObjectURLs i = true then s.fileObjectURLs
        else mapSet s.fileObjectURLs i []) = s.fileObjectURLs := by simp [hhas]
    refine trackerOn_mapSet _ _ _ _ _ (by
      show TrackerOn s.files (s.created ++ [blob]) (if mapHas s.fileObjectURLs i = true
        then s.fileObjectURLs else mapSet s.fileObjectURLs i [])
      rw [hm]; exact h1) hi ?_
    intro u hu
    show ∃ f, (s.created ++ [blob])[u]? = some f ∧ arrayAt s.files i = some f
    have hu2 : u ∈ ((mapGet (if mapHas s.fileObjectURLs i = true then s.fileObjectURLs
        else mapSet s.fileObjectURLs i []) i).getD []) ++ [s.created.length] := hu
    rw [hm] at hu2
    rcases List.mem_append.mp hu2 with hu3 | hu3
    · cases hg : mapGet s.fileObjectURLs i with
      | none => simp [hg] at hu3
      | some urls =>
        simp only [hg, Option.getD_some] at hu3
        exact (h1 _ (mem_of_mapGet _ _ _ hg)).2 u hu3
    · simp only [List.mem_singleton] at hu3
      subst hu3
      exact ⟨blob, hnew, hb⟩
  · have hm : (if mapHas s.fileObjectURLs i = true then s.fileObjectURLs
        else mapSet s.fileObjectURLs i []) = mapSet s.fileObjectURLs i [] := by simp [hhas]
    have h2 : TrackerOn s.files (s.created ++ [blob]) (mapSet s.fileObjectURLs i []) :=
      trackerOn_mapSet _ _ _ _ _ h1 hi (by intro u hu; simp at hu)
    refine trackerOn_mapSet _ _ _ _ _ (by
      show TrackerOn s.files (s.created ++ [blob]) (if mapHas s.fileObjectURLs i = true
        then s.fileObjectURLs else mapSet s.fileObjectURLs i [])
      rw [hm]; exact h2) hi ?_
    intro u hu
    show ∃ f, (s.created ++ [blob])[u]? = some f ∧ arrayAt s.files i = some f
    have hu2 : u ∈ ((mapGet (if mapHas s.fileObjectURLs i = true then s.fileObjectURLs
        else mapSet s.fileObjectURLs i []) i).getD []) ++ [s.created.length] := hu
    rw [hm] at hu2
    rcases List.mem_append.mp hu2 with hu3 | hu3
    · cases hg : mapGet (mapSet s.fileObjectURLs i []) i with
      | none => simp [hg] at hu3
      | some urls =>
        simp only [hg, Option.getD_some] at hu3
        exact (h2 _ (mem_of_mapGet _ _ _ hg)).2 u hu3
    · simp only [List.mem_singleton] at hu3
      subst hu3
      exact ⟨blob, hnew, hb⟩

theorem revokeFileURLs_created (s : State) (i : Int) :
    (revokeFileURLs s i).created = s.created := by
  unfold revokeFileURLs
  split
  · rw [foldl_revokeObjectURL]
  · rfl

theorem trackerLive_revokeFileURLs (s : State) (i : Int) (h : TrackerLive s) :
    TrackerLive (revokeFileURLs s i) := by
  unfold TrackerLive
  rw [(renderFrame_revokeFileURLs s i).files, revokeFileURLs_created,
    revokeFileURLs_fileObjectURLs]
  exact trackerOn_sub _ _ _ _ (fun e he => mem_mapDelete _ _ _ he) h

theorem trackerLive_appendPreviewCard (s : State) (file : File) (i : Int)
    (h : TrackerLive s) (hb : arrayAt s.files i = some file) :
    TrackerLive (appendPreviewCard s file i) := by
  have h1 : TrackerLive (createPreviewCard s file i) := by
    unfold createPreviewCard
    split
    · exact h
    · exact trackerLive_createTrackedURL s file i h hb
  exact h1

theorem slice_enum_mem (files : List File) (i : Nat) (e : Nat × File)
    (h : e ∈ (slice files i (min (i + 10) files.length)).enum) :
    arrayAt files ((i + e.1 : Nat) : Int) = some e.2 := by
  obtain ⟨j, f⟩ := e
  have h1 : (slice files i (min (i + 10) files.length))[j]? = some f :=
    List.mk_mem_enum_iff_getElem?.mp h
  unfold slice at h1
  rw [List.getElem?_drop, List.getElem?_take] at h1
  unfold arrayAt
  have hneg : ¬ ((i + j : Nat) : Int) < 0 := by omega
  simp only [hneg, if_false, Int.toNat_ofNat]
  split at h1
  · exact h1
  · simp at h1

theorem trackerLive_showPreviewFrom (s : State) (i : Nat) (h : TrackerLive s) :
    TrackerLive (showPreviewFrom s i) := by
  unfold showPreviewFrom
  split
  · have key := foldl_preserves_mem (fun st : State => TrackerLive st ∧ st.files = s.files)
      (fun st (e : Nat × File) => appendPreviewCard st e.2 ((i + e.1 : Nat) : Int))
      (slice s.files i (min (i + 10) s.files.length)).enum
      (by
        intro st e he hst
        refine ⟨trackerLive_appendPreviewCard st _ _ hst.1 ?_, ?_⟩
        · rw [hst.2]
          exact slice_enum_mem s.files i e he
        · rw [(renderFrame_appendPreviewCard st _ _).files, hst.2])
      s ⟨h, rfl⟩
    exact key.1
  · exact h

theorem trackerLive_showPreview (s : State) (h : TrackerLive s) :
    TrackerLive (showPreview s) := by
  unfold showPreview
  apply trackerLive_showPreviewFrom
  have h1 := foldl_preserves (fun st : State => TrackerLive st)
    (fun st (i : Nat) => revokeFileURLs st (i : Int))
    (fun st i hst => trackerLive_revokeFileURLs st _ hst) (List.range s.previewChildren) s h
  exact h1

theorem trackerLive_renderVisibleItems (s : State) (h : TrackerLive s) :
    TrackerLive (renderVisibleItems s) := by
  unfold renderVisibleItems
  have h0 : TrackerLive { s with previewChildren := 0 } := h
  dsimp only
  split
  · exact h0
  · refine foldl_preserves (fun st : State => TrackerLive st) _ ?_ _ _ h0
    intro st i hst
    dsimp only
    split
    · rename_i file hfile
      refine trackerLive_appendPreviewCard st file _ hst ?_
      unfold arrayAt
      have hneg : ¬ ((i : Nat) : Int) < 0 := by omega
      simp only [hneg, if_false, Int.toNat_ofNat]
      exact hfile
    · exact hst

theorem trackerLive_enableVirtualScroll (s : State) (w : Int) (h : TrackerLive s) :
    TrackerLive (enableVirtualScroll s w) := by
  unfold enableVirtualScroll
  split
  · exact trackerLive_renderVisibleItems _ h
  · exact h

theorem trackerLive_handleVirtualScroll (s : State) (t ht : Int) (h : TrackerLive s) :
    TrackerLive (handleVirtualScroll s t ht) := by
  unfold handleVirtualScroll
  dsimp only
  split
  · exact trackerLive_renderVisibleItems _ h
  · exact h

theorem trackerLive_handleFilesAppend (s : State) (cf : List File) (w : Int)
    (h : TrackerLive s) : TrackerLive (handleFilesAppend s cf w) := by
  unfold handleFilesAppend
  have h1 : TrackerLive { s with files := s.files ++ cf } :=
    trackerOn_files_append _ _ _ _ h
  split
  · obtain ⟨q, t, b, l, n, he⟩ := showError_eq s Message.noFilesProcessed "error"
    rw [he]
    exact h
  · dsimp only
    split
    · exact trackerLive_showPreview _ (trackerLive_enableVirtualScroll _ _ h1)
    · exact h1

theorem mem_shiftMap {β : Type} (m : List (Int × β)) (k : Int) (e : Int × β)
    (h : e ∈ shiftMap m k) : ∃ e0 ∈ m, shiftEntry k e0 = some e := by
  unfold shiftMap at h
  have h1 : ∀ e ∈ m.foldl (fun acc e =>
      if e.1 < k then mapSet acc e.1 e.2
      else if e.1 > k then mapSet acc (e.1 - 1) e.2
      else acc) [], ∃ e0 ∈ m, shiftEntry k e0 = some e := by
    refine foldl_preserves_mem
      (fun acc : List (Int × β) => ∀ e ∈ acc, ∃ e0 ∈ m, shiftEntry k e0 = some e) _ m ?_ _ ?_
    · intro acc x hx hacc e he
      by_cases c1 : x.1 < k
      · simp only [c1, if_true] at he
        rcases mem_mapSet _ _ _ _ he with he | he
        · exact hacc e he
        · exact ⟨x, hx, by simp [shiftEntry, shiftRule, c1, he]⟩
      · by_cases c2 : x.1 > k
        · simp only [c1, c2, if_true, if_false] at he
          rcases mem_mapSet _ _ _ _ he with he | he
          · exact hacc e he
          · exact ⟨x, hx, by simp [shiftEntry, shiftRule, c1, c2, he]⟩
        · simp only [c1, c2, if_false] at he
          exact hacc e he
    · intro e he
      simp at he
  apply h1
  revert e
  refine foldl_preserves_mem (fun acc : List (Int × β) => ∀ e ∈ acc, e ∈ m.foldl (fun acc e =>
      if e.1 < k then mapSet acc e.1 e.2
      else if e.1 > k then mapSet acc (e.1 - 1) e.2
      else acc) []) _ _ ?_ _ ?_
  · intro acc x hx hacc e he
    rcases mem_mapSet _ _ _ _ he with he | he
    · exact hacc e he
    · rw [he]; exact hx
  · intro e he
    simp at he

theorem arrayAt_eraseIdx_of_lt {α : Type} (xs : List α) (k : Nat) (j : Int) (x : α)
    (hj : j < (k : Int)) (h : arrayAt xs j = some x) : arrayAt (xs.eraseIdx k) j = some x := by
  have hr := arrayAt_lt _ _ _ h
  unfold arrayAt at h ⊢
  have hneg : ¬ j < 0 := by omega
  simp only [hneg, if_false] at h ⊢
  rw [List.getElem?_eraseIdx_of_lt _ _ _ (by omega)]
  exact h

theorem arrayAt_eraseIdx_of_gt {α : Type} (xs : List α) (k : Nat) (j : Int) (x : α)
    (hj : (k : Int) < j) (h : arrayAt xs j = some x) :
    arrayAt (xs.eraseIdx k) (j - 1) = some x := by
  have hr := arrayAt_lt _ _ _ h
  unfold arrayAt at h ⊢
  have hneg : ¬ j < 0 := by omega
  have hneg2 : ¬ j - 1 < 0 := by omega
  simp only [hneg, hneg2, if_false] at h ⊢
  rw [List.getElem?_eraseIdx_of_ge _ _ _ (by omega)]
  have : (j - 1).toNat + 1 = j.toNat := by omega
  rw [this]
  exact h

theorem cleanupPDFPreview_created (s : State) (i : Int) :
    (cleanupPDFPreview s i).created = s.created := by
  unfold cleanupPDFPreview
  split
  · split <;> rfl
  · rfl

theorem removeFileReindex_created (s : State) (k : Int) :
    (removeFileReindex s k).created = s.created := by
  show (cleanupPDFPreview (revokeFileURLs s k) k).created = _
  rw [cleanupPDFPreview_created, revokeFileURLs_created]

theorem trackerLive_removeFileReindex (s : State) (k : Int) (h : TrackerLive s)
    (hk : 0 ≤ k ∧ k < (s.files.length : Int)) : TrackerLive (removeFileReindex s k) := by
  unfold TrackerLive
  rw [removeFileReindex_files, removeFileReindex_created, removeFileReindex_fileObjectURLs,
    splice1_of_nonneg _ _ hk.1]
  intro e he
  obtain ⟨e0, he0, hs⟩ := mem_shiftMap _ _ _ he
  have h0 := h e0 (mem_mapDelete _ _ _ he0)
  have hlen : (s.files.eraseIdx k.toNat).length = s.files.length - 1 := by
    rw [List.length_eraseIdx]
    have : k.toNat < s.files.length := by omega
    simp [this]
  have hkk : ((k.toNat : Nat) : Int) = k := Int.toNat_of_nonneg hk.1
  by_cases c1 : e0.1 < k
  · have he : e = e0 := by
      simp [shiftEntry, shiftRule, c1] at hs
      exact hs.symm
    subst he
    refine ⟨by rw [hlen]; omega, ?_⟩
    intro u hu
    obtain ⟨f, hf1, hf2⟩ := h0.2 u hu
    exact ⟨f, hf1, arrayAt_eraseIdx_of_lt _ _ _ _ (by omega) hf2⟩
  · by_cases c2 : e0.1 > k
    · have he : e = (e0.1 - 1, e0.2) := by
        simp [shiftEntry, shiftRule, c1, c2] at hs
        exact hs.symm
      subst he
      refine ⟨by rw [hlen]; dsimp only; omega, ?_⟩
      intro u hu
      obtain ⟨f, hf1, hf2⟩ := h0.2 u hu
      exact ⟨f, hf1, arrayAt_eraseIdx_of_gt _ _ _ _ (by omega) hf2⟩
    · simp [shiftEntry, shiftRule, c1, c2] at hs

theorem step_trackerLive (s : State) (op : Op) (h : TrackerLive s)
    (hg : trackerEvents s op = true) : TrackerLive (step s op) := by
  cases op with
  | handleFilesAppend cf w => exact trackerLive_handleFilesAppend s cf w h
  | removeFile k =>
    have hk : 0 ≤ k ∧ k < (s.files.length : Int) := by
      simpa [trackerEvents, inRange] using hg
    exact trackerLive_showPreview _ (trackerLive_removeFileReindex s k h hk)
  | createTrackedURL blob fileIndex =>
    cases fileIndex with
    | none => simp [trackerEvents] at hg
    | some i =>
      have hb : arrayAt s.files i = some blob := by simpa [trackerEvents] using hg
      exact trackerLive_createTrackedURL s blob i h hb
  | showPreview => exact trackerLive_showPreview s h
  | showPreviewFrom i => exact trackerLive_showPreviewFrom s i h
  | renderVisibleItems => exact trackerLive_renderVisibleItems s h
  | handleVirtualScroll t ht => exact trackerLive_handleVirtualScroll s t ht h
  | toggleSelection k => simp [trackerEvents] at hg
  | selectAll => simp [trackerEvents] at hg
  | deselectAll => simp [trackerEvents] at hg
  | invertSelection => simp [trackerEvents] at hg
  | deleteSelected => simp [trackerEvents] at hg
  | deleteFiles fs now => simp [trackerEvents] at hg
  | clearFiles => simp [trackerEvents] at hg
  | saveSelectionState now => simp [trackerEvents] at hg
  | restoreSelectionState => simp [trackerEvents] at hg
  | revokeFileURLs i => simp [trackerEvents] at hg
  | revokeAllTrackedURLs => simp [trackerEvents] at hg
  | renderPDFWithWorker_onmessage index blob => simp [trackerEvents] at hg
  | renderPDFMainThread_done index pdf => simp [trackerEvents] at hg

theorem run_trackerLive (ops : List Op) (s : State) (h : TrackerLive s)
    (hg : Guarded trackerEvents s ops = true) : TrackerLive (run s ops) := by
  induction ops generalizing s with
  | nil => exact h
  | cons op rest ih =>
    simp only [Guarded, Bool.and_eq_true] at hg
    exact ih (step s op) (step_trackerLive s op h hg.1) hg.2

/-- C5: in every state reached from the freshly loaded page by appending (`handleFiles`),
allocating a preview URL for the file at an index of `files`
(`createTrackedURL(files[index], index)`, also as done by the rendering events) and
`removeFile` at an index of `files`, every key of `fileObjectURLs` is a live registry index
(`0 ≤ key < files.length`), and every URL recorded under a key was created for the file that
currently sits at that index. -/
theorem fileObjectURLs_keys_live (ops : List Op)
    (hg : Guarded trackerEvents init ops = true) :
    ∀ e ∈ (run init ops).fileObjectURLs,
      (0 ≤ e.1 ∧ e.1 < ((run init ops).files.length : Int)) ∧
      ∀ u ∈ e.2, ∃ f, (run init ops).created[u]? = some f ∧
        arrayAt (run init ops).files e.1 = some f := by
  have h0 : TrackerLive init := by
    intro e he
    simp [init] at he
  exact run_trackerLive ops init h0 hg

/-- C5 on a session with twelve files, a suspended `showPreview`, an extra allocation and a
removal: the tracker ends with keys `0, 2, ..., 9` for the eleven remaining files. -/
theorem fileObjectURLs_keys_live_witness :
    Guarded trackerEvents init exampleTrackerSession = true ∧
    mapKeys (run init exampleTrackerSession).fileObjectURLs = [0, 2, 3, 4, 5, 6, 7, 8, 9] ∧
    (run init exampleTrackerSession).files.length = 11 ∧
    (∀ e ∈ (run init exampleTrackerSession).fileObjectURLs,
      (0 ≤ e.1 ∧ e.1 < ((run init exampleTrackerSession).files.length : Int)) ∧
      ∀ u ∈ e.2, ∃ f, (run init exampleTrackerSession).created[u]? = some f ∧
        arrayAt (run init exampleTrackerSession).files e.1 = some f) :=
  ⟨by decide, by decide, by decide,
    fileObjectURLs_keys_live exampleTrackerSession (by decide)⟩

/-! ## C6: one generation of preview URLs per index -/

set_option maxRecDepth 100000 in
/-- C6 at its failing input: after fifty-one images are appended and the preview container
is scrolled once, `renderVisibleItems` has allocated a second preview URL for index `0`
without revoking the first: `fileObjectURLs` holds the URLs `20` and `30` under key `0`, and
neither has been passed to `URL.revokeObjectURL`. -/
theorem renderVisibleItems_leaves_two_live_URLs :
    (run init leakSession).files.length = 51 ∧
    (run init leakSession).visibleRange = ⟨0, 45⟩ ∧
    mapGet (run init leakSession).fileObjectURLs 0 = some [20, 30] ∧
    20 ∉ (run init leakSession).revoked ∧ 30 ∉ (run init leakSession).revoked := by
  decide

/-! ## C7: bulk deletion against repeated `removeFile` -/

/-- C7 at its failing input: with registry `[A, P]`, the PDF cleanup task of `P` under key `1`
and the image `A` selected, `deleteFiles([A])` and `removeFile(0)` both leave the registry
`[P]` with an empty selection, but `deleteFiles` leaves the cleanup task under the key `1`,
which is no index of the registry any more, where `removeFile` moves it to key `0`. -/
theorem deleteFiles_keeps_stale_keys :
    (run init deleteSession).files = [fileA, fileP] ∧
    (run init deleteSession).selectedIndices = [0] ∧
    mapKeys (run init deleteSession).pdfCleanupTasks = [1] ∧
    (deleteFiles (run init deleteSession) [fileA] 5).files = [fileP] ∧
    (removeManyDescending (run init deleteSession) [0]).files = [fileP] ∧
    (deleteFiles (run init deleteSession) [fileA] 5).selectedIndices = [] ∧
    (removeManyDescending (run init deleteSession) [0]).selectedIndices = [] ∧
    mapKeys (deleteFiles (run init deleteSession) [fileA] 5).pdfCleanupTasks = [1] ∧
    mapKeys (removeManyDescending (run init deleteSession) [0]).pdfCleanupTasks = [0] := by
  decide

/-! ## C8: `clearFiles` empties the registry and its trackers -/

theorem foldl_cleanupPDFPreview_tasks (ks : List Int) (s : State) :
    (ks.foldl cleanupPDFPreview s).pdfCleanupTasks
      = s.pdfCleanupTasks.filter (fun e => decide (e.1 ∉ ks)) := by
  induction ks generalizing s with
  | nil => simp
  | cons k rest ih =>
    rw [List.foldl_cons, ih, cleanupPDFPreview_pdfCleanupTasks]
    unfold mapDelete
    rw [List.filter_filter]
    congr 1
    funext e
    by_cases h1 : e.1 = k <;> by_cases h2 : e.1 ∈ rest <;> simp [h1, h2]

theorem revokeAllTrackedURLs_maps (s : State) :
    (revokeAllTrackedURLs s).fileObjectURLs = [] ∧
    (revokeAllTrackedURLs s).allObjectURLs = [] := by
  unfold revokeAllTrackedURLs
  refine ⟨?_, rfl⟩
  show (List.foldl revokeObjectURL _ _).fileObjectURLs = []
  rw [foldl_revokeObjectURL]

/-- C8: after `clearFiles`, whatever the state was, the registry has length `0`, the selection
is empty, `fileObjectURLs` and `allObjectURLs` are empty (no handle is tracked), the PDF
cleanup map is empty, the cached memory usage is `0` and the selection-snapshot history is
empty. -/
theorem clearFiles_empties (s : State) :
    (clearFiles s).files.length = 0 ∧
    (clearFiles s).selectedIndices = [] ∧
    (clearFiles s).fileObjectURLs = [] ∧
    (clearFiles s).allObjectURLs = [] ∧
    (clearFiles s).pdfCleanupTasks = [] ∧
    (clearFiles s).currentMemoryUsage = 0 ∧
    (clearFiles s).selectionHistory = [] := by
  refine ⟨?_, clearFiles_selectedIndices s, ?_, ?_, ?_, ?_, ?_⟩
  · rw [clearFiles_files]; rfl
  · exact (revokeAllTrackedURLs_maps _).1
  · exact (revokeAllTrackedURLs_maps _).2
  · unfold clearFiles
    rw [(renderFrame_revokeAllTrackedURLs _).pdfCleanupTasks]
    show (showPreview _).pdfCleanupTasks = []
    rw [(renderFrame_showPreview _).pdfCleanupTasks]
    show (List.foldl cleanupPDFPreview s (mapKeys s.pdfCleanupTasks)).pdfCleanupTasks = []
    rw [foldl_cleanupPDFPreview_tasks, List.filter_eq_nil_iff]
    intro e he
    have : e.1 ∈ mapKeys s.pdfCleanupTasks := List.mem_map_of_mem _ he
    simp [this]
  · unfold clearFiles
    rw [(renderFrame_revokeAllTrackedURLs _).currentMemoryUsage]
    show (showPreview _).currentMemoryUsage = 0
    rw [(renderFrame_showPreview _).currentMemoryUsage]
    rfl
  · unfold clearFiles
    rw [(renderFrame_revokeAllTrackedURLs _).selectionHistory]
    show (showPreview _).selectionHistory = []
    rw [(renderFrame_showPreview _).selectionHistory]
    rfl

/-! ## C9: handles still un-released after `clearFiles` and `removeFile` -/

/-- C9 at its failing input: a PDF is appended and its preview, rendered by the worker, gets
the object URL `0` from `URL.createObjectURL` in `renderPDFWithWorker`. Neither `clearFiles`
nor `removeFile(0)` passes that URL to `URL.revokeObjectURL`, although both drop the cleanup
task of the slot. -/
theorem pdf_preview_URL_never_revoked :
    (run init pdfSession).created = [previewBlob] ∧
    (run init pdfSession).pdfCleanupTasks = [(0, PdfTask.worker previewBlob 0)] ∧
    (clearFiles (run init pdfSession)).created = [previewBlob] ∧
    (clearFiles (run init pdfSession)).revoked = [] ∧
    (clearFiles (run init pdfSession)).pdfCleanupTasks = [] ∧
    (removeFile (run init pdfSession) 0).files = [] ∧
    (removeFile (run init pdfSession) 0).revoked = [] ∧
    (removeFile (run init pdfSession) 0).pdfCleanupTasks = [] := by
  decide

/-! ## C10: every tracked handle is revoked at most once -/

theorem handlesOnce_quiet (s t : State) (h : HandlesOnce s) (q : Quiet s t) :
    HandlesOnce t := by
  obtain ⟨q1, q2, q3, q4⟩ := q
  intro u
  have hu := h u
  have h3 := q3 u
  unfold handleCount at hu ⊢
  rw [q1, q2]
  refine ⟨by omega, ?_⟩
  intro hlen
  have := hu.2 (by omega)
  omega

theorem quiet_refl (s : State) : Quiet s s :=
  ⟨rfl, rfl, fun _ => le_refl _, le_refl _⟩

theorem mapCount_mapSet (m : List (Int × List URL)) (i : Int) (v : List URL) (u : URL) :
    mapCount (mapSet m i v) u + ((mapGet m i).getD []).count u
      = mapCount m u + v.count u := by
  induction m with
  | nil => simp [mapSet, mapGet, mapCount]
  | cons e rest ih =>
    obtain ⟨j, w⟩ := e
    by_cases hj : j = i
    · simp only [mapSet, mapGet, hj, if_true, mapCount, Option.getD_some]
      omega
    · simp only [mapSet, mapGet, hj, if_false, mapCount]
      omega

theorem mapCount_mapDelete (m : List (Int × List URL)) (i : Int) (u : URL) :
    mapCount (mapDelete m i) u + ((mapGet m i).getD []).count u ≤ mapCount m u := by
  induction m with
  | nil => simp [mapDelete, mapGet, mapCount]
  | cons e rest ih =>
    obtain ⟨j, w⟩ := e
    unfold mapDelete at ih ⊢
    by_cases hj : j = i
    · rw [List.filter_cons_of_neg (by simp [hj])]
      simp only [mapGet, hj, if_true, mapCount, Option.getD_some]
      omega
    · rw [List.filter_cons_of_pos (by simpa using hj)]
      simp only [mapGet, hj, if_false, mapCount]
      omega

theorem mapCount_mapSet_le (m : List (Int × List URL)) (i : Int) (v : List URL) (u : URL) :
    mapCount (mapSet m i v) u ≤ mapCount m u + v.count u := by
  have := mapCount_mapSet m i v u
  omega

theorem mapCount_shiftMap_le (m : List (Int × List URL)) (k : Int) (u : URL) :
    mapCount (shiftMap m k) u ≤ mapCount m u := by
  have h1 : ∀ (l acc : List (Int × List URL)),
      mapCount (l.foldl (fun acc e =>
        if e.1 < k then mapSet acc e.1 e.2
        else if e.1 > k then mapSet acc (e.1 - 1) e.2
        else acc) acc) u ≤ mapCount acc u + mapCount l u := by
    intro l
    induction l with
    | nil => intro acc; simp [mapCount]
    | cons e rest ih =>
      intro acc
      rw [List.foldl_cons]
      refine le_trans (ih _) ?_
      simp only [mapCount]
      split
      · have := mapCount_mapSet_le acc e.1 e.2 u
        omega
      · split
        · have := mapCount_mapSet_le acc (e.1 - 1) e.2 u
          omega
        · omega
  have h2 : ∀ (l acc : List (Int × List URL)),
      mapCount (l.foldl (fun acc e => mapSet acc e.1 e.2) acc) u
        ≤ mapCount acc u + mapCount l u := by
    intro l
    induction l with
    | nil => intro acc; simp [mapCount]
    | cons e rest ih =>
      intro acc
      rw [List.foldl_cons]
      refine le_trans (ih _) ?_
      simp only [mapCount]
      have := mapCount_mapSet_le acc e.1 e.2 u
      omega
  unfold shiftMap
  dsimp only
  have a := h1 m []
  have b := h2 (m.foldl (fun acc e =>
        if e.1 < k then mapSet acc e.1 e.2
        else if e.1 > k then mapSet acc (e.1 - 1) e.2
        else acc) []) []
  simp only [mapCount] at a b
  omega

theorem count_setAdd_le (l : List URL) (x u : URL) :
    (setAdd l x).count u ≤ l.count u + [x].count u := by
  unfold setAdd
  split
  · omega
  · rw [List.count_append]

theorem count_singleton_of_ne (x u : URL) (h : u ≠ x) : [x].count u = 0 :=
  List.count_eq_zero_of_not_mem (by simpa using h)

theorem handlesOnce_createTrackedURL (s : State) (blob : File) (idx : Option Int)
    (h : HandlesOnce s) : HandlesOnce (createTrackedURL s blob idx).2 := by
  intro u
  have hu := h u
  have key : handleCount (createTrackedURL s blob idx).2 u
      ≤ handleCount s u + [s.created.length].count u := by
    cases idx with
    | none =>
      show mapCount s.fileObjectURLs u + (setAdd s.allObjectURLs s.created.length).count u
          + s.revoked.count u ≤ _
      have := count_setAdd_le s.allObjectURLs s.created.length u
      unfold handleCount
      omega
    | some i =>
      show mapCount (mapSet (if mapHas s.fileObjectURLs i = true then s.fileObjectURLs
            else mapSet s.fileObjectURLs i []) i
          (((mapGet (if mapHas s.fileObjectURLs i = true then s.fileObjectURLs
            else mapSet s.fileObjectURLs i []) i).getD []) ++ [s.created.length])) u
          + s.allObjectURLs.count u + s.revoked.count u ≤ _
      have e1 := mapCount_mapSet (if mapHas s.fileObjectURLs i = true then s.fileObjectURLs
            else mapSet s.fileObjectURLs i []) i
          (((mapGet (if mapHas s.fileObjectURLs i = true then s.fileObjectURLs
            else mapSet s.fileObjectURLs i []) i).getD []) ++ [s.created.length]) u
      rw [List.count_append] at e1
      have e2 : mapCount (if mapHas s.fileObjectURLs i = true then s.fileObjectURLs
            else mapSet s.fileObjectURLs i []) u ≤ mapCount s.fileObjectURLs u := by
        split
        · exact le_refl _
        · have := mapCount_mapSet_le s.fileObjectURLs i [] u
          simpa using this
      unfold handleCount
      omega
  have hcreated : (createTrackedURL s blob idx).2.created = s.created ++ [blob] := by
    cases idx <;> rfl
  by_cases hx : (u : Nat) = s.created.length
  · subst hx
    have h0 := hu.2 (le_refl _)
    have h1 : [s.created.length].count s.created.length ≤ 1 := by simp
    refine ⟨by omega, ?_⟩
    intro hlen
    rw [hcreated, List.length_append] at hlen
    simp at hlen
  · have h1 : [s.created.length].count u = 0 := count_singleton_of_ne _ _ hx
    refine ⟨by omega, ?_⟩
    intro hlen
    rw [hcreated, List.length_append] at hlen
    simp at hlen
    have := hu.2 (by omega)
    omega

theorem revokeFileURLs_revoked (s : State) (i : Int) :
    (revokeFileURLs s i).revoked = s.revoked ++ (mapGet s.fileObjectURLs i).getD [] := by
  unfold revokeFileURLs
  split
  · rename_i urls hg
    rw [foldl_revokeObjectURL]
    simp [hg]
  · rename_i hg
    simp [hg]

theorem revokeFileURLs_allObjectURLs (s : State) (i : Int) :
    (revokeFileURLs s i).allObjectURLs = s.allObjectURLs := by
  unfold revokeFileURLs
  split
  · rw [foldl_revokeObjectURL]
  · rfl

theorem handlesOnce_revokeFileURLs (s : State) (i : Int) (h : HandlesOnce s) :
    HandlesOnce (revokeFileURLs s i) := by
  intro u
  have hu := h u
  have hd := mapCount_mapDelete s.fileObjectURLs i u
  unfold handleCount at hu ⊢
  rw [revokeFileURLs_revoked, revokeFileURLs_allObjectURLs, revokeFileURLs_fileObjectURLs,
    revokeFileURLs_created, List.count_append]
  refine ⟨by omega, ?_⟩
  intro hlen
  have := hu.2 hlen
  omega

theorem foldl_revokeLists (m : List (Int × List URL)) (s : State) :
    m.foldl (fun st e => e.2.foldl revokeObjectURL st) s
      = { s with revoked := s.revoked ++ (m.map Prod.snd).flatten } := by
  induction m generalizing s with
  | nil => simp
  | cons e rest ih =>
    rw [List.foldl_cons, ih, foldl_revokeObjectURL]
    simp

theorem count_flatten_values (m : List (Int × List URL)) (u : URL) :
    ((m.map Prod.snd).flatten).count u = mapCount m u := by
  induction m with
  | nil => simp [mapCount]
  | cons e rest ih =>
    simp only [List.map_cons, List.flatten_cons, List.count_append, ih, mapCount]

theorem handlesOnce_revokeAllTrackedURLs (s : State) (h : HandlesOnce s) :
    HandlesOnce (revokeAllTrackedURLs s) := by
  have hrev : (revokeAllTrackedURLs s).revoked
      = s.revoked ++ (s.fileObjectURLs.map Prod.snd).flatten ++ s.allObjectURLs := by
    unfold revokeAllTrackedURLs
    rw [foldl_revokeLists s.fileObjectURLs s]
    dsimp only
    rw [foldl_revokeObjectURL]
  have hcr : (revokeAllTrackedURLs s).created = s.created := by
    unfold revokeAllTrackedURLs
    rw [foldl_revokeLists s.fileObjectURLs s]
    dsimp only
    rw [foldl_revokeObjectURL]
  have hm := revokeAllTrackedURLs_maps s
  intro u
  have hu := h u
  unfold handleCount at hu ⊢
  rw [hrev, hcr, hm.1, hm.2, List.count_append, List.count_append, count_flatten_values]
  simp only [mapCount, List.count_nil]
  refine ⟨by omega, ?_⟩
  intro hlen
  have := hu.2 hlen
  omega

theorem quiet_cleanupPDFPreview (s : State) (i : Int) : Quiet s (cleanupPDFPreview s i) := by
  unfold cleanupPDFPreview
  split
  · split
    · exact ⟨rfl, rfl, fun _ => le_refl _, le_refl _⟩
    · exact ⟨rfl, rfl, fun _ => le_refl _, le_refl _⟩
  · exact quiet_refl s

theorem handlesOnce_appendPreviewCard (s : State) (file : File) (i : Int)
    (h : HandlesOnce s) : HandlesOnce (appendPreviewCard s file i) := by
  have h1 : HandlesOnce (createPreviewCard s file i) := by
    unfold createPreviewCard
    split
    · exact h
    · exact handlesOnce_createTrackedURL s file (some i) h
  exact h1

theorem handlesOnce_showPreviewFrom (s : State) (i : Nat) (h : HandlesOnce s) :
    HandlesOnce (showPreviewFrom s i) := by
  unfold showPreviewFrom
  split
  · exact foldl_preserves HandlesOnce _
      (fun st e hst => handlesOnce_appendPreviewCard st _ _ hst) _ s h
  · exact h

theorem handlesOnce_showPreview (s : State) (h : HandlesOnce s) :
    HandlesOnce (showPreview s) := by
  unfold showPreview
  apply handlesOnce_showPreviewFrom
  have h1 := foldl_preserves HandlesOnce
    (fun st (i : Nat) => revokeFileURLs st (i : Int))
    (fun st i hst => handlesOnce_revokeFileURLs st _ hst) (List.range s.previewChildren) s h
  exact h1

theorem handlesOnce_renderVisibleItems (s : State) (h : HandlesOnce s) :
    HandlesOnce (renderVisibleItems s) := by
  unfold renderVisibleItems
  have h0 : HandlesOnce { s with previewChildren := 0 } := h
  dsimp only
  split
  · exact h0
  · refine foldl_preserves HandlesOnce _ ?_ _ _ h0
    intro st i hst
    dsimp only
    split
    · exact handlesOnce_appendPreviewCard st _ _ hst
    · exact hst

theorem handlesOnce_removeFileReindex (s : State) (k : Int) (h : HandlesOnce s) :
    HandlesOnce (removeFileReindex s k) := by
  have h1 := handlesOnce_revokeFileURLs s k h
  have h2 := handlesOnce_quiet _ _ h1 (quiet_cleanupPDFPreview (revokeFileURLs s k) k)
  refine handlesOnce_quiet _ _ h2 ⟨rfl, rfl, ?_, le_refl _⟩
  intro u
  exact mapCount_shiftMap_le _ k u

theorem handlesOnce_removeFile (s : State) (k : Int) (h : HandlesOnce s) :
    HandlesOnce (removeFile s k) :=
  handlesOnce_showPreview _ (handlesOnce_removeFileReindex s k h)

theorem handlesOnce_enableVirtualScroll (s : State) (w : Int) (h : HandlesOnce s) :
    HandlesOnce (enableVirtualScroll s w) := by
  unfold enableVirtualScroll
  split
  · exact handlesOnce_renderVisibleItems _ h
  · exact h

theorem handlesOnce_handleVirtualScroll (s : State) (t ht : Int) (h : HandlesOnce s) :
    HandlesOnce (handleVirtualScroll s t ht) := by
  unfold handleVirtualScroll
  dsimp only
  split
  · exact handlesOnce_renderVisibleItems _ h
  · exact h

theorem handlesOnce_handleFilesAppend (s : State) (cf : List File) (w : Int)
    (h : HandlesOnce s) : HandlesOnce (handleFilesAppend s cf w) := by
  unfold handleFilesAppend
  have h1 : HandlesOnce { s with files := s.files ++ cf } := h
  split
  · obtain ⟨q, t, b, l, n, he⟩ := showError_eq s Message.noFilesProcessed "error"
    rw [he]
    exact h
  · dsimp only
    split
    · exact handlesOnce_showPreview _ (handlesOnce_enableVirtualScroll _ _ h1)
    · exact h1

theorem handlesOnce_deleteAt (s : State) (k : Int) (h : HandlesOnce s) :
    HandlesOnce (deleteAt s k) := by
  have h1 := handlesOnce_revokeFileURLs s k h
  exact handlesOnce_quiet _ _ h1 (quiet_cleanupPDFPreview (revokeFileURLs s k) k)

theorem handlesOnce_deleteFiles (s : State) (fs : List File) (now : Nat)
    (h : HandlesOnce s) : HandlesOnce (deleteFiles s fs now) := by
  unfold deleteFiles
  have h1 : HandlesOnce (saveSelectionState s now) := h
  dsimp only
  have h2 := foldl_preserves HandlesOnce deleteAt
    (fun st k hst => handlesOnce_deleteAt st k hst)
    ((fs.foldl (fun acc fileToDelete =>
      match indexOfFile (saveSelectionState s now).files fileToDelete with
      | some index => acc ++ [(index : Int)]
      | none => acc) []).insertionSort (fun a b => b ≤ a)) _ h1
  have h3 := handlesOnce_showPreview _ h2
  split
  · exact h3
  · exact h3

theorem handlesOnce_clearFiles (s : State) (h : HandlesOnce s) :
    HandlesOnce (clearFiles s) := by
  unfold clearFiles
  have h1 := foldl_preserves HandlesOnce cleanupPDFPreview
    (fun st k hst => handlesOnce_quiet _ _ hst (quiet_cleanupPDFPreview st k))
    (mapKeys s.pdfCleanupTasks) s h
  apply handlesOnce_revokeAllTrackedURLs
  have h4 : HandlesOnce (showPreview (clearSelectionHistory
      { List.foldl cleanupPDFPreview s (mapKeys s.pdfCleanupTasks) with
        files := [], selectedIndices := [], currentMemoryUsage := 0,
        virtualScrollEnabled := false })) :=
    handlesOnce_showPreview _ h1
  exact h4

theorem handlesOnce_restoreSelectionState (s : State) (h : HandlesOnce s) :
    HandlesOnce (restoreSelectionState s).2 := by
  unfold restoreSelectionState
  split
  · exact h
  · split
    · exact h
    · exact handlesOnce_showPreview _ h

theorem step_handlesOnce (s : State) (op : Op) (h : HandlesOnce s) :
    HandlesOnce (step s op) := by
  cases op with
  | handleFilesAppend cf w => exact handlesOnce_handleFilesAppend s cf w h
  | removeFile k => exact handlesOnce_removeFile s k h
  | toggleSelection k =>
    show HandlesOnce (toggleSelection s k)
    unfold toggleSelection
    split
    · exact h
    · split
      · exact h
      · exact h
  | selectAll => exact handlesOnce_showPreview _ h
  | deselectAll => exact handlesOnce_showPreview _ h
  | invertSelection => exact handlesOnce_showPreview _ h
  | deleteSelected =>
    show HandlesOnce (deleteSelected s)
    unfold deleteSelected
    split
    · obtain ⟨q, t, b, l, n, he⟩ := showError_eq s (Message.other "No files selected!") "error"
      rw [he]
      exact h
    · exact handlesOnce_showPreview _ h
  | deleteFiles fs now => exact handlesOnce_deleteFiles s fs now h
  | clearFiles => exact handlesOnce_clearFiles s h
  | saveSelectionState now => exact h
  | restoreSelectionState => exact handlesOnce_restoreSelectionState s h
  | createTrackedURL blob fileIndex => exact handlesOnce_createTrackedURL s blob fileIndex h
  | revokeFileURLs i => exact handlesOnce_revokeFileURLs s i h
  | revokeAllTrackedURLs => exact handlesOnce_revokeAllTrackedURLs s h
  | showPreview => exact handlesOnce_showPreview s h
  | showPreviewFrom i => exact handlesOnce_showPreviewFrom s i h
  | renderVisibleItems => exact handlesOnce_renderVisibleItems s h
  | handleVirtualScroll t ht => exact handlesOnce_handleVirtualScroll s t ht h
  | renderPDFWithWorker_onmessage index blob =>
    exact handlesOnce_quiet s _ h ⟨rfl, rfl, fun _ => le_refl _, by
      show s.created.length ≤ (s.created ++ [blob]).length
      simp⟩
  | renderPDFMainThread_done index pdf => exact h

theorem run_handlesOnce (ops : List Op) (s : State) (h : HandlesOnce s) :
    HandlesOnce (run s ops) := by
  induction ops generalizing s with
  | nil => exact h
  | cons op rest ih => exact ih (step s op) (step_handlesOnce s op h)

theorem mapGet_mapDelete {β : Type} (m : List (Int × β)) (k j : Int) :
    mapGet (mapDelete m k) j = if j = k then none else mapGet m j := by
  induction m with
  | nil =>
    simp [mapDelete, mapGet]
  | cons e rest ih =>
    obtain ⟨i, w⟩ := e
    unfold mapDelete at ih ⊢
    by_cases hi : i = k
    · rw [List.filter_cons_of_neg (by simp [hi]), ih]
      by_cases hj : j = k
      · simp [hj]
      · have : ¬ i = j := by omega
        simp [hj, mapGet, this]
    · rw [List.filter_cons_of_pos (by simpa using hi)]
      by_cases hij : i = j
      · have : ¬ j = k := by omega
        simp [mapGet, hij, this]
      · simp only [mapGet, hij, if_false, ih]

/-- C10: over every sequence of events from the freshly loaded page (`createTrackedURL`,
`revokeFileURLs`, `revokeAllTrackedURLs`, `removeFile` with its re-keying, and every other
event of the registry) no URL is passed to `URL.revokeObjectURL` more than once;
`revokeFileURLs(index)` on an index with an entry revokes exactly the URLs recorded under
`index`, in order, removes that entry and leaves every other entry and `allObjectURLs` as they
were; and on an index with no entry it changes nothing. -/
theorem tracked_handles_revoked_once (ops : List Op) (s : State) (index : Int) :
    (run init ops).revoked.Nodup ∧
    (∀ urls, mapGet s.fileObjectURLs index = some urls →
      (revokeFileURLs s index).revoked = s.revoked ++ urls ∧
      mapGet (revokeFileURLs s index).fileObjectURLs index = none ∧
      (∀ j, j ≠ index →
        mapGet (revokeFileURLs s index).fileObjectURLs j = mapGet s.fileObjectURLs j) ∧
      (revokeFileURLs s index).allObjectURLs = s.allObjectURLs) ∧
    (mapGet s.fileObjectURLs index = none → revokeFileURLs s index = s) := by
  refine ⟨?_, ?_, ?_⟩
  · have h0 : HandlesOnce init := by
      intro u
      simp [handleCount, init, mapCount]
    have h := run_handlesOnce ops init h0
    rw [List.nodup_iff_count_le_one]
    intro u
    have hu := (h u).1
    unfold handleCount at hu
    omega
  · intro urls hg
    refine ⟨?_, ?_, ?_, revokeFileURLs_allObjectURLs s index⟩
    · rw [revokeFileURLs_revoked, hg]
      rfl
    · rw [revokeFileURLs_fileObjectURLs, mapGet_mapDelete]
      simp
    · intro j hj
      rw [revokeFileURLs_fileObjectURLs, mapGet_mapDelete]
      simp [hj]
  · intro hg
    unfold revokeFileURLs
    rw [hg]

/-- C10 at concrete inputs: the session of C5 revokes twelve URLs, each once; on the state
`exampleTracked`, `revokeFileURLs(2)` revokes the URLs `1` and `2` recorded under key `2`, and
`revokeFileURLs(1)`, on an index without entry, changes nothing. -/
theorem tracked_handles_revoked_once_witness :
    (run init exampleTrackerSession).revoked = [0, 1, 11, 2, 3, 4, 5, 6, 7, 8, 9, 10] ∧
    (run init exampleTrackerSession).revoked.Nodup ∧
    mapGet exampleTracked.fileObjectURLs 2 = some [1, 2] ∧
    ((revokeFileURLs exampleTracked 2).revoked = exampleTracked.revoked ++ [1, 2] ∧
      mapGet (revokeFileURLs exampleTracked 2).fileObjectURLs 2 = none ∧
      (∀ j, j ≠ 2 → mapGet (revokeFileURLs exampleTracked 2).fileObjectURLs j
        = mapGet exampleTracked.fileObjectURLs j) ∧
      (revokeFileURLs exampleTracked 2).allObjectURLs = exampleTracked.allObjectURLs) ∧
    mapGet exampleTracked.fileObjectURLs 1 = none ∧
    revokeFileURLs exampleTracked 1 = exampleTracked :=
  ⟨by decide,
    (tracked_handles_revoked_once exampleTrackerSession exampleTracked 2).1,
    by decide,
    (tracked_handles_revoked_once exampleTrackerSession exampleTracked 2).2.1 [1, 2]
      (by decide),
    by decide,
    (tracked_handles_revoked_once exampleTrackerSession exampleTracked 1).2.2 (by decide)⟩

/-! ## The lists of every reachable state are a `Set` and two `Map`s -/

theorem mapKeys_mapSet {β : Type} (m : List (Int × β)) (k : Int) (v : β) :
    mapKeys (mapSet m k v) = if k ∈ mapKeys m then mapKeys m else mapKeys m ++ [k] := by
  induction m with
  | nil => simp [mapSet, mapKeys]
  | cons e rest ih =>
    obtain ⟨j, w⟩ := e
    unfold mapKeys at ih ⊢
    by_cases hj : j = k
    · simp [mapSet, hj]
    · have hkj : ¬ k = j := fun h => hj h.symm
      simp only [mapSet, hj, if_false, List.map_cons, ih, List.mem_cons, hkj, false_or]
      split <;> simp

theorem nodup_mapKeys_mapSet {β : Type} (m : List (Int × β)) (k : Int) (v : β)
    (h : (mapKeys m).Nodup) : (mapKeys (mapSet m k v)).Nodup := by
  rw [mapKeys_mapSet]
  split
  · exact h
  · rename_i hk
    exact List.Nodup.append h (List.nodup_singleton k) (by simpa using hk)

theorem nodup_mapKeys_shiftMap {β : Type} (m : List (Int × β)) (k : Int) :
    (mapKeys (shiftMap m k)).Nodup := by
  unfold shiftMap
  refine foldl_preserves (fun acc : List (Int × β) => (mapKeys acc).Nodup) _ ?_ _ _ ?_
  · intro acc e hacc
    exact nodup_mapKeys_mapSet _ _ _ hacc
  · simp [mapKeys]

theorem nodup_setDelete {α : Type} [DecidableEq α] (l : List α) (x : α) (h : l.Nodup) :
    (setDelete l x).Nodup :=
  List.Nodup.sublist (List.filter_sublist _) h

theorem urlKeys_createTrackedURL (s : State) (blob : File) (idx : Option Int)
    (h : (mapKeys s.fileObjectURLs).Nodup) :
    (mapKeys (createTrackedURL s blob idx).2.fileObjectURLs).Nodup := by
  cases idx with
  | none => exact h
  | some i =>
    show (mapKeys (mapSet (if mapHas s.fileObjectURLs i = true then s.fileObjectURLs
      else mapSet s.fileObjectURLs i []) i _)).Nodup
    apply nodup_mapKeys_mapSet
    split
    · exact h
    · exact nodup_mapKeys_mapSet _ _ _ h

theorem urlKeys_revokeFileURLs (s : State) (i : Int)
    (h : (mapKeys s.fileObjectURLs).Nodup) :
    (mapKeys (revokeFileURLs s i).fileObjectURLs).Nodup := by
  rw [revokeFileURLs_fileObjectURLs]
  exact nodup_mapKeys_mapDelete _ _ h

theorem urlKeys_appendPreviewCard (s : State) (file : File) (i : Int)
    (h : (mapKeys s.fileObjectURLs).Nodup) :
    (mapKeys (appendPreviewCard s file i).fileObjectURLs).Nodup := by
  show (mapKeys (createPreviewCard s file i).fileObjectURLs).Nodup
  unfold createPreviewCard
  split
  · exact h
  · exact urlKeys_createTrackedURL s file (some i) h

theorem urlKeys_showPreviewFrom (s : State) (i : Nat)
    (h : (mapKeys s.fileObjectURLs).Nodup) :
    (mapKeys (showPreviewFrom s i).fileObjectURLs).Nodup := by
  unfold showPreviewFrom
  split
  · exact foldl_preserves (fun st : State => (mapKeys st.fileObjectURLs).Nodup) _
      (fun st e hst => urlKeys_appendPreviewCard st _ _ hst) _ s h
  · exact h

theorem urlKeys_showPreview (s : State) (h : (mapKeys s.fileObjectURLs).Nodup) :
    (mapKeys (showPreview s).fileObjectURLs).Nodup := by
  unfold showPreview
  apply urlKeys_showPreviewFrom
  exact foldl_preserves (fun st : State => (mapKeys st.fileObjectURLs).Nodup)
    (fun st (i : Nat) => revokeFileURLs st (i : Int))
    (fun st i hst => urlKeys_revokeFileURLs st _ hst) (List.range s.previewChildren) s h

theorem urlKeys_renderVisibleItems (s : State) (h : (mapKeys s.fileObjectURLs).Nodup) :
    (mapKeys (renderVisibleItems s).fileObjectURLs).Nodup := by
  unfold renderVisibleItems
  dsimp only
  split
  · exact h
  · refine foldl_preserves (fun st : State => (mapKeys st.fileObjectURLs).Nodup) _ ?_ _ _ h
    intro st i hst
    dsimp only
    split
    · exact urlKeys_appendPreviewCard st _ _ hst
    · exact hst

theorem collections_showPreview (s : State) (h : Collections s) :
    Collections (showPreview s) := by
  obtain ⟨h1, h2, h3⟩ := h
  refine ⟨?_, urlKeys_showPreview s h2, ?_⟩
  · rw [(renderFrame_showPreview s).selectedIndices]; exact h1
  · rw [(renderFrame_showPreview s).pdfCleanupTasks]; exact h3

theorem collections_showPreviewFrom (s : State) (i : Nat) (h : Collections s) :
    Collections (showPreviewFrom s i) := by
  obtain ⟨h1, h2, h3⟩ := h
  refine ⟨?_, urlKeys_showPreviewFrom s i h2, ?_⟩
  · rw [(renderFrame_showPreviewFrom s i).selectedIndices]; exact h1
  · rw [(renderFrame_showPreviewFrom s i).pdfCleanupTasks]; exact h3

theorem collections_renderVisibleItems (s : State) (h : Collections s) :
    Collections (renderVisibleItems s) := by
  obtain ⟨h1, h2, h3⟩ := h
  refine ⟨?_, urlKeys_renderVisibleItems s h2, ?_⟩
  · rw [(renderFrame_renderVisibleItems s).selectedIndices]; exact h1
  · rw [(renderFrame_renderVisibleItems s).pdfCleanupTasks]; exact h3

theorem collections_revokeFileURLs (s : State) (i : Int) (h : Collections s) :
    Collections (revokeFileURLs s i) := by
  obtain ⟨h1, h2, h3⟩ := h
  refine ⟨?_, urlKeys_revokeFileURLs s i h2, ?_⟩
  · rw [(renderFrame_revokeFileURLs s i).selectedIndices]; exact h1
  · rw [(renderFrame_revokeFileURLs s i).pdfCleanupTasks]; exact h3

theorem cleanupPDFPreview_selectedIndices (s : State) (i : Int) :
    (cleanupPDFPreview s i).selectedIndices = s.selectedIndices := by
  unfold cleanupPDFPreview
  split
  · split <;> rfl
  · rfl

theorem collections_cleanupPDFPreview (s : State) (i : Int) (h : Collections s) :
    Collections (cleanupPDFPreview s i) := by
  obtain ⟨h1, h2, h3⟩ := h
  refine ⟨?_, ?_, ?_⟩
  · rw [cleanupPDFPreview_selectedIndices]; exact h1
  · rw [cleanupPDFPreview_fileObjectURLs]; exact h2
  · rw [cleanupPDFPreview_pdfCleanupTasks]; exact nodup_mapKeys_mapDelete _ _ h3

theorem collections_deleteAt (s : State) (k : Int) (h : Collections s) :
    Collections (deleteAt s k) := by
  obtain ⟨h1, h2, h3⟩ := collections_cleanupPDFPreview _ k (collections_revokeFileURLs s k h)
  exact ⟨nodup_setDelete _ _ h1, h2, h3⟩

theorem collections_step (s : State) (op : Op) (h : Collections s) :
    Collections (step s op) := by
  cases op with
  | handleFilesAppend cf w =>
    show Collections (handleFilesAppend s cf w)
    unfold handleFilesAppend
    split
    · obtain ⟨q, t, b, l, n, he⟩ := showError_eq s Message.noFilesProcessed "error"
      rw [he]
      exact h
    · dsimp only
      split
      · apply collections_showPreview
        unfold enableVirtualScroll
        split
        · exact collections_renderVisibleItems _ h
        · exact h
      · exact h
  | removeFile k =>
    apply collections_showPreview
    exact ⟨by rw [removeFileReindex_selectedIndices]; exact nodup_shiftSelection _ _,
      by rw [removeFileReindex_fileObjectURLs]; exact nodup_mapKeys_shiftMap _ _,
      by rw [removeFileReindex_pdfCleanupTasks]; exact nodup_mapKeys_shiftMap _ _⟩
  | toggleSelection k =>
    show Collections (toggleSelection s k)
    unfold toggleSelection
    split
    · exact h
    · split
      · exact ⟨nodup_setDelete _ _ h.1, h.2.1, h.2.2⟩
      · exact ⟨nodup_setAdd _ _ h.1, h.2.1, h.2.2⟩
  | selectAll =>
    apply collections_showPreview
    refine ⟨?_, h.2.1, h.2.2⟩
    exact foldl_preserves (fun acc : List Int => acc.Nodup) _
      (fun acc i hacc => nodup_setAdd _ _ hacc) _ _ List.nodup_nil
  | deselectAll =>
    apply collections_showPreview
    exact ⟨List.nodup_nil, h.2.1, h.2.2⟩
  | invertSelection =>
    apply collections_showPreview
    refine ⟨?_, h.2.1, h.2.2⟩
    refine foldl_preserves (fun acc : List Int => acc.Nodup) _ ?_ _ _ List.nodup_nil
    intro acc i hacc
    dsimp only
    split
    · exact hacc
    · exact nodup_setAdd _ _ hacc
  | deleteSelected =>
    show Collections (deleteSelected s)
    unfold deleteSelected
    split
    · obtain ⟨q, t, b, l, n, he⟩ := showError_eq s (Message.other "No files selected!") "error"
      rw [he]
      exact h
    · apply collections_showPreview
      exact ⟨List.nodup_nil, h.2.1, h.2.2⟩
  | deleteFiles fs now =>
    show Collections (deleteFiles s fs now)
    unfold deleteFiles
    have h1 : Collections (saveSelectionState s now) := h
    dsimp only
    have h2 := foldl_preserves Collections deleteAt
      (fun st k hst => collections_deleteAt st k hst)
      ((fs.foldl (fun acc fileToDelete =>
        match indexOfFile (saveSelectionState s now).files fileToDelete with
        | some index => acc ++ [(index : Int)]
        | none => acc) []).insertionSort (fun a b => b ≤ a)) _ h1
    have h3 := collections_showPreview _ h2
    split
    · exact h3
    · exact h3
  | clearFiles =>
    show Collections (clearFiles s)
    refine ⟨?_, ?_, ?_⟩
    · rw [clearFiles_selectedIndices]; exact List.nodup_nil
    · unfold clearFiles
      rw [(revokeAllTrackedURLs_maps _).1]; exact List.nodup_nil
    · unfold clearFiles
      rw [(renderFrame_revokeAllTrackedURLs _).pdfCleanupTasks]
      show (mapKeys (showPreview _).pdfCleanupTasks).Nodup
      rw [(renderFrame_showPreview _).pdfCleanupTasks]
      exact (foldl_preserves Collections cleanupPDFPreview
        (fun st k hst => collections_cleanupPDFPreview st k hst)
        (mapKeys s.pdfCleanupTasks) s h).2.2
  | saveSelectionState now => exact h
  | restoreSelectionState =>
    show Collections (restoreSelectionState s).2
    unfold restoreSelectionState
    split
    · exact h
    · split
      · exact h
      · apply collections_showPreview
        refine ⟨?_, h.2.1, h.2.2⟩
        refine foldl_preserves (fun acc : List Int => acc.Nodup) _ ?_ _ _ List.nodup_nil
        intro acc x hacc
        dsimp only
        split
        · exact nodup_setAdd _ _ hacc
        · exact hacc
  | createTrackedURL blob fileIndex =>
    refine ⟨?_, urlKeys_createTrackedURL s blob fileIndex h.2.1, ?_⟩
    · cases fileIndex <;> exact h.1
    · cases fileIndex <;> exact h.2.2
  | revokeFileURLs i => exact collections_revokeFileURLs s i h
  | revokeAllTrackedURLs =>
    refine ⟨?_, ?_, ?_⟩
    · show (revokeAllTrackedURLs s).selectedIndices.Nodup
      rw [(renderFrame_revokeAllTrackedURLs s).selectedIndices]; exact h.1
    · show (mapKeys (revokeAllTrackedURLs s).fileObjectURLs).Nodup
      rw [(revokeAllTrackedURLs_maps s).1]; exact List.nodup_nil
    · show (mapKeys (revokeAllTrackedURLs s).pdfCleanupTasks).Nodup
      rw [(renderFrame_revokeAllTrackedURLs s).pdfCleanupTasks]; exact h.2.2
  | showPreview => exact collections_showPreview s h
  | showPreviewFrom i => exact collections_showPreviewFrom s i h
  | renderVisibleItems => exact collections_renderVisibleItems s h
  | handleVirtualScroll t ht =>
    show Collections (handleVirtualScroll s t ht)
    unfold handleVirtualScroll
    dsimp only
    split
    · exact collections_renderVisibleItems _ h
    · exact h
  | renderPDFWithWorker_onmessage index blob =>
    exact ⟨h.1, h.2.1, nodup_mapKeys_mapSet _ _ _ h.2.2⟩
  | renderPDFMainThread_done index pdf =>
    exact ⟨h.1, h.2.1, nodup_mapKeys_mapSet _ _ _ h.2.2⟩

/-- In every state reached from the freshly loaded page, `selectedIndices` has no repeated
element and the two per-index maps have no repeated key. -/
theorem collections_run (ops : List Op) : Collections (run init ops) := by
  have h0 : Collections init := ⟨List.nodup_nil, List.nodup_nil, List.nodup_nil⟩
  have key : ∀ (l : List Op) (s : State), Collections s → Collections (run s l) := by
    intro l
    induction l with
    | nil => intro s hs; exact hs
    | cons op rest ih => intro s hs; exact ih (step s op) (collections_step s op hs)
  exact key ops init h0

/-! ## Changes confined to the error queue -/

theorem errorsOnly_refl (s : State) : ErrorsOnly s s :=
  ⟨s.errorQueue, s.errorTimers, s.isShowingError, s.shownErrors, s.timersSet, rfl⟩

theorem errorsOnly_trans {s t u : State} (h1 : ErrorsOnly s t) (h2 : ErrorsOnly t u) :
    ErrorsOnly s u := by
  obtain ⟨q, tm, b, l, n, h1⟩ := h1
  obtain ⟨q2, tm2, b2, l2, n2, h2⟩ := h2
  subst h1
  exact ⟨q2, tm2, b2, l2, n2, h2⟩

theorem errorsOnly_showError (s : State) (m : Message) (p : String) :
    ErrorsOnly s (showError s m p) :=
  showError_eq s m p

theorem errorsOnly_renderFrame {s t : State} (h : ErrorsOnly s t) : RenderFrame s t := by
  obtain ⟨q, tm, b, l, n, h⟩ := h
  subst h
  exact ⟨rfl, rfl, rfl, rfl, rfl, rfl, rfl, rfl, rfl⟩

theorem errorsOnly_tracker {s t : State} (h : ErrorsOnly s t) :
    t.fileObjectURLs = s.fileObjectURLs ∧ t.allObjectURLs = s.allObjectURLs ∧
    t.created = s.created ∧ t.revoked = s.revoked ∧
    t.previewChildren = s.previewChildren ∧ t.currentMode = s.currentMode := by
  obtain ⟨q, tm, b, l, n, h⟩ := h
  subst h
  exact ⟨rfl, rfl, rfl, rfl, rfl, rfl⟩

theorem errorsOnly_handleFilesFilter (s : State) (newFiles : List File) :
    ErrorsOnly s (handleFilesFilter s newFiles).1 := by
  unfold handleFilesFilter
  refine foldl_preserves (fun acc : State × List File => ErrorsOnly s acc.1) _ ?_ _ _
    (errorsOnly_refl s)
  intro acc f h
  dsimp only
  split
  · exact errorsOnly_trans h (errorsOnly_showError _ _ _)
  · exact h
  · exact h

theorem errorsOnly_handleFilesStart (s : State) (newFiles : List File) :
    ErrorsOnly s (handleFilesStart s newFiles).1 := by
  have h1 := errorsOnly_handleFilesFilter s newFiles
  unfold handleFilesStart
  dsimp only
  split
  · exact errorsOnly_refl s
  · split
    · exact errorsOnly_trans h1 (errorsOnly_showError _ _ _)
    · split
      · exact errorsOnly_trans h1 (errorsOnly_showError _ _ _)
      · exact h1

theorem errorsOnly_handleFilesConvert (s : State) (filteredFiles : List File)
    (heic : File → Option (List File)) :
    ErrorsOnly s (handleFilesConvert s filteredFiles heic).1 := by
  unfold handleFilesConvert
  refine foldl_preserves (fun acc : State × List File => ErrorsOnly s acc.1) _ ?_ _ _
    (errorsOnly_refl s)
  intro acc f h
  dsimp only
  split
  · exact errorsOnly_trans h (errorsOnly_showError _ _ _)
  · split
    · exact errorsOnly_trans h (errorsOnly_showError _ _ _)
    · split
      · split
        · exact h
        · exact errorsOnly_trans h (errorsOnly_showError _ _ _)
      · exact h

theorem checkMemoryLimit_congr {s t : State} (h : ErrorsOnly s t) (newFiles : List File) :
    checkMemoryLimit t newFiles = checkMemoryLimit s newFiles := by
  have hf := (errorsOnly_renderFrame h).files
  have hm := (errorsOnly_renderFrame h).currentMemoryUsage
  unfold checkMemoryLimit
  rw [hf, hm]

theorem handleFilesStart_rejected (s : State) (newFiles : List File)
    (h : checkMemoryLimit s (handleFilesFilter s newFiles).2 ≠ none) :
    (handleFilesStart s newFiles).2 = none := by
  have hc := checkMemoryLimit_congr (errorsOnly_handleFilesFilter s newFiles)
    (handleFilesFilter s newFiles).2
  unfold handleFilesStart
  dsimp only
  split
  · rfl
  · split
    · rfl
    · split
      · rfl
      · rename_i hnone
        rw [hc] at hnone
        exact absurd hnone h

theorem handleFiles_of_rejected (s : State) (newFiles : List File)
    (heic : File → Option (List File)) (w : Int)
    (h : (handleFilesStart s newFiles).2 = none) :
    handleFiles s newFiles heic w = (handleFilesStart s newFiles).1 := by
  unfold handleFiles
  split
  · rename_i s1 heq
    rw [heq]
  · rename_i s1 filtered heq
    rw [heq] at h
    simp at h

/-! ## C11: appending keeps the existing entries and the selection -/

/-- C11: the `files.push` step of `handleFiles` puts the new entries at the end in their
given order: the file sequence becomes the old one followed by the batch, so its first
`files.length` entries are the old entries at their old indices and the rest is the batch,
and the selection set is unchanged. A whole run of `handleFiles` likewise leaves the old
sequence as a prefix of the new one and the selection unchanged. -/
theorem handleFilesAppend_keeps_indices (s : State) (convertedFiles newFiles : List File)
    (heic : File → Option (List File)) (w : Int) :
    (handleFilesAppend s convertedFiles w).files = s.files ++ convertedFiles ∧
    (handleFilesAppend s convertedFiles w).files.take s.files.length = s.files ∧
    (handleFilesAppend s convertedFiles w).files.drop s.files.length = convertedFiles ∧
    (handleFilesAppend s convertedFiles w).selectedIndices = s.selectedIndices ∧
    s.files <+: (handleFiles s newFiles heic w).files ∧
    (handleFiles s newFiles heic w).selectedIndices = s.selectedIndices := by
  have hf := handleFilesAppend_files s convertedFiles w
  refine ⟨hf, ?_, ?_, handleFilesAppend_selectedIndices s convertedFiles w, ?_, ?_⟩
  · rw [hf]; simp
  · rw [hf]; simp
  · have h1 := errorsOnly_renderFrame (errorsOnly_handleFilesStart s newFiles)
    unfold handleFiles
    split
    · rename_i s1 heq
      rw [heq] at h1
      rw [h1.files]
    · rename_i s1 filtered heq
      rw [heq] at h1
      have h2 := errorsOnly_renderFrame (errorsOnly_handleFilesConvert s1 filtered heic)
      dsimp only
      rw [handleFilesAppend_files, h2.files, h1.files]
      exact List.prefix_append _ _
  · have h1 := errorsOnly_renderFrame (errorsOnly_handleFilesStart s newFiles)
    unfold handleFiles
    split
    · rename_i s1 heq
      rw [heq] at h1
      exact h1.selectedIndices
    · rename_i s1 filtered heq
      rw [heq] at h1
      have h2 := errorsOnly_renderFrame (errorsOnly_handleFilesConvert s1 filtered heic)
      dsimp only
      rw [handleFilesAppend_selectedIndices, h2.selectedIndices, h1.selectedIndices]

/-! ## C12: the capacity check against the true registry content -/

set_option maxRecDepth 100000 in
/-- C12 at its failing input: twenty-five images of 20 MiB are accepted (500 MiB, the
budget), then `removeFile(0)` leaves twenty-four files of 480 MiB together while
`currentMemoryUsage` still holds 500 MiB; a batch of one image of 1 KiB would give 25 files
and 480 MiB + 1 KiB, within both limits, yet `checkMemoryLimit` rejects it with the memory
message and `handleFiles` inserts nothing. -/
theorem checkMemoryLimit_uses_stale_usage :
    staleState.files.length = 24 ∧
    totalSize staleState.files = 480 * 1024 * 1024 ∧
    staleState.currentMemoryUsage = 500 * 1024 * 1024 ∧
    staleState.files.length + [smallImage].length ≤ MAX_FILES_COUNT ∧
    totalSize staleState.files + totalSize [smallImage] ≤ MAX_TOTAL_MEMORY ∧
    checkMemoryLimit staleState [smallImage] = some (Message.memoryLimitExceeded 0) ∧
    (handleFilesStart staleState [smallImage]).2 = none ∧
    (handleFiles staleState [smallImage] (fun _ => none) 800).files.length = 24 := by
  decide

/-! ## C13: a rejected batch changes nothing in the registry -/

/-- C13: when `checkMemoryLimit` rejects the batch that passed the mode filter (memory or
count budget exceeded), `handleFiles` returns before its first `await` and leaves the
registry as it was: the file sequence (no entry of the batch is inserted), the selection,
the cached memory usage, the tracker maps `fileObjectURLs`, `allObjectURLs` and
`pdfCleanupTasks`, the snapshot history, the object-URL store and the rendered cards are
unchanged; only the error queue has received the rejection. -/
theorem handleFiles_rejected_unchanged (s : State) (newFiles : List File)
    (heic : File → Option (List File)) (w : Int)
    (h : checkMemoryLimit s (handleFilesFilter s newFiles).2 ≠ none) :
    (handleFiles s newFiles heic w).files = s.files ∧
    (handleFiles s newFiles heic w).selectedIndices = s.selectedIndices ∧
    (handleFiles s newFiles heic w).currentMemoryUsage = s.currentMemoryUsage ∧
    (handleFiles s newFiles heic w).fileObjectURLs = s.fileObjectURLs ∧
    (handleFiles s newFiles heic w).allObjectURLs = s.allObjectURLs ∧
    (handleFiles s newFiles heic w).pdfCleanupTasks = s.pdfCleanupTasks ∧
    (handleFiles s newFiles heic w).selectionHistory = s.selectionHistory ∧
    (handleFiles s newFiles heic w).created = s.created ∧
    (handleFiles s newFiles heic w).revoked = s.revoked ∧
    (handleFiles s newFiles heic w).previewChildren = s.previewChildren ∧
    ErrorsOnly s (handleFiles s newFiles heic w) := by
  have hr := handleFilesStart_rejected s newFiles h
  have he : ErrorsOnly s (handleFiles s newFiles heic w) := by
    rw [handleFiles_of_rejected s newFiles heic w hr]
    exact errorsOnly_handleFilesStart s newFiles
  have hf := errorsOnly_renderFrame he
  have ht := errorsOnly_tracker he
  exact ⟨hf.files, hf.selectedIndices, hf.currentMemoryUsage, ht.1, ht.2.1, hf.pdfCleanupTasks,
    hf.selectionHistory, ht.2.2.1, ht.2.2.2.1, ht.2.2.2.2.1, he⟩

set_option maxRecDepth 100000 in
/-- C13 at the state that holds 500 MiB: a further image of 1 KiB is rejected and `handleFiles`
changes nothing but the error queue. -/
theorem handleFiles_rejected_unchanged_witness :
    checkMemoryLimit fullState (handleFilesFilter fullState [smallImage]).2 ≠ none ∧
    ((handleFiles fullState [smallImage] (fun _ => none) 800).files = fullState.files ∧
     (handleFiles fullState [smallImage] (fun _ => none) 800).selectedIndices
       = fullState.selectedIndices ∧
     (handleFiles fullState [smallImage] (fun _ => none) 800).currentMemoryUsage
       = fullState.currentMemoryUsage ∧
     (handleFiles fullState [smallImage] (fun _ => none) 800).fileObjectURLs
       = fullState.fileObjectURLs ∧
     (handleFiles fullState [smallImage] (fun _ => none) 800).allObjectURLs
       = fullState.allObjectURLs ∧
     (handleFiles fullState [smallImage] (fun _ => none) 800).pdfCleanupTasks
       = fullState.pdfCleanupTasks ∧
     (handleFiles fullState [smallImage] (fun _ => none) 800).selectionHistory
       = fullState.selectionHistory ∧
     (handleFiles fullState [smallImage] (fun _ => none) 800).created = fullState.created ∧
     (handleFiles fullState [smallImage] (fun _ => none) 800).revoked = fullState.revoked ∧
     (handleFiles fullState [smallImage] (fun _ => none) 800).previewChildren
       = fullState.previewChildren ∧
     ErrorsOnly fullState (handleFiles fullState [smallImage] (fun _ => none) 800)) :=
  ⟨by decide,
    handleFiles_rejected_unchanged fullState [smallImage] (fun _ => none) 800 (by decide)⟩

/-! ## C14: the bounded history of selection snapshots -/

theorem saveSelectionState_selectionHistory (s : State) (now : Nat) :
    (saveSelectionState s now).selectionHistory =
      if (s.selectionHistory ++ [selectionSnapshot s now]).length > 10
      then (s.selectionHistory ++ [selectionSnapshot s now]).drop 1
      else s.selectionHistory ++ [selectionSnapshot s now] := rfl

theorem lastN_snoc {α : Type} (l : List α) (x : α) :
    lastN 10 (l ++ [x]) =
      if (lastN 10 l ++ [x]).length > 10 then (lastN 10 l ++ [x]).drop 1
      else lastN 10 l ++ [x] := by
  unfold lastN
  by_cases h : l.length < 10
  · have h1 : l.length - 10 = 0 := by omega
    have h2 : (l ++ [x]).length - 10 = 0 := by
      rw [List.length_append, List.length_singleton]; omega
    rw [h1, h2]
    simp only [List.drop_zero, List.length_append, List.length_singleton]
    have : ¬ l.length + 1 > 10 := by omega
    simp [this]
  · have hlen : (l.drop (l.length - 10) ++ [x]).length = 11 := by
      rw [List.length_append, List.length_drop, List.length_singleton]; omega
    rw [hlen]
    simp only [gt_iff_lt, Nat.lt_add_one, if_true, List.length_append, List.length_singleton]
    have h3 : l.length + 1 - 10 = (l.length - 10) + 1 := by omega
    rw [h3, List.drop_append_of_le_length (by omega), ← List.drop_drop,
      List.drop_append_of_le_length (by rw [List.length_drop]; omega)]

theorem cleanupPDFPreview_selectionHistory (s : State) (i : Int) :
    (cleanupPDFPreview s i).selectionHistory = s.selectionHistory := by
  unfold cleanupPDFPreview
  split
  · split <;> rfl
  · rfl

theorem step_selectionHistory (s : State) (op : Op) (hg : historyEvents s op = true)
    (hs : ∀ now, op ≠ Op.saveSelectionState now) :
    (step s op).selectionHistory = s.selectionHistory := by
  cases op with
  | handleFilesAppend cf w =>
    show (handleFilesAppend s cf w).selectionHistory = _
    unfold handleFilesAppend
    split
    · exact (errorsOnly_renderFrame (errorsOnly_showError _ _ _)).selectionHistory
    · dsimp only
      split
      · rw [(renderFrame_showPreview _).selectionHistory]
        unfold enableVirtualScroll
        split
        · exact (renderFrame_renderVisibleItems _).selectionHistory
        · rfl
      · rfl
  | removeFile k =>
    show (showPreview (removeFileReindex s k)).selectionHistory = _
    rw [(renderFrame_showPreview _).selectionHistory]
    show (cleanupPDFPreview (revokeFileURLs s k) k).selectionHistory = _
    rw [cleanupPDFPreview_selectionHistory, (renderFrame_revokeFileURLs s k).selectionHistory]
  | toggleSelection k =>
    show (toggleSelection s k).selectionHistory = _
    unfold toggleSelection
    split
    · rfl
    · split <;> rfl
  | selectAll => exact (renderFrame_showPreview _).selectionHistory
  | deselectAll => exact (renderFrame_showPreview _).selectionHistory
  | invertSelection => exact (renderFrame_showPreview _).selectionHistory
  | deleteSelected =>
    show (deleteSelected s).selectionHistory = _
    unfold deleteSelected
    split
    · obtain ⟨q, t, b, l, n, he⟩ := showError_eq s (Message.other "No files selected!") "error"
      rw [he]
    · exact (renderFrame_showPreview _).selectionHistory
  | deleteFiles fs now => simp [historyEvents] at hg
  | clearFiles => simp [historyEvents] at hg
  | saveSelectionState now => exact absurd rfl (hs now)
  | restoreSelectionState =>
    show (restoreSelectionState s).2.selectionHistory = _
    unfold restoreSelectionState
    split
    · rfl
    · split
      · rfl
      · exact (renderFrame_showPreview _).selectionHistory
  | createTrackedURL blob fileIndex => cases fileIndex <;> rfl
  | revokeFileURLs i => exact (renderFrame_revokeFileURLs s i).selectionHistory
  | revokeAllTrackedURLs => exact (renderFrame_revokeAllTrackedURLs s).selectionHistory
  | showPreview => exact (renderFrame_showPreview s).selectionHistory
  | showPreviewFrom i => exact (renderFrame_showPreviewFrom s i).selectionHistory
  | renderVisibleItems => exact (renderFrame_renderVisibleItems s).selectionHistory
  | handleVirtualScroll t ht =>
    show (handleVirtualScroll s t ht).selectionHistory = _
    unfold handleVirtualScroll
    dsimp only
    split
    · exact (renderFrame_renderVisibleItems _).selectionHistory
    · rfl
  | renderPDFWithWorker_onmessage index blob => rfl
  | renderPDFMainThread_done index pdf => rfl

theorem snapshotsTaken_cons_other (s : State) (op : Op) (rest : List Op)
    (hs : ∀ now, op ≠ Op.saveSelectionState now) :
    snapshotsTaken s (op :: rest) = snapshotsTaken (step s op) rest := by
  cases op <;> first | rfl | exact absurd rfl (hs _)

theorem run_selectionHistory (ops : List Op) (s : State) (taken : List SelectionSnapshot)
    (h : s.selectionHistory = lastN 10 taken)
    (hg : Guarded historyEvents s ops = true) :
    (run s ops).selectionHistory = lastN 10 (taken ++ snapshotsTaken s ops) := by
  induction ops generalizing s taken with
  | nil => simpa [run, snapshotsTaken] using h
  | cons op rest ih =>
    simp only [Guarded, Bool.and_eq_true] at hg
    by_cases hsave : ∃ now, op = Op.saveSelectionState now
    · obtain ⟨now, rfl⟩ := hsave
      have h1 : (step s (Op.saveSelectionState now)).selectionHistory
          = lastN 10 (taken ++ [selectionSnapshot s now]) := by
        show (saveSelectionState s now).selectionHistory = _
        rw [saveSelectionState_selectionHistory, lastN_snoc, h]
      have := ih (step s (Op.saveSelectionState now)) (taken ++ [selectionSnapshot s now])
        h1 hg.2
      simpa [run, snapshotsTaken] using this
    · have hs : ∀ now, op ≠ Op.saveSelectionState now := fun now heq => hsave ⟨now, heq⟩
      have h1 : (step s op).selectionHistory = lastN 10 taken := by
        rw [step_selectionHistory s op hg.1 hs, h]
      have := ih (step s op) taken h1 hg.2
      rw [snapshotsTaken_cons_other s op rest hs]
      simpa [run] using this

theorem length_lastN {α : Type} (n : Nat) (l : List α) :
    (lastN n l).length = min l.length n := by
  unfold lastN
  rw [List.length_drop]
  omega

/-- C14: along every event sequence from the freshly loaded page that does not clear the
history (no `clearFiles`, no `deleteFiles`), the snapshot history is exactly the last
`min(k, 10)` of the `k` snapshots taken by `saveSelectionState`, in the order they were taken:
its length is `min(k, 10)`, never above 10, and an eleventh snapshot drops the oldest. -/
theorem selectionHistory_last_ten (ops : List Op)
    (hg : Guarded historyEvents init ops = true) :
    (run init ops).selectionHistory = lastN 10 (snapshotsTaken init ops) ∧
    (run init ops).selectionHistory.length = min (snapshotsTaken init ops).length 10 ∧
    (run init ops).selectionHistory.length ≤ 10 := by
  have h := run_selectionHistory ops init [] (by simp [init, lastN]) hg
  rw [List.nil_append] at h
  refine ⟨h, ?_, ?_⟩
  · rw [h, length_lastN]
  · rw [h, length_lastN]
    omega

/-- C14 on twelve saves: the history holds the snapshots with timestamps `3` to `12`, the
last one with the selection changed before it was taken. -/
theorem selectionHistory_last_ten_witness :
    Guarded historyEvents init exampleSaves = true ∧
    (snapshotsTaken init exampleSaves).length = 12 ∧
    (run init exampleSaves).selectionHistory.map SelectionSnapshot.timestamp
      = [3, 4, 5, 6, 7, 8, 9, 10, 11, 12] ∧
    ((run init exampleSaves).selectionHistory = lastN 10 (snapshotsTaken init exampleSaves) ∧
     (run init exampleSaves).selectionHistory.length
       = min (snapshotsTaken init exampleSaves).length 10 ∧
     (run init exampleSaves).selectionHistory.length ≤ 10) :=
  ⟨by decide, by decide, by decide, selectionHistory_last_ten exampleSaves (by decide)⟩

/-! ## C15: restoring the selection by file name -/

theorem mem_restoreFold (files : List File) (names : List (Option String)) (acc : List Int)
    (j : Int) :
    j ∈ names.foldl (fun acc fileName =>
        match findIndexByName files fileName with
        | some index => setAdd acc (index : Int)
        | none => acc) acc ↔
      j ∈ acc ∨ j ∈ names.filterMap (fun name =>
        (findIndexByName files name).map (fun (i : Nat) => (i : Int))) := by
  induction names generalizing acc with
  | nil => simp
  | cons name rest ih =>
    rw [List.foldl_cons, ih, List.filterMap_cons]
    cases hf : findIndexByName files name with
    | none => simp
    | some index =>
      simp only [Option.map_some', mem_setAdd, List.mem_cons]
      constructor
      · rintro ((h | h) | h)
        · exact Or.inl h
        · exact Or.inr (Or.inl h)
        · exact Or.inr (Or.inr h)
      · rintro (h | h | h)
        · exact Or.inl (Or.inl h)
        · exact Or.inl (Or.inr h)
        · exact Or.inr h

theorem nodup_restoreFold (files : List File) (names : List (Option String)) :
    (names.foldl (fun acc fileName =>
        match findIndexByName files fileName with
        | some index => setAdd acc (index : Int)
        | none => acc) []).Nodup := by
  refine foldl_preserves (fun acc : List Int => acc.Nodup) _ ?_ _ _ List.nodup_nil
  intro acc x hacc
  dsimp only
  split
  · exact nodup_setAdd _ _ hacc
  · exact hacc

theorem restoreSelectionState_of_enabled (s : State) (last : SelectionSnapshot)
    (hlast : s.selectionHistory.getLast? = some last) (hcan : s.canRestoreSelection = true) :
    (restoreSelectionState s).2
      = showPreview { s with selectedIndices := restoreLoop s.files last.fileNames } ∧
    (restoreSelectionState s).1
      = decide ((restoreSelectionState s).2.selectedIndices.length > 0) := by
  have hne : s.selectionHistory ≠ [] := by
    intro h
    rw [h] at hlast
    simp at hlast
  have hlen : ¬ s.selectionHistory.length = 0 := by
    intro h
    exact hne (List.length_eq_zero.mp h)
  have hgate : ¬ ((decide (s.selectionHistory.length = 0) || !s.canRestoreSelection) = true) := by
    simp [hlen, hcan]
  unfold restoreSelectionState restoreLoop
  rw [if_neg hgate]
  simp only [hlast]
  first
    | exact ⟨rfl, rfl⟩
    | exact ⟨rfl, trivial⟩
    | exact ⟨trivial, rfl⟩
    | exact ⟨trivial, trivial⟩

theorem restoreSelectionState_selected (s : State) (last : SelectionSnapshot)
    (hlast : s.selectionHistory.getLast? = some last) (hcan : s.canRestoreSelection = true) :
    (restoreSelectionState s).2.selectedIndices = restoreLoop s.files last.fileNames := by
  rw [(restoreSelectionState_of_enabled s last hlast hcan).1]
  exact (renderFrame_showPreview _).selectedIndices

/-- C15 as stated fails: after a manual restore has reset `canRestoreSelection`, the history
still holds the snapshot of `x.png` and `y.png` and the lookup of its names gives index `0`,
but `restoreSelectionState` returns without touching the (empty) selection. -/
theorem restoreSelectionState_gated_counterexample :
    restoreSpent.selectionHistory.getLast?
      = some { indices := [1, 0], fileNames := [some "x.png", some "y.png"], timestamp := 7 } ∧
    restoreSpent.canRestoreSelection = false ∧
    lookedUpIndices restoreSpent.files
      { indices := [1, 0], fileNames := [some "x.png", some "y.png"], timestamp := 7 } = [0] ∧
    (restoreSelectionState restoreSpent).2.selectedIndices = [] ∧
    (restoreSelectionState restoreSpent).1 = false := by
  decide

/-- C15 amended: for every registry and every non-empty snapshot history, when
`canRestoreSelection` is set, `restoreSelectionState` sets the selection to exactly the set
of current indices obtained by looking up each name stored in the most recent snapshot in
the current file sequence (names that no longer occur are dropped), without duplicates, and
leaves the file sequence as it is. -/
theorem restoreSelectionState_by_name (s : State) (last : SelectionSnapshot)
    (hlast : s.selectionHistory.getLast? = some last) (hcan : s.canRestoreSelection = true) :
    (∀ j : Int, j ∈ (restoreSelectionState s).2.selectedIndices ↔
      j ∈ lookedUpIndices s.files last) ∧
    (restoreSelectionState s).2.selectedIndices.Nodup ∧
    (restoreSelectionState s).2.files = s.files := by
  refine ⟨?_, ?_, ?_⟩
  · intro j
    rw [restoreSelectionState_selected s last hlast hcan]
    unfold restoreLoop
    rw [mem_restoreFold]
    unfold lookedUpIndices
    simp
  · rw [restoreSelectionState_selected s last hlast hcan]
    exact nodup_restoreFold _ _
  · rw [(restoreSelectionState_of_enabled s last hlast hcan).1]
    exact (renderFrame_showPreview _).files

/-- C15 amended, on the example of the specification: the snapshot names `x.png` and `y.png`,
`y.png` has been removed and `x.png` sits at index `0`; the restored selection is `{0}`. -/
theorem restoreSelectionState_by_name_witness :
    restoreExample.files = [fileX] ∧
    restoreExample.selectedIndices = [] ∧
    restoreExample.selectionHistory.getLast?
      = some { indices := [1, 0], fileNames := [some "x.png", some "y.png"], timestamp := 7 } ∧
    restoreExample.canRestoreSelection = true ∧
    (restoreSelectionState restoreExample).2.selectedIndices = [0] ∧
    ((∀ j : Int, j ∈ (restoreSelectionState restoreExample).2.selectedIndices ↔
        j ∈ lookedUpIndices restoreExample.files
          { indices := [1, 0], fileNames := [some "x.png", some "y.png"], timestamp := 7 }) ∧
      (restoreSelectionState restoreExample).2.selectedIndices.Nodup ∧
      (restoreSelectionState restoreExample).2.files = restoreExample.files) :=
  ⟨by decide, by decide, by decide, by decide, by decide,
    restoreSelectionState_by_name restoreExample
      { indices := [1, 0], fileNames := [some "x.png", some "y.png"], timestamp := 7 }
      (by decide) (by decide)⟩

/-! ## C16: what `restoreSelectionState` returns -/

/-- C16 as stated fails: `restoreSelectionState` returns a boolean, not a count. It returns
the same `true` when one entry is restored (the example of the specification) and when two
are. -/
theorem restoreSelectionState_returns_boolean_counterexample :
    (restoreSelectionState restoreExample).2.selectedIndices.length = 1 ∧
    (restoreSelectionState restoreExample).1 = true ∧
    (restoreSelectionState restoreBoth).2.selectedIndices.length = 2 ∧
    (restoreSelectionState restoreBoth).1 = true := by
  decide

/-- C16 amended: `restoreSelectionState` returns `true` exactly when the selection it has
restored is not empty (the count of restored entries is the size of `selectedIndices`
afterwards); when there is no snapshot, or `canRestoreSelection` is not set, it returns
`false` and leaves the whole state as it is; and when the registry is empty (and the
selection, being in range, is empty) it returns `false` and the selection is unchanged. -/
theorem restoreSelectionState_result (s : State) :
    ((s.selectionHistory = [] ∨ s.canRestoreSelection = false) →
      restoreSelectionState s = (false, s)) ∧
    ((s.selectionHistory ≠ [] ∧ s.canRestoreSelection = true) →
      (restoreSelectionState s).1
        = decide ((restoreSelectionState s).2.selectedIndices.length > 0)) ∧
    ((s.files = [] ∧ SelectionInRange s) →
      (restoreSelectionState s).1 = false ∧
      (restoreSelectionState s).2.selectedIndices = s.selectedIndices) := by
  refine ⟨?_, ?_, ?_⟩
  · intro h
    unfold restoreSelectionState
    rcases h with h | h
    · simp [h]
    · simp [h]
  · rintro ⟨hne, hcan⟩
    cases hl : s.selectionHistory.getLast? with
    | none =>
      rw [List.getLast?_eq_none_iff] at hl
      exact absurd hl hne
    | some last => exact (restoreSelectionState_of_enabled s last hl hcan).2
  · rintro ⟨hfiles, hrange⟩
    have hsel : s.selectedIndices = [] := by
      cases hs : s.selectedIndices with
      | nil => rfl
      | cons a rest =>
        have := hrange a (by rw [hs]; exact List.mem_cons_self _ _)
        rw [hfiles] at this
        simp at this
        omega
    by_cases hgate : s.selectionHistory = [] ∨ s.canRestoreSelection = false
    · have : restoreSelectionState s = (false, s) := by
        unfold restoreSelectionState
        rcases hgate with h | h
        · simp [h]
        · simp [h]
      rw [this]
      exact ⟨rfl, rfl⟩
    · have hne : s.selectionHistory ≠ [] := fun h => hgate (Or.inl h)
      have hcan : s.canRestoreSelection = true := by
        cases hc : s.canRestoreSelection with
        | true => rfl
        | false => exact absurd (Or.inr hc) hgate
      cases hl : s.selectionHistory.getLast? with
      | none =>
        rw [List.getLast?_eq_none_iff] at hl
        exact absurd hl hne
      | some last =>
        have hfold : restoreLoop s.files last.fileNames = [] := by
          unfold restoreLoop
          refine foldl_preserves (fun acc : List Int => acc = []) _ ?_ _ _ rfl
          intro acc name hacc
          have : findIndexByName s.files name = none := by
            rw [hfiles]; rfl
          simp only [this]
          exact hacc
        have hsel2 := restoreSelectionState_selected s last hl hcan
        rw [hfold] at hsel2
        refine ⟨?_, by rw [hsel2, hsel]⟩
        rw [(restoreSelectionState_of_enabled s last hl hcan).2, hsel2]
        rfl

/-- C16 amended, at concrete states: on the freshly loaded page (no snapshot) nothing happens
and `false` is returned; on the example of the specification one entry is restored and `true`
is returned; on a registry emptied after a save `false` is returned and the selection stays
empty. -/
theorem restoreSelectionState_result_witness :
    restoreSelectionState init = (false, init) ∧
    (restoreSelectionState restoreExample).2.selectedIndices.length = 1 ∧
    (restoreSelectionState restoreExample).1
      = decide ((restoreSelectionState restoreExample).2.selectedIndices.length > 0) ∧
    restoreEmptied.selectionHistory ≠ [] ∧
    ((restoreSelectionState restoreEmptied).1 = false ∧
     (restoreSelectionState restoreEmptied).2.selectedIndices
       = restoreEmptied.selectedIndices) :=
  ⟨(restoreSelectionState_result init).1 (Or.inl rfl),
    by decide,
    (restoreSelectionState_result restoreExample).2.1 ⟨by decide, by decide⟩,
    by decide,
    (restoreSelectionState_result restoreEmptied).2.2
      ⟨by decide, by unfold SelectionInRange; decide⟩⟩

/-! ## C17: the range computed by `handleVirtualScroll` -/

theorem handleVirtualScroll_visibleRange (s : State) (scrollTop offsetHeight : Int) :
    (handleVirtualScroll s scrollTop offsetHeight).visibleRange =
      ⟨max 0 ((scrollTop / s.itemHeight - VISIBLE_BUFFER) * s.itemsPerRow),
       min (s.files.length : Int)
        ((scrollTop / s.itemHeight + -((-offsetHeight) / s.itemHeight) + VISIBLE_BUFFER)
          * s.itemsPerRow)⟩ := by
  unfold handleVirtualScroll
  dsimp only
  split
  · exact (renderFrame_renderVisibleItems _).visibleRange
  · rename_i h
    have h1 := not_or.mp h
    have ha := not_not.mp h1.1
    have hb := not_not.mp h1.2
    cases hv : s.visibleRange with
    | mk a b =>
      rw [hv] at ha hb
      simp only at ha hb
      rw [ha, hb]

theorem floor_div_eq (a b : Int) (hb : 0 < b) : ⌊(a : ℚ) / (b : ℚ)⌋ = a / b := by
  have h : (b : ℚ) = ((b.toNat : ℕ) : ℚ) := by
    have : ((b.toNat : ℕ) : ℤ) = b := Int.toNat_of_nonneg (le_of_lt hb)
    exact_mod_cast this.symm
  rw [h, Rat.floor_intCast_div_natCast, Int.toNat_of_nonneg (le_of_lt hb)]

theorem ceil_div_eq (a b : Int) (hb : 0 < b) : ⌈(a : ℚ) / (b : ℚ)⌉ = -((-a) / b) := by
  have h := floor_div_eq (-a) b hb
  rw [← h]
  have : ((-a : Int) : ℚ) / (b : ℚ) = -((a : ℚ) / (b : ℚ)) := by
    push_cast
    ring
  rw [this, Int.floor_neg, neg_neg]

/-- C17: for a positive `itemHeight` the range that `handleVirtualScroll` leaves in
`visibleRange` is `start = max(0, (floor(scrollOffset / itemHeight) - 5) * itemsPerRow)` and
`end = min(totalItems, (floor(scrollOffset / itemHeight) + ceil(containerHeight / itemHeight)
+ 5) * itemsPerRow)`, with the floor and the ceiling of the rational quotients and
`totalItems = files.length`. -/
theorem handleVirtualScroll_range (s : State) (scrollTop offsetHeight : Int)
    (hh : 0 < s.itemHeight) :
    (handleVirtualScroll s scrollTop offsetHeight).visibleRange.start
      = max 0 ((⌊(scrollTop : ℚ) / (s.itemHeight : ℚ)⌋ - 5) * s.itemsPerRow) ∧
    (handleVirtualScroll s scrollTop offsetHeight).visibleRange.stop
      = min (s.files.length : Int)
          ((⌊(scrollTop : ℚ) / (s.itemHeight : ℚ)⌋
            + ⌈(offsetHeight : ℚ) / (s.itemHeight : ℚ)⌉ + 5) * s.itemsPerRow) := by
  rw [handleVirtualScroll_visibleRange, floor_div_eq _ _ hh, ceil_div_eq _ _ hh]
  exact ⟨rfl, rfl⟩

set_option maxRecDepth 100000 in
/-- C17 on the example of the specification: 200 items, 5 per row, item height 155, scroll
offset 0 and container height 620 give the range from 0 to 45. -/
theorem handleVirtualScroll_range_witness :
    viewportExample.files.length = 200 ∧ viewportExample.itemsPerRow = 5 ∧
    viewportExample.itemHeight = 155 ∧
    (handleVirtualScroll viewportExample 0 620).visibleRange = ⟨0, 45⟩ ∧
    ((handleVirtualScroll viewportExample 0 620).visibleRange.start
      = max 0 ((⌊((0 : Int) : ℚ) / (viewportExample.itemHeight : ℚ)⌋ - 5)
          * viewportExample.itemsPerRow) ∧
    (handleVirtualScroll viewportExample 0 620).visibleRange.stop
      = min (viewportExample.files.length : Int)
          ((⌊((0 : Int) : ℚ) / (viewportExample.itemHeight : ℚ)⌋
            + ⌈((620 : Int) : ℚ) / (viewportExample.itemHeight : ℚ)⌉ + 5)
            * viewportExample.itemsPerRow)) :=
  ⟨by decide, by decide, by decide, by decide,
    handleVirtualScroll_range viewportExample 0 620 (by decide)⟩

/-! ## C18: the computed range as an index range -/

set_option maxRecDepth 100000 in
/-- C18 as stated fails: after sixty images were scrolled to the bottom (offset `1240`) and
all but ten of them deleted, the next scroll event at that offset computes `start = 15` and
`end = 10`, so `start ≤ end` does not hold. -/
theorem handleVirtualScroll_start_after_stop_counterexample :
    (run init shrunkSession).files.length = 10 ∧
    (run init shrunkSession).itemsPerRow = 5 ∧
    (run init shrunkSession).itemHeight = 155 ∧
    (handleVirtualScroll (run init shrunkSession) 1240 620).visibleRange = ⟨15, 10⟩ := by
  decide

/-- C18 amended: for every scroll offset `≥ 0`, container height `≥ 0`, item height `> 0`
and `itemsPerRow ≥ 0`, the range computed by `handleVirtualScroll` satisfies `0 ≤ start` and
`0 ≤ end ≤ totalItems`; and `start ≤ end` holds whenever the unclamped start,
`(floor(scrollOffset / itemHeight) - 5) * itemsPerRow`, does not exceed `totalItems`. -/
theorem handleVirtualScroll_range_clamped (s : State) (scrollTop offsetHeight : Int)
    (ht : 0 ≤ scrollTop) (ho : 0 ≤ offsetHeight) (hh : 0 < s.itemHeight)
    (hr : 0 ≤ s.itemsPerRow) :
    0 ≤ (handleVirtualScroll s scrollTop offsetHeight).visibleRange.start ∧
    0 ≤ (handleVirtualScroll s scrollTop offsetHeight).visibleRange.stop ∧
    (handleVirtualScroll s scrollTop offsetHeight).visibleRange.stop
      ≤ (s.files.length : Int) ∧
    ((scrollTop / s.itemHeight - 5) * s.itemsPerRow ≤ (s.files.length : Int) →
      (handleVirtualScroll s scrollTop offsetHeight).visibleRange.start
        ≤ (handleVirtualScroll s scrollTop offsetHeight).visibleRange.stop) := by
  rw [handleVirtualScroll_visibleRange]
  have h1 : 0 ≤ scrollTop / s.itemHeight := Int.ediv_nonneg ht (le_of_lt hh)
  have h2 : (-offsetHeight) / s.itemHeight ≤ 0 := by
    have := Int.ediv_le_ediv hh (show -offsetHeight ≤ 0 by omega)
    rwa [Int.zero_ediv] at this
  have hY : 0 ≤ (scrollTop / s.itemHeight + -((-offsetHeight) / s.itemHeight)
      + VISIBLE_BUFFER) * s.itemsPerRow := by
    apply mul_nonneg _ hr
    unfold VISIBLE_BUFFER
    omega
  have hXY : (scrollTop / s.itemHeight - VISIBLE_BUFFER) * s.itemsPerRow
      ≤ (scrollTop / s.itemHeight + -((-offsetHeight) / s.itemHeight)
          + VISIBLE_BUFFER) * s.itemsPerRow := by
    apply mul_le_mul_of_nonneg_right _ hr
    unfold VISIBLE_BUFFER
    omega
  have hlen : (0 : Int) ≤ (s.files.length : Int) := Int.ofNat_nonneg _
  refine ⟨le_max_left _ _, le_min hlen hY, min_le_left _ _, ?_⟩
  intro hX
  have hX2 : (scrollTop / s.itemHeight - VISIBLE_BUFFER) * s.itemsPerRow
      ≤ (s.files.length : Int) := hX
  exact max_le (le_min hlen hY) (le_min hX2 hXY)

set_option maxRecDepth 100000 in
/-- C18 amended, on the viewport example: the range from 0 to 45 lies inside the 200 items. -/
theorem handleVirtualScroll_range_clamped_witness :
    (handleVirtualScroll viewportExample 0 620).visibleRange = ⟨0, 45⟩ ∧
    (0 ≤ (handleVirtualScroll viewportExample 0 620).visibleRange.start ∧
     0 ≤ (handleVirtualScroll viewportExample 0 620).visibleRange.stop ∧
     (handleVirtualScroll viewportExample 0 620).visibleRange.stop
       ≤ (viewportExample.files.length : Int) ∧
     (((0 : Int) / viewportExample.itemHeight - 5) * viewportExample.itemsPerRow
         ≤ (viewportExample.files.length : Int) →
       (handleVirtualScroll viewportExample 0 620).visibleRange.start
         ≤ (handleVirtualScroll viewportExample 0 620).visibleRange.stop)) :=
  ⟨by decide,
    handleVirtualScroll_range_clamped viewportExample 0 620 (by decide) (by decide)
      (by decide) (by decide)⟩

/-! ## C19: virtual scrolling below the threshold -/

set_option maxRecDepth 100000 in
/-- C19 at its failing input: fifty-one images are appended (virtual scrolling is switched
on) and one is removed. The registry then holds 50 files, all 50 rendered, but
`virtualScrollEnabled` is still `true`, and the next scroll event renders only the 45 items of
the range from 0 to 45. -/
theorem virtualScroll_stays_on_below_threshold :
    (run init thresholdSession).files.length = 50 ∧
    (run init thresholdSession).virtualScrollEnabled = true ∧
    (run init thresholdSession).previewChildren = 50 ∧
    (handleVirtualScroll (run init thresholdSession) 0 620).visibleRange = ⟨0, 45⟩ ∧
    (handleVirtualScroll (run init thresholdSession) 0 620).previewChildren = 45 := by
  decide

/-! ## C20: the byte-signature check of `validateFileType` -/

theorem enumFrom_all_iff_leading (signature bytes : List Nat) (n : Nat) :
    (signature.enumFrom n).all (fun e => decide (bytes[e.1]? = some e.2)) = true ↔
      signature <+: bytes.drop n := by
  induction signature generalizing n with
  | nil => simp
  | cons a rest ih =>
    rw [List.enumFrom_cons, List.all_cons, Bool.and_eq_true, ih (n + 1)]
    simp only [decide_eq_true_eq]
    constructor
    · rintro ⟨h1, h2⟩
      obtain ⟨hlt, hget⟩ := List.getElem?_eq_some.mp h1
      rw [List.drop_eq_getElem_cons hlt, hget]
      exact (List.cons_prefix_cons).mpr ⟨rfl, h2⟩
    · intro h
      cases hd : bytes.drop n with
      | nil =>
        rw [hd] at h
        simp at h
      | cons b tail =>
        rw [hd] at h
        obtain ⟨hab, htail⟩ := List.cons_prefix_cons.mp h
        have hlt : n < bytes.length := by
          by_contra hc
          rw [List.drop_eq_nil_of_le (by omega)] at hd
          simp at hd
        rw [List.drop_eq_getElem_cons hlt] at hd
        simp only [List.cons.injEq] at hd
        refine ⟨?_, ?_⟩
        · rw [List.getElem?_eq_getElem hlt, hd.1, hab]
        · rw [hd.2]
          exact htail

theorem signatureMatches_iff_leading (bytes signature : List Nat) :
    signatureMatches bytes signature = true ↔ signature <+: bytes := by
  unfold signatureMatches List.enum
  rw [enumFrom_all_iff_leading]
  simp

theorem validateFileType_of_signatures (file : File) (sigs : List (List Nat))
    (hext : hasValidExtension (toLowerCase file.name) = true)
    (hdot : extensionCount (toLowerCase file.name) ≤ 1)
    (hsig : FILE_SIGNATURES file.type = SignatureLookup.signatures sigs)
    (hheic : (includes file.type.data "heic".data || includes file.type.data "heif".data)
      = false) :
    validateFileType file =
      if sigs.any (fun signature => signatureMatches (file.bytes.take 8) signature) = true
      then ValidationResult.valid
      else ValidationResult.invalid (ValidationError.signatureMismatch file.name file.type) := by
  unfold validateFileType
  have hd : ¬ (extensionCount (toLowerCase file.name) > 1 ∧
      ¬ (lastTwo (toLowerCase file.name) ∈ ["tar.gz".data, "backup.zip".data])) := by
    intro h
    omega
  by_cases hany : sigs.any (fun signature => signatureMatches (file.bytes.take 8) signature)
      = true
  · simp only [hext, Bool.not_true, Bool.false_eq_true, if_false, hd, hsig, hheic, hany,
      if_true]
  · have hany2 : sigs.any (fun signature => signatureMatches (file.bytes.take 8) signature)
        = false := by
      simpa using hany
    simp only [hext, Bool.not_true, Bool.false_eq_true, if_false, hd, hsig, hany2,
      Bool.not_false, if_true]

theorem signedTypes_lookup (type : String) (h : type ∈ signedTypes) :
    ∃ sigs, FILE_SIGNATURES type = SignatureLookup.signatures sigs ∧
      (∀ sig ∈ sigs, sig.length ≤ 8) ∧
      (includes type.data "heic".data || includes type.data "heif".data) = false := by
  simp only [signedTypes, List.mem_cons, List.mem_singleton, List.not_mem_nil, or_false] at h
  rcases h with h | h | h | h
  · subst h
    exact ⟨[[0xff, 0xd8, 0xff]], by decide, by decide, by decide⟩
  · subst h
    exact ⟨[[0x89, 0x50, 0x4e, 0x47]], by decide, by decide, by decide⟩
  · subst h
    exact ⟨[[0x52, 0x49, 0x46, 0x46]], by decide, by decide, by decide⟩
  · subst h
    exact ⟨[[0x25, 0x50, 0x44, 0x46]], by decide, by decide, by decide⟩

/-- C20: for a file whose lower-cased name ends in an allow-listed extension and has a single
dot, and whose declared type is one of `image/jpeg`, `image/png`, `image/webp`,
`application/pdf`, `validateFileType` accepts the file if and only if one of the signatures
registered for the declared type is a prefix of the file's bytes, and otherwise rejects it
with the signature-mismatch reason. -/
theorem validateFileType_signature (file : File)
    (hext : hasValidExtension (toLowerCase file.name) = true)
    (hdot : extensionCount (toLowerCase file.name) ≤ 1)
    (htype : file.type ∈ signedTypes) :
    ∃ sigs, FILE_SIGNATURES file.type = SignatureLookup.signatures sigs ∧
      (validateFileType file = ValidationResult.valid ↔ ∃ sig ∈ sigs, sig <+: file.bytes) ∧
      (¬ (∃ sig ∈ sigs, sig <+: file.bytes) →
        validateFileType file =
          ValidationResult.invalid
            (ValidationError.signatureMismatch file.name file.type)) := by
  obtain ⟨sigs, hsig, hlen, hheic⟩ := signedTypes_lookup file.type htype
  have hv := validateFileType_of_signatures file sigs hext hdot hsig hheic
  have hany : sigs.any (fun signature => signatureMatches (file.bytes.take 8) signature) = true
      ↔ ∃ sig ∈ sigs, sig <+: file.bytes := by
    rw [List.any_eq_true]
    constructor
    · rintro ⟨sig, hmem, hm⟩
      rw [signatureMatches_iff_leading, List.prefix_take_iff] at hm
      exact ⟨sig, hmem, hm.1⟩
    · rintro ⟨sig, hmem, hp⟩
      refine ⟨sig, hmem, ?_⟩
      rw [signatureMatches_iff_leading, List.prefix_take_iff]
      exact ⟨hp, hlen sig hmem⟩
  refine ⟨sigs, hsig, ?_, ?_⟩
  · rw [hv, ← hany]
    split
    · simp [*]
    · simp [*]
  · intro hno
    rw [hv, if_neg (fun h => hno (hany.mp h))]

/-- C20 on the example of the specification: `photo.png`, declared `image/png`, with the
leading bytes `FF D8 FF E0`, is rejected with the signature-mismatch reason; a file with the
PNG signature is accepted. -/
theorem validateFileType_signature_witness :
    validateFileType fakePng
      = ValidationResult.invalid (ValidationError.signatureMismatch "photo.png" "image/png") ∧
    validateFileType realPng = ValidationResult.valid ∧
    (∃ sigs, FILE_SIGNATURES fakePng.type = SignatureLookup.signatures sigs ∧
      (validateFileType fakePng = ValidationResult.valid ↔
        ∃ sig ∈ sigs, sig <+: fakePng.bytes) ∧
      (¬ (∃ sig ∈ sigs, sig <+: fakePng.bytes) →
        validateFileType fakePng =
          ValidationResult.invalid
            (ValidationError.signatureMismatch fakePng.name fakePng.type))) :=
  ⟨by decide, by decide,
    validateFileType_signature fakePng (by decide) (by decide) (by decide)⟩

/-! ## C21: the accept/reject rule of a mode -/

theorem matchesClass_eq_inTypeClass (file : File) (typeClass : String) :
    matchesClass file typeClass = inTypeClass file typeClass := by
  unfold matchesClass inTypeClass
  by_cases h1 : typeClass = "image"
  · rw [if_pos h1, if_pos h1]
  · rw [if_neg h1, if_neg h1]
    by_cases h2 : typeClass = "application/pdf"
    · rw [if_pos h2, h2]
    · rw [if_neg h2]

theorem validateFileForMode_of_rule (file : File) (mode : String) (rule : ModeRule)
    (h : modeRules mode = RuleLookup.rule rule) :
    validateFileForMode file mode =
      if (rule.accept = [] ∨ rule.accept.any (inTypeClass file) = true) ∧
          ¬ (rule.reject.any (inTypeClass file) = true) then ModeValidation.valid
      else ModeValidation.invalid rule.message := by
  have hm : matchesClass file = inTypeClass file := funext (matchesClass_eq_inTypeClass file)
  unfold validateFileForMode
  rw [h]
  dsimp only
  rw [hm]
  have hlen : ∀ l : List String, l.length > 0 ↔ l ≠ [] := fun l => List.length_pos
  by_cases ha : rule.accept = []
  · by_cases hr : rule.reject.any (inTypeClass file) = true
    · have hne : rule.reject ≠ [] := by
        intro h0
        rw [h0] at hr
        simp at hr
      simp [ha, hr, hne]
    · simp [ha, hr]
  · by_cases hany : rule.accept.any (inTypeClass file) = true
    · by_cases hr : rule.reject.any (inTypeClass file) = true
      · have hne : rule.reject ≠ [] := by
          intro h0
          rw [h0] at hr
          simp at hr
        rw [if_neg (by rw [hlen]; exact fun hc => hc.2 hany),
          if_pos ⟨(hlen _).mpr hne, hr⟩, if_neg (fun hc => hc.2 hr)]
      · rw [if_neg (by rw [hlen]; exact fun hc => hc.2 hany),
          if_neg (fun hc => hr hc.2), if_pos ⟨Or.inr hany, hr⟩]
    · rw [if_pos ⟨(hlen _).mpr ha, hany⟩, if_neg]
      rintro ⟨h1 | h1, -⟩
      · exact ha h1
      · exact hany h1

theorem modeRules_of_known (mode : String) (h : mode ∈ knownModes) :
    ∃ rule, modeRules mode = RuleLookup.rule rule := by
  simp only [knownModes, List.mem_cons, List.mem_singleton, List.not_mem_nil, or_false] at h
  rcases h with h | h | h | h | h | h | h | h | h | h | h <;> subst h <;>
    exact ⟨_, rfl⟩

theorem modeRules_of_unknown (mode : String) (h1 : mode ∉ knownModes)
    (h2 : mode ∉ objectPrototypeKeys) : modeRules mode = RuleLookup.absent := by
  simp only [knownModes, List.mem_cons, List.mem_singleton, List.not_mem_nil, or_false,
    not_or] at h1
  obtain ⟨a, b, c, d, e, f, g, i, j, k, l⟩ := h1
  unfold modeRules
  rw [if_neg a, if_neg b, if_neg c, if_neg d, if_neg e, if_neg f, if_neg g, if_neg i, if_neg j,
    if_neg k, if_neg l, if_neg h2]

theorem validateFileForMode_of_inherited (file : File) (mode : String)
    (h : modeRules mode = RuleLookup.inherited) :
    validateFileForMode file mode = ModeValidation.typeError := by
  unfold validateFileForMode
  rw [h]

/-- C21, the divergence: under a mode named like a property that every object inherits from
`Object.prototype` (`constructor`, `toString`, `__proto__` and the nine others), none of which
is a known mode, `validateFileForMode` does not accept any file: `modeRules[mode]` finds the
inherited value, which is truthy, so the guard `if (!rule) return { valid: true }` is passed
and `rule.accept.length` throws a `TypeError`. -/
theorem validateFileForMode_throws_on_inherited_names (file : File) :
    "constructor" ∉ knownModes ∧
    validateFileForMode file "constructor" = ModeValidation.typeError ∧
    validateFileForMode file "constructor" ≠ ModeValidation.valid ∧
    objectPrototypeKeys.all (fun mode =>
      decide (mode ∉ knownModes) &&
        decide (validateFileForMode file mode = ModeValidation.typeError)) = true := by
  have hc := validateFileForMode_of_inherited file "constructor" rfl
  refine ⟨by decide, hc, ?_, ?_⟩
  · rw [hc]
    exact fun h => ModeValidation.noConfusion h
  · rw [List.all_eq_true]
    intro mode hmem
    have hk : mode ∉ knownModes ∧ modeRules mode = RuleLookup.inherited := by
      simp only [objectPrototypeKeys, List.mem_cons, List.mem_singleton, List.not_mem_nil,
        or_false] at hmem
      rcases hmem with h | h | h | h | h | h | h | h | h | h | h | h <;> subst h <;>
        exact ⟨by decide, rfl⟩
    rw [Bool.and_eq_true, decide_eq_true_eq, decide_eq_true_eq]
    exact ⟨hk.1, validateFileForMode_of_inherited file mode hk.2⟩

/-- The part of C21 that the code delivers: for every file and every mode that is no property
name inherited from `Object.prototype`, a known mode has a rule, and `validateFileForMode`
accepts the file if and only if it matches the allowed set of the rule (when that set is
non-empty) and does not match the disallowed set, where a file matches a set when it is in one
of its type classes (`image`: the declared type is in `VALID_IMAGE_TYPES`; otherwise the
declared type is the class); a file that is not accepted is rejected with the message of the
rule; and a mode that is not known accepts every file. -/
theorem validateFileForMode_by_rule (file : File) (mode : String)
    (h : mode ∉ objectPrototypeKeys) :
    (mode ∈ knownModes →
      ∃ rule, modeRules mode = RuleLookup.rule rule ∧
        (validateFileForMode file mode = ModeValidation.valid ↔
          (rule.accept = [] ∨ ∃ c ∈ rule.accept, inTypeClass file c = true) ∧
            ¬ ∃ c ∈ rule.reject, inTypeClass file c = true) ∧
        (validateFileForMode file mode ≠ ModeValidation.valid →
          validateFileForMode file mode = ModeValidation.invalid rule.message)) ∧
    (mode ∉ knownModes → validateFileForMode file mode = ModeValidation.valid) := by
  constructor
  · intro hk
    obtain ⟨rule, hr⟩ := modeRules_of_known mode hk
    have hv := validateFileForMode_of_rule file mode rule hr
    refine ⟨rule, hr, ?_, ?_⟩
    · rw [hv]
      simp only [List.any_eq_true]
      split
      · rename_i hc
        simp only [true_iff]
        exact hc
      · rename_i hc
        simp only [false_iff, reduceCtorEq]
        exact hc
    · intro hne
      rw [hv] at hne ⊢
      split
      · rename_i hc
        rw [if_pos hc] at hne
        exact absurd rfl hne
      · rfl
  · intro hk
    unfold validateFileForMode
    rw [modeRules_of_unknown mode hk h]

/-- The example of the specification for C21: a file declared `application/pdf` is accepted
under `merge` and rejected under `jpeg`; under the mode `archive`, which has no rule, it is
accepted. -/
theorem validateFileForMode_by_rule_witness :
    validateFileForMode fileP "merge" = ModeValidation.valid ∧
    validateFileForMode fileP "jpeg"
      = ModeValidation.invalid "HEIC to JPG mode only accepts HEIC/HEIF files" ∧
    ("archive" ∉ knownModes → validateFileForMode fileP "archive" = ModeValidation.valid) ∧
    (("merge" ∈ knownModes →
      ∃ rule, modeRules "merge" = RuleLookup.rule rule ∧
        (validateFileForMode fileP "merge" = ModeValidation.valid ↔
          (rule.accept = [] ∨ ∃ c ∈ rule.accept, inTypeClass fileP c = true) ∧
            ¬ ∃ c ∈ rule.reject, inTypeClass fileP c = true) ∧
        (validateFileForMode fileP "merge" ≠ ModeValidation.valid →
          validateFileForMode fileP "merge" = ModeValidation.invalid rule.message)) ∧
    ("merge" ∉ knownModes → validateFileForMode fileP "merge" = ModeValidation.valid)) :=
  ⟨by decide, by decide,
    (validateFileForMode_by_rule fileP "archive" (by decide)).2,
    validateFileForMode_by_rule fileP "merge" (by decide)⟩

/-! ## C22: the files handed to a pipeline are in registry order -/

theorem enum_filter_eq_range {α : Type} (xs : List α) (p : Nat → Bool) :
    (xs.enum.filter (fun e => p e.1)).map Prod.snd
      = ((List.range xs.length).filter p).filterMap (fun (i : Nat) => xs[i]?) := by
  induction xs using List.reverseRecOn with
  | nil => simp
  | append_singleton fs f ih =>
    rw [List.enum_append, List.filter_append, List.map_append, ih, List.length_append,
      List.length_singleton, List.range_succ, List.filter_append, List.filterMap_append]
    congr 1
    · apply List.filterMap_congr
      intro i hi
      have hlt : i < fs.length := List.mem_range.mp (List.mem_of_mem_filter hi)
      rw [List.getElem?_append_left hlt]
    · by_cases hp : p fs.length = true
      · simp [List.enumFrom, hp]
      · simp [List.enumFrom, hp]

theorem filterMap_filter_of_none {α β : Type} (f : α → Option β) (p : α → Bool)
    (h : ∀ x, p x = false → f x = none) (l : List α) :
    l.filterMap f = (l.filter p).filterMap f := by
  induction l with
  | nil => rfl
  | cons x xs ih =>
    by_cases hp : p x = true
    · rw [List.filter_cons_of_pos hp, List.filterMap_cons, List.filterMap_cons, ih]
    · have hf : p x = false := by simpa using hp
      rw [List.filter_cons_of_neg hp, List.filterMap_cons, h x hf, ih]

theorem arrayAt_natCast {α : Type} (xs : List α) (i : Nat) : arrayAt xs (i : Int) = xs[i]? := by
  unfold arrayAt
  rw [if_neg (by omega)]
  simp

theorem arrayAt_none_of_out {α : Type} (xs : List α) (i : Int)
    (h : decide (0 ≤ i ∧ i < (xs.length : Int)) = false) : arrayAt xs i = none := by
  have h2 : ¬ (0 ≤ i ∧ i < (xs.length : Int)) := by simpa using h
  unfold arrayAt
  split
  · rfl
  · rename_i hneg
    rw [List.getElem?_eq_none_iff]
    omega

theorem filterMap_arrayAt_of_sorted {α : Type} (xs : List α) (l : List Int)
    (hl : l.Sorted (fun a b => a < b)) :
    l.filterMap (arrayAt xs)
      = ((List.range xs.length).filter (fun (i : Nat) => decide ((i : Int) ∈ l))).filterMap
          (fun (i : Nat) => xs[i]?) := by
  have hidx : l.filter (fun i => decide (0 ≤ i ∧ i < (xs.length : Int)))
      = ((List.range xs.length).filter (fun (i : Nat) => decide ((i : Int) ∈ l))).map
          (fun (i : Nat) => (i : Int)) := by
    apply List.eq_of_perm_of_sorted (r := fun (a b : Int) => a < b)
    · rw [List.perm_ext_iff_of_nodup]
      · intro a
        simp only [List.mem_filter, List.mem_map, List.mem_range, decide_eq_true_eq]
        constructor
        · rintro ⟨hmem, h0, hlt⟩
          refine ⟨a.toNat, ⟨by omega, ?_⟩, by omega⟩
          rw [Int.toNat_of_nonneg h0]
          exact hmem
        · rintro ⟨i, ⟨hi, hmem⟩, rfl⟩
          exact ⟨hmem, by omega, by omega⟩
      · exact (hl.filter _).nodup
      · apply List.Nodup.map
        · intro a b hab
          exact Int.ofNat_inj.mp hab
        · exact ((List.sorted_lt_range _).filter _).nodup
    · exact hl.filter _
    · apply List.Pairwise.map (fun (i : Nat) => (i : Int)) (R := fun a b => a < b)
      · intro a b hab
        exact Int.ofNat_lt.mpr hab
      · exact (List.pairwise_lt_range _).filter _
  rw [filterMap_filter_of_none (arrayAt xs) (fun i => decide (0 ≤ i ∧ i < (xs.length : Int)))
    (arrayAt_none_of_out xs) l, hidx, List.filterMap_map]
  apply List.filterMap_congr
  intro i _
  exact arrayAt_natCast xs i

theorem filesToProcess_of_selection (s : State) (h : s.selectedIndices ≠ []) :
    filesToProcess s
      = (s.files.enum.filter (fun e => decide ((e.1 : Int) ∈ s.selectedIndices))).map
          Prod.snd := by
  unfold filesToProcess
  rw [if_pos (List.length_pos.mpr h)]

/-- C22: for every registry and every selection (a `Set`: no index twice), the list
`filesToProcess` of `processFiles` is the whole file sequence when the selection is empty,
and otherwise the files at the selected indices taken in ascending index order; it does not
depend on the order in which the indices were selected, it is a sub-sequence of the
registry, and it is the list that `processFiles` hands to the pipeline whenever it hands
one. -/
theorem processFiles_registry_order (s : State) (now : Nat)
    (hset : s.selectedIndices.Nodup) :
    (s.selectedIndices = [] → filesToProcess s = s.files) ∧
    (s.selectedIndices ≠ [] →
      filesToProcess s = selectedInRegistryOrder s.files s.selectedIndices) ∧
    (∀ selection, selection.Perm s.selectedIndices →
      filesToProcess { s with selectedIndices := selection } = filesToProcess s) ∧
    (filesToProcess s).Sublist s.files ∧
    (∀ handed, (processFilesStart s now).2 = some handed → handed = filesToProcess s) := by
  refine ⟨?_, ?_, ?_, ?_, ?_⟩
  · intro h
    unfold filesToProcess
    rw [h]
    rfl
  · intro h
    have hperm := List.perm_insertionSort (fun (a b : Int) => a ≤ b) s.selectedIndices
    have hsorted : (s.selectedIndices.insertionSort (fun a b => a ≤ b)).Sorted
        (fun a b => a < b) :=
      (List.sorted_insertionSort (fun (a b : Int) => a ≤ b) s.selectedIndices).lt_of_le
        (hperm.nodup_iff.mpr hset)
    rw [filesToProcess_of_selection s h, selectedInRegistryOrder,
      filterMap_arrayAt_of_sorted s.files _ hsorted,
      enum_filter_eq_range s.files (fun (i : Nat) => decide ((i : Int) ∈ s.selectedIndices))]
    congr 1
    apply List.filter_congr
    intro i _
    rw [decide_eq_decide]
    exact hperm.mem_iff.symm
  · intro selection hperm
    unfold filesToProcess
    dsimp only
    rw [hperm.length_eq]
    congr 2
    apply List.filter_congr
    intro e _
    rw [decide_eq_decide]
    exact hperm.mem_iff
  · unfold filesToProcess
    split
    · have h1 := (List.filter_sublist
        (p := fun (e : Nat × File) => decide ((e.1 : Int) ∈ s.selectedIndices)) s.files.enum).map
        Prod.snd
      rwa [List.enum_map_snd] at h1
    · exact List.Sublist.refl _
  · intro handed hh
    unfold processFilesStart at hh
    split at hh
    · simp at hh
    · split at hh
      · simp at hh
      · simp only [Option.some.injEq] at hh
        exact hh.symm

/-- C22 on an example: with `D` selected before `B` in the registry `[A, B, C, D]`, the
pipeline receives `[B, D]`. -/
theorem processFiles_registry_order_witness :
    (processFilesStart { exampleABCD with selectedIndices := [3, 1] } 7).2
      = some [fileB, fileD] ∧
    filesToProcess { exampleABCD with selectedIndices := [3, 1] }
      = selectedInRegistryOrder exampleABCD.files [3, 1] ∧
    filesToProcess exampleABCD = [fileB, fileD] :=
  ⟨by decide,
   (processFiles_registry_order { exampleABCD with selectedIndices := [3, 1] } 7
      (by decide)).2.1 (by decide),
   by decide⟩

/-! ## C23: the error queue shows every error, one at a time and in order -/

theorem filter_length_remove (l : List Nat) (hl : l.Nodup) (p : Nat → Bool) (t : Nat)
    (ht : t ∈ l) (hp : p t = true) :
    (l.filter (fun x => p x && !decide (x = t))).length + 1 = (l.filter p).length := by
  induction l with
  | nil => simp at ht
  | cons x xs ih =>
    rw [List.nodup_cons] at hl
    by_cases hx : x = t
    · subst hx
      have hrest : xs.filter (fun y => p y && !decide (y = x)) = xs.filter p := by
        apply List.filter_congr
        intro y hy
        have hne : y ≠ x := fun h => hl.1 (h ▸ hy)
        simp [hne]
      rw [List.filter_cons_of_neg (by simp), List.filter_cons_of_pos hp, hrest,
        List.length_cons]
    · have ht2 : t ∈ xs := by
        rcases List.mem_cons.mp ht with h | h
        · exact absurd h.symm hx
        · exact h
      have h3 := ih hl.2 ht2
      by_cases hpx : p x = true
      · rw [List.filter_cons_of_pos (by simp [hpx, hx]), List.filter_cons_of_pos hpx,
          List.length_cons, List.length_cons, h3]
      · rw [List.filter_cons_of_neg (by simp [hpx]), List.filter_cons_of_neg hpx, h3]

theorem pendingTimers_congr (c d : ErrorClock) (hts : d.state.timersSet = c.state.timersSet)
    (hf : d.fired = c.fired) (hc : d.cleared = c.cleared) :
    pendingTimers d = pendingTimers c := by
  unfold pendingTimers
  rw [hts, hf, hc]

theorem pendingTimers_fire (c d : ErrorClock) (t : Nat)
    (hts : d.state.timersSet = c.state.timersSet)
    (hf : d.fired = c.fired ++ [t]) (hc : d.cleared = c.cleared)
    (h : t < c.state.timersSet ∧ t ∉ c.fired ∧ t ∉ c.cleared) :
    pendingTimers d + 1 = pendingTimers c := by
  unfold pendingTimers
  rw [hts, hf, hc, ← filter_length_remove (List.range c.state.timersSet) (List.nodup_range _)
    (fun x => decide (x ∉ c.fired ∧ x ∉ c.cleared)) t (List.mem_range.mpr h.1)
    (by simpa using h.2)]
  congr 2
  apply List.filter_congr
  intro x _
  by_cases hx : x = t
  · simp [hx]
  · simp [hx]

theorem pendingTimers_set (c d : ErrorClock)
    (hts : d.state.timersSet = c.state.timersSet + 1)
    (hf : d.fired = c.fired) (hc : d.cleared = c.cleared)
    (hfired : ∀ t ∈ c.fired, t < c.state.timersSet) (hcleared : c.cleared = []) :
    pendingTimers d = pendingTimers c + 1 := by
  unfold pendingTimers
  rw [hts, hf, hc, List.range_succ, List.filter_append, List.length_append]
  congr 1
  have hn : c.state.timersSet ∉ c.fired := fun h => absurd (hfired _ h) (lt_irrefl _)
  simp [hn, hcleared]

theorem showNextError_of_nil (s : State) (hq : s.errorQueue = []) :
    showNextError s = { s with isShowingError := false } := by
  unfold showNextError
  rw [hq]

theorem showNextError_of_cons (s : State) (error : ErrorEntry) (rest : List ErrorEntry)
    (hq : s.errorQueue = error :: rest) :
    showNextError s =
      { s with isShowingError := true, errorQueue := rest,
               shownErrors := s.shownErrors ++ [error],
               errorTimers := s.errorTimers ++ [s.timersSet],
               timersSet := s.timersSet + 1 } := by
  unfold showNextError
  rw [hq]

theorem errorInvariant_showNextError (c d : ErrorClock) (entries : List ErrorEntry)
    (hstate : d.state = showNextError c.state)
    (hf : d.fired = c.fired) (hc : d.cleared = c.cleared)
    (hshown : c.state.shownErrors ++ c.state.errorQueue = entries)
    (hfired : ∀ t ∈ c.fired, t < c.state.timersSet) (hcleared : c.cleared = [])
    (hpending : pendingTimers c + d.delays = 0) :
    ErrorInvariant d entries := by
  have hp0 : pendingTimers c = 0 := by omega
  have hd0 : d.delays = 0 := by omega
  cases hq : c.state.errorQueue with
  | nil =>
    rw [showNextError_of_nil c.state hq] at hstate
    have hpd := pendingTimers_congr c d (by rw [hstate]) hf hc
    refine ⟨?_, ?_, ?_, ?_, ?_⟩
    · rw [hstate]
      exact hshown
    · intro _
      rw [hstate]
      exact hq
    · rw [hpd, hp0, hd0, hstate]
      rfl
    · rw [hf, hstate]
      exact hfired
    · rw [hc]
      exact hcleared
  | cons error rest =>
    rw [showNextError_of_cons c.state error rest hq] at hstate
    have hpd := pendingTimers_set c d (by rw [hstate]) hf hc hfired hcleared
    refine ⟨?_, ?_, ?_, ?_, ?_⟩
    · rw [hstate, ← hshown, hq]
      simp
    · intro h
      rw [hstate] at h
      simp at h
    · rw [hpd, hp0, hd0, hstate]
      rfl
    · rw [hf, hstate]
      intro t ht
      exact Nat.lt_succ_of_lt (hfired t ht)
    · rw [hc]
      exact hcleared

theorem errorInvariant_step (c : ErrorClock) (entries : List ErrorEntry) (e : ErrorEvent)
    (h : ErrorInvariant c entries) (he : e ≠ ErrorEvent.clearErrorQueue) :
    ErrorInvariant (errorStep c e) (entries ++ reported [e]) := by
  obtain ⟨hshown, hidle, hpending, hfired, hcleared⟩ := h
  cases e with
  | clearErrorQueue => exact absurd rfl he
  | showError message priority =>
    simp only [errorStep, reported]
    cases hb : c.state.isShowingError with
    | false =>
      have hq := hidle hb
      rw [hb] at hpending
      simp only [Bool.false_eq_true, if_false] at hpending
      have hse : showError c.state message priority = showNextError { c.state with
          errorQueue := c.state.errorQueue ++ [{ message := message, priority := priority }] } := by
        unfold showError
        simp only [hb, Bool.not_false, if_true]
      have hpc := pendingTimers_congr c
        { c with state := { c.state with
            errorQueue := c.state.errorQueue ++ [{ message := message, priority := priority }] } }
        rfl rfl rfl
      exact errorInvariant_showNextError
        { c with state := { c.state with
            errorQueue := c.state.errorQueue ++ [{ message := message, priority := priority }] } }
        _ _ hse rfl rfl
        (by
          show c.state.shownErrors ++ (c.state.errorQueue ++ _) = _
          rw [← List.append_assoc, hshown])
        hfired hcleared
        (by
          rw [hpc]
          exact hpending)
    | true =>
      have hse : showError c.state message priority = { c.state with
          errorQueue := c.state.errorQueue ++ [{ message := message, priority := priority }] } := by
        unfold showError
        simp only [hb, Bool.not_true, Bool.false_eq_true, if_false]
      rw [hse]
      refine ⟨?_, ?_, ?_, hfired, hcleared⟩
      · show c.state.shownErrors ++ (c.state.errorQueue ++ _) = _
        rw [← List.append_assoc, hshown]
      · intro h
        exact absurd (hb.symm.trans h) (by simp)
      · have hpc := pendingTimers_congr c
          { c with state := { c.state with
            errorQueue := c.state.errorQueue ++ [{ message := message, priority := priority }] } }
          rfl rfl rfl
        rw [hpc]
        exact hpending
  | timerFires timer =>
    simp only [errorStep, reported, List.append_nil]
    split
    · rename_i hg
      have h1 := pendingTimers_fire c
        { c with fired := c.fired ++ [timer], delays := c.delays + 1 } timer rfl rfl rfl hg
      refine ⟨hshown, hidle, ?_, ?_, hcleared⟩
      · show pendingTimers _ + (c.delays + 1) = _
        rw [← hpending]
        omega
      · intro t ht
        have ht2 : t ∈ c.fired ++ [timer] := ht
        simp only [List.mem_append, List.mem_singleton] at ht2
        rcases ht2 with ht2 | ht2
        · exact hfired t ht2
        · rw [ht2]
          exact hg.1
    · exact ⟨hshown, hidle, hpending, hfired, hcleared⟩
  | delayElapses =>
    simp only [errorStep, reported, List.append_nil]
    split
    · rename_i hd
      have hs : c.state.isShowingError = true := by
        cases hb : c.state.isShowingError with
        | true => rfl
        | false =>
          rw [hb] at hpending
          simp only [Bool.false_eq_true, if_false] at hpending
          omega
      rw [hs] at hpending
      simp only [if_true] at hpending
      exact errorInvariant_showNextError c _ entries rfl rfl rfl hshown hfired hcleared
        (by
          show pendingTimers c + (c.delays - 1) = 0
          omega)
    · exact ⟨hshown, hidle, hpending, hfired, hcleared⟩

theorem reported_cons (e : ErrorEvent) (rest : List ErrorEvent) :
    reported (e :: rest) = reported [e] ++ reported rest := by
  cases e <;> simp [reported]

theorem errorInvariant_run (events : List ErrorEvent) (c : ErrorClock)
    (entries : List ErrorEntry) (h : ErrorInvariant c entries)
    (hno : ErrorEvent.clearErrorQueue ∉ events) :
    ErrorInvariant (errorRun c events) (entries ++ reported events) := by
  induction events generalizing c entries with
  | nil => simpa [errorRun, reported] using h
  | cons e rest ih =>
    have hne : e ≠ ErrorEvent.clearErrorQueue := fun h0 => hno (h0 ▸ List.mem_cons_self _ _)
    have hrest : ErrorEvent.clearErrorQueue ∉ rest := fun h0 => hno (List.mem_cons_of_mem _ h0)
    have := ih (errorStep c e) _ (errorInvariant_step c entries e h hne) hrest
    rw [reported_cons, ← List.append_assoc]
    exact this

/-- C23: from the freshly loaded page, after every sequence of `showError` calls and timer
expiries in which `clearErrorQueue` is not called, the entries displayed so far followed by
the pending queue are exactly the entries passed to `showError`, in order (no error is
dropped, and the displayed ones are a prefix of the reported ones); an idle display
(`isShowingError` false) has an empty queue; and exactly one dismissal timer is pending
while an error is on display, none otherwise (one error at a time). -/
theorem errorQueue_shows_all_in_order (events : List ErrorEvent)
    (h : ErrorEvent.clearErrorQueue ∉ events) :
    (errorRun { state := init } events).state.shownErrors ++
        (errorRun { state := init } events).state.errorQueue = reported events ∧
    (errorRun { state := init } events).state.shownErrors <+: reported events ∧
    ((errorRun { state := init } events).state.isShowingError = false →
      (errorRun { state := init } events).state.errorQueue = []) ∧
    pendingTimers (errorRun { state := init } events) +
        (errorRun { state := init } events).delays
      = (if (errorRun { state := init } events).state.isShowingError = true then 1 else 0) := by
  have h0 : ErrorInvariant { state := init } [] := by
    refine ⟨rfl, fun _ => rfl, ?_, ?_, rfl⟩
    · decide
    · intro t ht
      simp at ht
  have hinv := errorInvariant_run events { state := init } [] h0 h
  rw [List.nil_append] at hinv
  obtain ⟨h1, h2, h3, -, -⟩ := hinv
  exact ⟨h1, ⟨_, h1⟩, h2, h3⟩

/-- C23 on an example: three errors are reported, two of them while the first is on display;
after the timers of the first two have expired all three have been displayed, in the order
they were reported, the queue is empty and the timer of the third is pending. -/
theorem errorQueue_shows_all_in_order_witness :
    ErrorEvent.clearErrorQueue ∉ errorSession ∧
    (errorRun { state := init } errorSession).state.shownErrors
      = [⟨Message.other "first", "error"⟩, ⟨Message.other "second", "warning"⟩,
         ⟨Message.other "third", "error"⟩] ∧
    (errorRun { state := init } errorSession).state.shownErrors ++
        (errorRun { state := init } errorSession).state.errorQueue = reported errorSession ∧
    pendingTimers (errorRun { state := init } errorSession) = 1 :=
  ⟨by decide, by decide,
   (errorQueue_shows_all_in_order errorSession (by decide)).1, by decide⟩

/-! ## C24: what `sanitizeFileName` returns -/

theorem isDangerousUnit_fileUnits : ∀ c ∈ fileUnits, isDangerousUnit c = false := by
  decide

/-- C24: for every string `name`, given by its UTF-16 code units, `sanitizeFileName(name)`
contains none of the characters `<`, `>`, `:`, `/`, `|`, `?`, `*`, neither `"` (`0x22`) nor
`\` (`0x5c`), and no control character up to `0x1f`; it does not begin with `.` (`0x2e`) and
has at most 255 code units; for the empty string and for an argument that is no string it is
`"file"`. -/
theorem sanitizeFileName_safe (units : List Nat) :
    (∀ c ∈ sanitizeFileName (NameArgument.string units),
      c ∉ "<>:/|?*".data.map Char.toNat ∧ c ≠ 0x22 ∧ c ≠ 0x5c ∧ 0x1f < c) ∧
    (sanitizeFileName (NameArgument.string units)).head? ≠ some 0x2e ∧
    (sanitizeFileName (NameArgument.string units)).length ≤ 255 ∧
    sanitizeFileName (NameArgument.string []) = fileUnits ∧
    sanitizeFileName NameArgument.other = fileUnits ∧
    fileUnits = "file".data.map Char.toNat := by
  have hchars : "<>:/|?*".data.map Char.toNat = [0x3c, 0x3e, 0x3a, 0x2f, 0x7c, 0x3f, 0x2a] := by
    decide
  have hsafe : ∀ c, isDangerousUnit c = false →
      c ∉ "<>:/|?*".data.map Char.toNat ∧ c ≠ 0x22 ∧ c ≠ 0x5c ∧ 0x1f < c := by
    intro c hc
    unfold isDangerousUnit at hc
    rw [Bool.or_eq_false_iff, decide_eq_false_iff_not, decide_eq_false_iff_not] at hc
    obtain ⟨hmem, hctl⟩ := hc
    rw [hchars]
    simp only [List.mem_cons, List.mem_singleton, List.not_mem_nil, or_false, not_or] at hmem ⊢
    exact ⟨⟨hmem.1, hmem.2.1, hmem.2.2.1, hmem.2.2.2.2.1, hmem.2.2.2.2.2.2.1,
      hmem.2.2.2.2.2.2.2.1, hmem.2.2.2.2.2.2.2.2⟩, hmem.2.2.2.1, hmem.2.2.2.2.2.1, by omega⟩
  refine ⟨?_, ?_, ?_, rfl, rfl, by decide⟩
  · intro c hc
    apply hsafe
    unfold sanitizeFileName at hc
    dsimp only at hc
    split at hc
    · exact isDangerousUnit_fileUnits c hc
    · have h1 := (List.dropWhile_sublist _).subset (List.mem_of_mem_take hc)
      rw [List.mem_map] at h1
      obtain ⟨u, -, hu⟩ := h1
      by_cases hd : isDangerousUnit u = true
      · rw [if_pos hd] at hu
        rw [← hu]
        decide
      · rw [if_neg hd] at hu
        rw [← hu]
        simpa using hd
  · unfold sanitizeFileName
    dsimp only
    split
    · decide
    · intro h
      have h1 := List.head?_dropWhile_not (fun c => decide (c = 0x2e))
        (units.map (fun c => if isDangerousUnit c then 0x5f else c))
      cases hdw : List.dropWhile (fun c => decide (c = 0x2e))
          (units.map (fun c => if isDangerousUnit c then 0x5f else c)) with
      | nil =>
        rw [hdw] at h
        simp at h
      | cons x xs =>
        rw [hdw] at h h1
        simp only [List.head?_cons] at h1
        simp only [List.take_succ_cons, List.head?_cons, Option.some.injEq] at h
        rw [h] at h1
        simp at h1
  · unfold sanitizeFileName
    dsimp only
    split
    · decide
    · exact List.length_take_le _ _

/-- C24 on an example: the name `..a<b/c.txt` becomes `a_b_c.txt`. -/
theorem sanitizeFileName_example :
    sanitizeFileName (NameArgument.string dottedName) = "a_b_c.txt".data.map Char.toNat := by
  decide

/-! ## C25: split method 3 cuts a document into consecutive ranges -/

theorem chunkCount_step (total n i : Nat) (hn : 1 ≤ n) (hi : i < total) :
    (total - i + n - 1) / n = (total - (i + n) + n - 1) / n + 1 := by
  by_cases h : i + n ≤ total
  · have h1 : total - i + n - 1 = (total - (i + n) + n - 1) + n := by omega
    rw [h1, Nat.add_div_right _ (by omega)]
  · have h1 : (total - (i + n) + n - 1) / n = 0 := Nat.div_eq_of_lt (by omega)
    have h2 : total - i + n - 1 = (total - i - 1) + n := by omega
    rw [h1, h2, Nat.add_div_right _ (by omega), Nat.div_eq_of_lt (by omega)]

theorem splitEveryFrom_eq (total n : Nat) (hn : 1 ≤ n) (fuel i partNum : Nat)
    (hfuel : total - i ≤ fuel) :
    splitEveryFrom total n fuel i partNum
      = (List.range ((total - i + n - 1) / n)).map (fun k =>
          (partNum + k,
            List.range' (i + k * n) (min (i + k * n + n) total - (i + k * n)))) := by
  induction fuel generalizing i partNum with
  | zero =>
    have h0 : (total - i + n - 1) / n = 0 := Nat.div_eq_of_lt (by omega)
    rw [h0]
    rfl
  | succ fuel ih =>
    unfold splitEveryFrom
    by_cases hi : i < total
    · rw [if_pos hi, chunkCount_step total n i hn hi, List.range_succ_eq_map, List.map_cons,
        List.map_map, ih (i + n) (partNum + 1) (by omega)]
      dsimp only
      congr 1
      · rw [List.range_eq_range', List.map_add_range']
        simp
      · apply List.map_congr_left
        intro k _
        simp only [Function.comp, Nat.succ_eq_add_one, Nat.add_mul, Nat.one_mul]
        have e1 : partNum + 1 + k = partNum + (k + 1) := by omega
        have e2 : i + n + k * n = i + (k * n + n) := by omega
        rw [e1, e2]
    · rw [if_neg hi]
      have h0 : (total - i + n - 1) / n = 0 := Nat.div_eq_of_lt (by omega)
      rw [h0]
      rfl

theorem splitEveryFrom_flatten (total n : Nat) (hn : 1 ≤ n) (fuel i partNum : Nat)
    (hfuel : total - i ≤ fuel) :
    ((splitEveryFrom total n fuel i partNum).map Prod.snd).flatten
      = List.range' i (total - i) := by
  induction fuel generalizing i partNum with
  | zero =>
    have h0 : total - i = 0 := by omega
    rw [h0]
    rfl
  | succ fuel ih =>
    unfold splitEveryFrom
    by_cases hi : i < total
    · rw [if_pos hi]
      dsimp only
      rw [List.map_cons, List.flatten_cons, ih (i + n) (partNum + 1) (by omega),
        List.range_eq_range', List.map_add_range']
      by_cases h : i + n ≤ total
      · have e1 : min (i + n) total - i = n := by omega
        have e2 : total - i = (total - (i + n)) + n := by omega
        rw [e1, e2, ← List.range'_append i n (total - (i + n)) 1]
        simp
      · have e1 : min (i + n) total - i = total - i := by omega
        have e2 : total - (i + n) = 0 := by omega
        rw [e1, e2]
        simp
    · rw [if_neg hi]
      have h0 : total - i = 0 := by omega
      rw [h0]
      rfl

theorem chunkCount_eq_ceil (total n : Nat) (hn : 1 ≤ n) :
    (((total + n - 1) / n : Nat) : Int) = ⌈(total : ℚ) / (n : ℚ)⌉ := by
  have hnq : (0 : ℚ) < (n : ℚ) := by exact_mod_cast hn
  have h1 : n * ((total + n - 1) / n) ≤ total + n - 1 := Nat.mul_div_le _ _
  have h2 : total + n - 1 < n * ((total + n - 1) / n + 1) := Nat.lt_mul_div_succ _ (by omega)
  generalize (total + n - 1) / n = k at h1 h2 ⊢
  rw [Nat.mul_add, Nat.mul_one] at h2
  have h3 : n * k < total + n := by omega
  have h4 : total ≤ n * k := by omega
  have h5 : ((n : ℚ)) * (k : ℚ) < (total : ℚ) + (n : ℚ) := by exact_mod_cast h3
  have h6 : (total : ℚ) ≤ (n : ℚ) * (k : ℚ) := by exact_mod_cast h4
  symm
  rw [Int.ceil_eq_iff]
  constructor
  · rw [lt_div_iff₀ hnq]
    push_cast
    linarith
  · rw [div_le_iff₀ hnq]
    push_cast
    linarith

/-- C25: for every page count `T ≥ 1` and every chunk size `n ≥ 1`, split method 3 accepts
the number and produces the parts numbered `1, 2, ...` whose page lists are the consecutive
ranges `[k·n, min(k·n + n, T))`: there are `⌈T / n⌉` parts, every part is non-empty and has at
most `n` pages, and the page lists concatenated in part order are the pages `0 .. T - 1`. -/
theorem splitEvery_consecutive_ranges (totalPages n : Nat) (hT : 1 ≤ totalPages)
    (hn : 1 ≤ n) :
    ∃ parts, splitEvery totalPages (some (n : Int)) = some parts ∧
      (parts.length : Int) = ⌈(totalPages : ℚ) / (n : ℚ)⌉ ∧
      parts.map Prod.fst = List.range' 1 parts.length ∧
      (∀ k, k < parts.length →
        parts[k]?.map Prod.snd
          = some (List.range' (k * n) (min (k * n + n) totalPages - k * n))) ∧
      (∀ part ∈ parts, part.2 ≠ [] ∧ part.2.length ≤ n) ∧
      (parts.map Prod.snd).flatten = List.range totalPages := by
  have hclosed := splitEveryFrom_eq totalPages n hn totalPages 0 1 (by omega)
  have hflat := splitEveryFrom_flatten totalPages n hn totalPages 0 1 (by omega)
  simp only [Nat.sub_zero, Nat.zero_add] at hclosed hflat
  have hlen : (splitEveryFrom totalPages n totalPages 0 1).length = (totalPages + n - 1) / n := by
    rw [hclosed, List.length_map, List.length_range]
  refine ⟨splitEveryFrom totalPages n totalPages 0 1, ?_, ?_, ?_, ?_, ?_, ?_⟩
  · unfold splitEvery
    dsimp only
    rw [if_neg (by omega), Int.toNat_ofNat]
  · rw [hlen]
    exact chunkCount_eq_ceil totalPages n hn
  · have hr : List.range' 1 ((totalPages + n - 1) / n)
        = List.map (fun k => 1 + k) (List.range ((totalPages + n - 1) / n)) := by
      rw [List.range_eq_range', List.map_add_range']
    rw [hlen, hclosed, List.map_map, hr]
    apply List.map_congr_left
    intro k _
    rfl
  · intro k hk
    rw [hlen] at hk
    rw [hclosed, List.getElem?_map, List.getElem?_range hk]
    rfl
  · intro part hpart
    rw [hclosed, List.mem_map] at hpart
    obtain ⟨k, hk, rfl⟩ := hpart
    rw [List.mem_range] at hk
    have hkn : k * n < totalPages := by
      have h1 : n * ((totalPages + n - 1) / n) ≤ totalPages + n - 1 := Nat.mul_div_le _ _
      have h2 : n * (k + 1) ≤ n * ((totalPages + n - 1) / n) := Nat.mul_le_mul_left _ hk
      rw [Nat.mul_add, Nat.mul_one, Nat.mul_comm] at h2
      omega
    dsimp only
    constructor
    · intro h0
      have := congrArg List.length h0
      rw [List.length_range'] at this
      simp only [List.length_nil] at this
      omega
    · rw [List.length_range']
      omega
  · rw [hflat, List.range_eq_range']

/-- C25 on an example: seven pages split every three pages give the parts `1, 2, 3` with the
pages `[0, 1, 2]`, `[3, 4, 5]` and `[6]`. -/
theorem splitEvery_consecutive_ranges_witness :
    splitEvery 7 (some 3) = some [(1, [0, 1, 2]), (2, [3, 4, 5]), (3, [6])] ∧
    (∃ parts, splitEvery 7 (some ((3 : Nat) : Int)) = some parts ∧
      (parts.length : Int) = ⌈((7 : Nat) : ℚ) / ((3 : Nat) : ℚ)⌉ ∧
      parts.map Prod.fst = List.range' 1 parts.length ∧
      (∀ k, k < parts.length →
        parts[k]?.map Prod.snd = some (List.range' (k * 3) (min (k * 3 + 3) 7 - k * 3))) ∧
      (∀ part ∈ parts, part.2 ≠ [] ∧ part.2.length ≤ 3) ∧
      (parts.map Prod.snd).flatten = List.range 7) :=
  ⟨by decide, splitEvery_consecutive_ranges 7 3 (by decide) (by decide)⟩

/-! ## C26: the canvas size of the image editor after rotations -/

/-- C26, the divergence: `applyTransform` swaps the width and height it reads from the
canvas, not those of the image. For an image of any size `W × H`, two clicks on `rotate90`
give the rotation `180` with the canvas at `H × W` (swapped, although the rotation is a
multiple of 180 degrees), and a click on `rotate90` followed by `flipH` gives the rotation
`90` with the canvas back at `W × H` (not swapped, although the rotation is an odd multiple
of 90 degrees). -/
theorem applyTransform_swaps_canvas_not_image (width height : Nat) :
    (editorRun (openImageEditor width height)
        [EditorClick.rotate90, EditorClick.rotate90]).currentRotation = 180 ∧
    (editorRun (openImageEditor width height)
        [EditorClick.rotate90, EditorClick.rotate90]).canvasWidth = height ∧
    (editorRun (openImageEditor width height)
        [EditorClick.rotate90, EditorClick.rotate90]).canvasHeight = width ∧
    (editorRun (openImageEditor width height)
        [EditorClick.rotate90, EditorClick.flipH]).currentRotation = 90 ∧
    (editorRun (openImageEditor width height)
        [EditorClick.rotate90, EditorClick.flipH]).canvasWidth = width ∧
    (editorRun (openImageEditor width height)
        [EditorClick.rotate90, EditorClick.flipH]).canvasHeight = height ∧
    editorRun (openImageEditor 200 100) [EditorClick.rotate90, EditorClick.rotate90]
      = { imgWidth := 200, imgHeight := 100, canvasWidth := 100, canvasHeight := 200,
          currentRotation := 180 } :=
  ⟨rfl, rfl, rfl, rfl, rfl, rfl, by decide⟩

/-! ## C27: saving and restoring the selection is a round trip -/

theorem findIndexByName_of_nodup (files : List File) (hnames : (files.map File.name).Nodup)
    (i : Nat) (hi : i < files.length) :
    findIndexByName files (some files[i].name) = some i := by
  unfold findIndexByName
  rw [List.findIdx?_eq_some_iff_getElem]
  refine ⟨hi, by simp, ?_⟩
  intro j hji
  have hj : j < files.length := by omega
  intro hp
  have heq : files[j].name = files[i].name := by simpa using hp
  have hjm : j < (files.map File.name).length := by rw [List.length_map]; exact hj
  have him : i < (files.map File.name).length := by rw [List.length_map]; exact hi
  have h1 : (files.map File.name)[j] = (files.map File.name)[i] := by
    rw [List.getElem_map, List.getElem_map]
    exact heq
  have := (hnames.getElem_inj_iff).mp h1
  omega

theorem restoreFold_of_nodup (files : List File) (hnames : (files.map File.name).Nodup)
    (sel acc : List Int) (hsel : ∀ i ∈ sel, 0 ≤ i ∧ i < (files.length : Int))
    (hnodup : (acc ++ sel).Nodup) :
    (sel.map (fun i => (arrayAt files i).map File.name)).foldl (fun acc fileName =>
        match findIndexByName files fileName with
        | some index => setAdd acc (index : Int)
        | none => acc) acc = acc ++ sel := by
  induction sel generalizing acc with
  | nil => simp
  | cons i rest ih =>
    have hi := hsel i (List.mem_cons_self _ _)
    have hlt : i.toNat < files.length := by omega
    have hat : arrayAt files i = some files[i.toNat] := by
      unfold arrayAt
      rw [if_neg (by omega), List.getElem?_eq_getElem hlt]
    have hfind := findIndexByName_of_nodup files hnames i.toNat hlt
    have hcast : ((i.toNat : Nat) : Int) = i := Int.toNat_of_nonneg hi.1
    have hnot : i ∉ acc := by
      intro hmem
      rw [List.nodup_append] at hnodup
      exact hnodup.2.2 hmem (List.mem_cons_self _ _)
    rw [List.map_cons, List.foldl_cons, hat, Option.map_some', hfind]
    dsimp only
    rw [hcast]
    have hadd : setAdd acc i = acc ++ [i] := by
      unfold setAdd
      rw [if_neg hnot]
    rw [hadd, ih (acc ++ [i]) (fun j hj => hsel j (List.mem_cons_of_mem _ hj))
      (by rw [List.append_assoc]; exact hnodup), List.append_assoc]
    rfl

theorem saveSelectionState_getLast (s : State) (now : Nat) :
    (saveSelectionState s now).selectionHistory.getLast? = some (selectionSnapshot s now) := by
  rw [saveSelectionState_selectionHistory]
  split
  · rename_i hlen
    rw [List.getLast?_drop, if_neg (by omega), List.getLast?_concat]
  · rw [List.getLast?_concat]

/-- C27: for every registry whose file names are pairwise distinct and every selection of
indices of the registry (a `Set`: no index twice), `saveSelectionState` followed immediately
by `restoreSelectionState` leaves the selection as it was, and the registry too; the call
returns whether the selection is non-empty. -/
theorem save_restore_roundtrip (s : State) (now : Nat)
    (hnames : (s.files.map File.name).Nodup)
    (hsel : SelectionInRange s) (hset : s.selectedIndices.Nodup) :
    (restoreSelectionState (saveSelectionState s now)).2.selectedIndices = s.selectedIndices ∧
    (restoreSelectionState (saveSelectionState s now)).2.files = s.files ∧
    (restoreSelectionState (saveSelectionState s now)).1
      = decide (s.selectedIndices.length > 0) := by
  have hlast := saveSelectionState_getLast s now
  have hcan : (saveSelectionState s now).canRestoreSelection = true := rfl
  have hsel2 := restoreSelectionState_selected (saveSelectionState s now) _ hlast hcan
  have hloop : restoreLoop (saveSelectionState s now).files (selectionSnapshot s now).fileNames
      = s.selectedIndices := by
    have := restoreFold_of_nodup s.files hnames s.selectedIndices [] hsel
      (by rw [List.nil_append]; exact hset)
    rw [List.nil_append] at this
    exact this
  have h1 : (restoreSelectionState (saveSelectionState s now)).2.selectedIndices
      = s.selectedIndices := by
    rw [hsel2, hloop]
  refine ⟨h1, ?_, ?_⟩
  · rw [(restoreSelectionState_of_enabled (saveSelectionState s now) _ hlast hcan).1]
    exact (renderFrame_showPreview _).files
  · rw [(restoreSelectionState_of_enabled (saveSelectionState s now) _ hlast hcan).2, h1]

/-- C27 on an example: in the registry `[A, B, C, D]` with the selection `{1, 3}`, saving and
restoring leaves the selection `{1, 3}`. -/
theorem save_restore_roundtrip_witness :
    (exampleABCD.files.map File.name).Nodup ∧ SelectionInRange exampleABCD ∧
    (restoreSelectionState (saveSelectionState exampleABCD 7)).2.selectedIndices = [1, 3] ∧
    (restoreSelectionState (saveSelectionState exampleABCD 7)).1 = true :=
  ⟨by decide, by unfold SelectionInRange; decide,
   (save_restore_roundtrip exampleABCD 7 (by decide) (by unfold SelectionInRange; decide)
      (by decide)).1,
   by decide⟩

/-! ## C28: the computed range covers every visible item -/

/-- C28: for every scroll offset and container height (in particular those `≥ 0`),
`itemHeight ≥ 1`, `itemsPerRow ≥ 1` and every registry, the range left in `visibleRange` by
`handleVirtualScroll` contains every item that is visible: an index `j` of the registry whose
row `r = ⌊j / itemsPerRow⌋` overlaps the window (`r · itemHeight < scrollTop + offsetHeight`
and `(r + 1) · itemHeight > scrollTop`) satisfies `start ≤ j < end`. -/
theorem handleVirtualScroll_covers_visible (s : State) (scrollTop offsetHeight : Int)
    (j : Nat) (hh : 1 ≤ s.itemHeight)
    (hp : 1 ≤ s.itemsPerRow) (hj : j < s.files.length)
    (hbelow : ((j : Int) / s.itemsPerRow) * s.itemHeight < scrollTop + offsetHeight)
    (habove : ((j : Int) / s.itemsPerRow + 1) * s.itemHeight > scrollTop) :
    (handleVirtualScroll s scrollTop offsetHeight).visibleRange.start ≤ (j : Int) ∧
    (j : Int) < (handleVirtualScroll s scrollTop offsetHeight).visibleRange.stop := by
  rw [handleVirtualScroll_visibleRange]
  have hh0 : 0 < s.itemHeight := by omega
  have hp0 : 0 < s.itemsPerRow := by omega
  have hf1 : scrollTop / s.itemHeight * s.itemHeight ≤ scrollTop :=
    Int.ediv_mul_le _ (ne_of_gt hh0)
  have hf2 : scrollTop < (scrollTop / s.itemHeight + 1) * s.itemHeight :=
    Int.lt_ediv_add_one_mul_self _ hh0
  have hv : offsetHeight ≤ -((-offsetHeight) / s.itemHeight) * s.itemHeight := by
    have := Int.ediv_mul_le (-offsetHeight) (ne_of_gt hh0)
    rw [neg_mul]
    omega
  have hr1 : (j : Int) / s.itemsPerRow * s.itemsPerRow ≤ (j : Int) :=
    Int.ediv_mul_le _ (ne_of_gt hp0)
  have hr2 : (j : Int) < ((j : Int) / s.itemsPerRow + 1) * s.itemsPerRow :=
    Int.lt_ediv_add_one_mul_self _ hp0
  generalize scrollTop / s.itemHeight = f at hf1 hf2 ⊢
  generalize -((-offsetHeight) / s.itemHeight) = v at hv ⊢
  generalize (j : Int) / s.itemsPerRow = r at hr1 hr2 hbelow habove
  have hfr : f ≤ r := by
    have h1 : f * s.itemHeight < (r + 1) * s.itemHeight := lt_of_le_of_lt hf1 habove
    have h2 := lt_of_mul_lt_mul_right h1 (le_of_lt hh0)
    omega
  have hrv : r ≤ f + v := by
    have h1 : r * s.itemHeight < (f + 1 + v) * s.itemHeight := by
      have h2 : (f + 1 + v) * s.itemHeight = (f + 1) * s.itemHeight + v * s.itemHeight := by
        ring
      rw [h2]
      omega
    have h3 := lt_of_mul_lt_mul_right h1 (le_of_lt hh0)
    omega
  have hj0 : (0 : Int) ≤ (j : Int) := Int.ofNat_nonneg j
  have hjlen : (j : Int) < (s.files.length : Int) := Int.ofNat_lt.mpr hj
  constructor
  · show max 0 ((f - VISIBLE_BUFFER) * s.itemsPerRow) ≤ (j : Int)
    apply max_le hj0
    have h1 : (f - VISIBLE_BUFFER) * s.itemsPerRow ≤ r * s.itemsPerRow := by
      apply mul_le_mul_of_nonneg_right _ (le_of_lt hp0)
      unfold VISIBLE_BUFFER
      omega
    omega
  · show (j : Int) < min (s.files.length : Int) ((f + v + VISIBLE_BUFFER) * s.itemsPerRow)
    apply lt_min hjlen
    have h1 : (r + 1) * s.itemsPerRow ≤ (f + v + VISIBLE_BUFFER) * s.itemsPerRow := by
      apply mul_le_mul_of_nonneg_right _ (le_of_lt hp0)
      unfold VISIBLE_BUFFER
      omega
    omega

set_option maxRecDepth 100000 in
/-- C28 on the viewport example: with two hundred items, five per row and 155 pixels high, in
a window of 620 pixels scrolled to offset 1000, the item `30` of row `6` is visible and lies
in the computed range. -/
theorem handleVirtualScroll_covers_visible_witness :
    ((30 : Nat) : Int) / viewportExample.itemsPerRow = 6 ∧
    (handleVirtualScroll viewportExample 1000 620).visibleRange.start ≤ ((30 : Nat) : Int) ∧
    ((30 : Nat) : Int) < (handleVirtualScroll viewportExample 1000 620).visibleRange.stop :=
  ⟨by decide,
   handleVirtualScroll_covers_visible viewportExample 1000 620 30 (by decide) (by decide)
     (by decide) (by decide) (by decide)⟩

/-! ## C29: a name with two or more dots is never accepted -/

theorem toLower_eq_dot (c : Char) : Char.toLower c = '.' ↔ c = '.' := by
  constructor
  · intro h
    unfold Char.toLower at h
    dsimp only at h
    split at h
    · rename_i hup
      obtain ⟨h1, h2⟩ := hup
      generalize c.toNat = n at h h1 h2
      interval_cases n <;> exact absurd h (by decide)
    · exact h
  · intro h
    rw [h]
    rfl

theorem count_dot_toLowerCase (name : String) :
    (toLowerCase name).count '.' = name.data.count '.' := by
  unfold toLowerCase
  induction name.data with
  | nil => rfl
  | cons c cs ih =>
    rw [List.map_cons, List.count_cons, List.count_cons, ih]
    congr 1
    by_cases hc : c = '.'
    · rw [hc]
      rfl
    · have h2 : ¬ Char.toLower c = '.' := fun h => hc ((toLower_eq_dot c).mp h)
      simp [hc, h2]

theorem splitDot_ne_nil (l : List Char) : splitDot l ≠ [] := by
  cases l with
  | nil => simp [splitDot]
  | cons c cs =>
    unfold splitDot
    split
    · simp
    · split <;> simp

theorem splitDot_of_no_dot (w : List Char) (hw : '.' ∉ w) : splitDot w = [w] := by
  induction w with
  | nil => rfl
  | cons c cs ih =>
    have hc : c ≠ '.' := fun h => hw (h ▸ List.mem_cons_self _ _)
    have hcs : '.' ∉ cs := fun h => hw (List.mem_cons_of_mem _ h)
    unfold splitDot
    rw [if_neg hc, ih hcs]

theorem splitDot_append_dot (pre w : List Char) (hw : '.' ∉ w) :
    splitDot (pre ++ '.' :: w) = splitDot pre ++ [w] := by
  induction pre with
  | nil =>
    rw [List.nil_append]
    unfold splitDot
    rw [if_pos rfl, splitDot_of_no_dot w hw]
    rfl
  | cons c cs ih =>
    rw [List.cons_append]
    unfold splitDot
    by_cases hc : c = '.'
    · rw [if_pos hc, if_pos hc, ih, List.cons_append]
    · rw [if_neg hc, if_neg hc, ih]
      cases hs : splitDot cs with
      | nil => exact absurd hs (splitDot_ne_nil cs)
      | cons seg rest => rfl

theorem lastTwo_suffix (pre w : List Char) (hw : '.' ∉ w) :
    ('.' :: w) <:+ lastTwo (pre ++ '.' :: w) := by
  unfold lastTwo
  dsimp only
  rw [splitDot_append_dot pre w hw]
  have hne := splitDot_ne_nil pre
  have hlen : 0 < (splitDot pre).length := List.length_pos.mpr hne
  have hdrop : (splitDot pre ++ [w]).length - 2 = (splitDot pre).length - 1 := by
    rw [List.length_append, List.length_singleton]
    omega
  rw [hdrop, List.drop_append_of_le_length (by omega)]
  have hlast : ∃ a, List.drop ((splitDot pre).length - 1) (splitDot pre) = [a] := by
    have h1 : (List.drop ((splitDot pre).length - 1) (splitDot pre)).length = 1 := by
      rw [List.length_drop]
      omega
    exact List.length_eq_one.mp h1
  obtain ⟨a, ha⟩ := hlast
  rw [ha]
  refine ⟨a, ?_⟩
  simp [List.intercalate, List.intersperse]

theorem lastTwo_not_compound (fileName : List Char)
    (hext : hasValidExtension fileName = true) :
    lastTwo fileName ∉ ["tar.gz".data, "backup.zip".data] := by
  unfold hasValidExtension at hext
  rw [List.any_eq_true] at hext
  obtain ⟨ext, hmem, hends⟩ := hext
  unfold endsWith at hends
  rw [List.isSuffixOf_iff_suffix] at hends
  obtain ⟨pre, hpre⟩ := hends
  intro hin
  have key : ∀ w : List Char, ext.data = '.' :: w → '.' ∉ w →
      ('.' :: w).isSuffixOf "tar.gz".data = false →
      ('.' :: w).isSuffixOf "backup.zip".data = false → False := by
    intro w hw hnd h1 h2
    rw [hw] at hpre
    have hs := lastTwo_suffix pre w hnd
    rw [hpre] at hs
    simp only [List.mem_cons, List.mem_singleton, List.not_mem_nil, or_false] at hin
    rcases hin with hin | hin
    · rw [hin, ← List.isSuffixOf_iff_suffix, h1] at hs
      exact absurd hs (by simp)
    · rw [hin, ← List.isSuffixOf_iff_suffix, h2] at hs
      exact absurd hs (by simp)
  simp only [validExtensions, List.mem_cons, List.mem_singleton, List.not_mem_nil,
    or_false] at hmem
  rcases hmem with h | h | h | h | h | h | h <;> subst h
  · exact key "jpg".data rfl (by decide) (by decide) (by decide)
  · exact key "jpeg".data rfl (by decide) (by decide) (by decide)
  · exact key "png".data rfl (by decide) (by decide) (by decide)
  · exact key "webp".data rfl (by decide) (by decide) (by decide)
  · exact key "pdf".data rfl (by decide) (by decide) (by decide)
  · exact key "heic".data rfl (by decide) (by decide) (by decide)
  · exact key "heif".data rfl (by decide) (by decide) (by decide)

/-- C29: for every file whose name contains two or more `.` characters, whatever its
declared type and bytes, `validateFileType` rejects the file, with the invalid-extension
error or with the double-extension error: no name that passes the extension check has the
compound extension `tar.gz` or `backup.zip`. -/
theorem validateFileType_rejects_multi_dot (file : File)
    (h : 2 ≤ file.name.data.count '.') :
    (validateFileType file = ValidationResult.invalid ValidationError.invalidExtension ∨
      validateFileType file = ValidationResult.invalid ValidationError.doubleExtension) ∧
    (hasValidExtension (toLowerCase file.name) = true →
      lastTwo (toLowerCase file.name) ∉ ["tar.gz".data, "backup.zip".data]) := by
  refine ⟨?_, lastTwo_not_compound _⟩
  unfold validateFileType
  dsimp only
  by_cases hext : hasValidExtension (toLowerCase file.name) = true
  · right
    have hcount : extensionCount (toLowerCase file.name) > 1 := by
      unfold extensionCount
      rw [count_dot_toLowerCase]
      omega
    rw [if_neg (by simp [hext]), if_pos ⟨hcount, lastTwo_not_compound _ hext⟩]
  · left
    rw [if_pos (by simpa using hext)]

/-- C29 on the example: `my.photo.jpg`, declared `image/jpeg` and carrying the JPEG
signature, is rejected with the double-extension error. -/
theorem validateFileType_rejects_multi_dot_witness :
    2 ≤ multiDot.name.data.count '.' ∧
    validateFileType multiDot = ValidationResult.invalid ValidationError.doubleExtension ∧
    (validateFileType multiDot = ValidationResult.invalid ValidationError.invalidExtension ∨
      validateFileType multiDot = ValidationResult.invalid ValidationError.doubleExtension) :=
  ⟨by decide, by decide, (validateFileType_rejects_multi_dot multiDot (by decide)).1⟩

/-! ## C30: the memory and count budget of the registry -/

theorem foldl_size_eq (l : List File) (a : Nat) :
    l.foldl (fun total file => total + file.size) a = a + (l.map File.size).sum := by
  induction l generalizing a with
  | nil => simp
  | cons f fs ih =>
    rw [List.foldl_cons, ih, List.map_cons, List.sum_cons]
    omega

theorem totalSize_eq_sum (l : List File) : totalSize l = (l.map File.size).sum := by
  unfold totalSize
  rw [foldl_size_eq, Nat.zero_add]

theorem totalSize_append (a b : List File) : totalSize (a ++ b) = totalSize a + totalSize b := by
  rw [totalSize_eq_sum, totalSize_eq_sum, totalSize_eq_sum, List.map_append, List.sum_append]

theorem totalSize_sublist {a b : List File} (h : a.Sublist b) : totalSize a ≤ totalSize b := by
  rw [totalSize_eq_sum, totalSize_eq_sum]
  exact (h.map File.size).sum_le_sum (fun x _ => Nat.zero_le x)

theorem shrinks_refl (s : State) : Shrinks s s :=
  ⟨List.Sublist.refl _, rfl⟩

theorem shrinks_trans {s t u : State} (h1 : Shrinks s t) (h2 : Shrinks t u) : Shrinks s u :=
  ⟨h2.1.trans h1.1, h2.2.trans h1.2⟩

theorem shrinks_of_renderFrame {s t : State} (h : RenderFrame s t) : Shrinks s t :=
  ⟨by rw [h.files], h.currentMemoryUsage⟩

theorem shrinks_cleanupPDFPreview (s : State) (i : Int) : Shrinks s (cleanupPDFPreview s i) := by
  unfold cleanupPDFPreview
  split
  · split <;> exact ⟨List.Sublist.refl _, rfl⟩
  · exact shrinks_refl s

theorem splice1_sublist {α : Type} (xs : List α) (k : Int) : (splice1 xs k).Sublist xs := by
  unfold splice1
  exact List.eraseIdx_sublist _ _

theorem shrinks_deleteAt (s : State) (k : Int) : Shrinks s (deleteAt s k) := by
  have h1 := shrinks_of_renderFrame (renderFrame_revokeFileURLs s k)
  have h2 := shrinks_cleanupPDFPreview (revokeFileURLs s k) k
  have h3 := shrinks_trans h1 h2
  exact ⟨(splice1_sublist _ k).trans h3.1, h3.2⟩

theorem shrinks_removeFile (s : State) (k : Int) : Shrinks s (removeFile s k) := by
  have h1 := shrinks_of_renderFrame (renderFrame_revokeFileURLs s k)
  have h2 := shrinks_cleanupPDFPreview (revokeFileURLs s k) k
  have h3 := shrinks_trans h1 h2
  have h4 : Shrinks s (removeFileReindex s k) := ⟨(splice1_sublist _ k).trans h3.1, h3.2⟩
  exact shrinks_trans h4 (shrinks_of_renderFrame (renderFrame_showPreview _))

theorem shrinks_deleteSelected (s : State) : Shrinks s (deleteSelected s) := by
  unfold deleteSelected
  split
  · exact shrinks_of_renderFrame (errorsOnly_renderFrame (errorsOnly_showError _ _ _))
  · dsimp only
    refine shrinks_trans ?_ (shrinks_of_renderFrame (renderFrame_showPreview _))
    refine ⟨?_, rfl⟩
    have h1 := (List.filter_sublist
      (p := fun (e : Nat × File) => decide ((e.1 : Int) ∉ s.selectedIndices)) s.files.enum).map
      Prod.snd
    rwa [List.enum_map_snd] at h1

theorem shrinks_deleteFiles (s : State) (fs : List File) (now : Nat) :
    Shrinks s (deleteFiles s fs now) := by
  unfold deleteFiles
  dsimp only
  have h1 : Shrinks s (saveSelectionState s now) := ⟨List.Sublist.refl _, rfl⟩
  have h2 : ∀ (l : List Int) (t : State), Shrinks s t → Shrinks s (l.foldl deleteAt t) := by
    intro l t ht
    exact foldl_preserves (fun u : State => Shrinks s u) deleteAt
      (fun st x hst => shrinks_trans hst (shrinks_deleteAt st x)) l t ht
  split
  · exact shrinks_trans
      (shrinks_trans (h2 _ _ h1) (shrinks_of_renderFrame (renderFrame_showPreview _)))
      ⟨List.Sublist.refl _, rfl⟩
  · exact shrinks_trans (h2 _ _ h1) (shrinks_of_renderFrame (renderFrame_showPreview _))

theorem withinBudget_of_shrinks {s t : State} (h : WithinBudget s) (hs : Shrinks s t) :
    WithinBudget t := by
  obtain ⟨h1, h2, h3⟩ := h
  refine ⟨?_, ?_, ?_⟩
  · rw [hs.2]
    exact le_trans (totalSize_sublist hs.1) h1
  · rw [hs.2]
    exact h2
  · exact le_trans hs.1.length_le h3

theorem withinBudget_of_errorsOnly {s t : State} (h : WithinBudget s) (he : ErrorsOnly s t) :
    WithinBudget t :=
  withinBudget_of_shrinks h (shrinks_of_renderFrame (errorsOnly_renderFrame he))

theorem handleFilesConvert_sublist (ff : List File) (s : State) (acc : List File) :
    ∃ kept : List File, kept.Sublist ff ∧
      (ff.foldl (fun (acc : State × List File) f =>
        if f.size > MAX_FILE_SIZE then
          (showError acc.1 (Message.fileTooLarge f.name) "warning", acc.2)
        else match validateFileType f with
          | ValidationResult.invalid error =>
            (showError acc.1 (Message.invalidFile error) "warning", acc.2)
          | ValidationResult.valid =>
            if isHeic f then
              match (fun (_ : File) => (none : Option (List File))) f with
              | some converted => (acc.1, acc.2 ++ converted)
              | none => (showError acc.1 Message.heicConversionFailed "warning", acc.2)
            else (acc.1, acc.2 ++ [f])) (s, acc)).2 = acc ++ kept := by
  induction ff generalizing s acc with
  | nil => exact ⟨[], List.Sublist.refl _, by simp⟩
  | cons f rest ih =>
    rw [List.foldl_cons]
    dsimp only
    split
    · obtain ⟨kept, hk, he⟩ := ih (showError s (Message.fileTooLarge f.name) "warning") acc
      exact ⟨kept, hk.cons f, he⟩
    · split
      · rename_i error _
        obtain ⟨kept, hk, he⟩ := ih (showError s (Message.invalidFile error) "warning") acc
        exact ⟨kept, hk.cons f, he⟩
      · split
        · obtain ⟨kept, hk, he⟩ := ih (showError s Message.heicConversionFailed "warning") acc
          exact ⟨kept, hk.cons f, he⟩
        · obtain ⟨kept, hk, he⟩ := ih s (acc ++ [f])
          refine ⟨f :: kept, hk.cons₂ f, ?_⟩
          rw [he, List.append_assoc]
          rfl

theorem checkMemoryLimit_none (s : State) (ff : List File)
    (h : checkMemoryLimit s ff = none) :
    s.currentMemoryUsage + totalSize ff ≤ MAX_TOTAL_MEMORY ∧
    s.files.length + ff.length ≤ MAX_FILES_COUNT := by
  unfold checkMemoryLimit at h
  dsimp only at h
  split at h
  · simp at h
  · split at h
    · simp at h
    · constructor <;> omega

theorem handleFilesStart_some (s s1 : State) (newFiles ff : List File)
    (h : handleFilesStart s newFiles = (s1, some ff)) :
    ErrorsOnly s s1 ∧ checkMemoryLimit s1 ff = none := by
  have he := errorsOnly_handleFilesFilter s newFiles
  unfold handleFilesStart at h
  dsimp only at h
  split at h
  · simp at h
  · split at h
    · simp at h
    · split at h
      · simp at h
      · rename_i hnone
        simp only [Prod.mk.injEq, Option.some.injEq] at h
        rw [← h.1, ← h.2]
        exact ⟨he, hnone⟩

theorem enableVirtualScroll_currentMemoryUsage (s : State) (w : Int) :
    (enableVirtualScroll s w).currentMemoryUsage = s.currentMemoryUsage := by
  unfold enableVirtualScroll
  split
  · exact (renderFrame_renderVisibleItems _).currentMemoryUsage
  · rfl

theorem handleFilesAppend_currentMemoryUsage (s : State) (cf : List File) (w : Int)
    (hcf : cf ≠ []) :
    (handleFilesAppend s cf w).currentMemoryUsage = totalSize (s.files ++ cf) := by
  unfold handleFilesAppend
  have hlen : ¬ cf.length = 0 := fun h => hcf (List.length_eq_zero.mp h)
  rw [if_neg hlen]
  dsimp only
  have hpos : (s.files ++ cf).length > 0 := by
    rw [List.length_append]
    have := List.length_pos.mpr hcf
    omega
  rw [if_pos hpos, (renderFrame_showPreview _).currentMemoryUsage,
    enableVirtualScroll_currentMemoryUsage]
  rfl

theorem clearFiles_currentMemoryUsage (s : State) : (clearFiles s).currentMemoryUsage = 0 := by
  unfold clearFiles
  rw [(renderFrame_revokeAllTrackedURLs _).currentMemoryUsage]
  show (showPreview _).currentMemoryUsage = 0
  rw [(renderFrame_showPreview _).currentMemoryUsage]
  rfl

theorem withinBudget_resume (s : State) (ff : List File) (w : Int)
    (h : WithinBudget s) (hcheck : CheckPassed s ff) :
    WithinBudget (handleFilesAppend (handleFilesConvert s ff (fun _ => none)).1
      (handleFilesConvert s ff (fun _ => none)).2 w) := by
  have he2 := errorsOnly_handleFilesConvert s ff (fun _ => none)
  obtain ⟨kept, hk, hconv⟩ := handleFilesConvert_sublist ff s []
  have hconv2 : (handleFilesConvert s ff (fun _ => none)).2 = kept := by
    rw [List.nil_append] at hconv
    exact hconv
  have hb2 := withinBudget_of_errorsOnly h he2
  obtain ⟨hlimit, hcount⟩ := hcheck
  have hf2 := (errorsOnly_renderFrame he2).files
  have hm2 := (errorsOnly_renderFrame he2).currentMemoryUsage
  rw [hconv2]
  by_cases hkept : kept = []
  · rw [hkept]
    unfold handleFilesAppend
    rw [if_pos (show ([] : List File).length = 0 from rfl)]
    exact withinBudget_of_errorsOnly hb2 (errorsOnly_showError _ _ _)
  · obtain ⟨g1, g2, g3⟩ := hb2
    have hsize : totalSize kept ≤ totalSize ff := totalSize_sublist hk
    have hlen : kept.length ≤ ff.length := hk.length_le
    refine ⟨?_, ?_, ?_⟩
    · rw [handleFilesAppend_files, handleFilesAppend_currentMemoryUsage _ _ _ hkept]
    · rw [handleFilesAppend_currentMemoryUsage _ _ _ hkept, totalSize_append]
      rw [hm2] at g1
      omega
    · rw [handleFilesAppend_files, List.length_append, hf2]
      omega

theorem checkPassed_of_le {s t : State} (ff : List File)
    (hm : t.currentMemoryUsage ≤ s.currentMemoryUsage) (hl : t.files.length ≤ s.files.length)
    (h : CheckPassed s ff) : CheckPassed t ff := by
  obtain ⟨h1, h2⟩ := h
  constructor
  · omega
  · omega

theorem registryInvariant_of_shrinks (r : Registry) (t : State)
    (h : RegistryInvariant r) (hs : Shrinks r.state t) :
    RegistryInvariant { r with state := t } := by
  obtain ⟨h1, h2, h3⟩ := h
  refine ⟨withinBudget_of_shrinks h1 hs, h2, ?_⟩
  intro ff hff
  exact checkPassed_of_le ff (le_of_eq hs.2) hs.1.length_le (h3 ff hff)

theorem registryInvariant_step (r : Registry) (op : RegistryOp)
    (h : RegistryInvariant r) (hg : noOverlap r op = true) :
    RegistryInvariant (registryStep r op) := by
  obtain ⟨h1, h2, h3⟩ := h
  cases op with
  | handleFiles newFiles =>
    have hempty : r.suspended = [] := by
      simpa [noOverlap] using hg
    show RegistryInvariant
      (match handleFilesStart r.state newFiles with
        | (s1, none) => { r with state := s1 }
        | (s1, some filteredFiles) =>
          { state := s1, suspended := r.suspended ++ [filteredFiles] })
    split
    · rename_i s1 heq
      have he := errorsOnly_handleFilesStart r.state newFiles
      rw [heq] at he
      refine ⟨withinBudget_of_errorsOnly h1 he, h2, ?_⟩
      intro ff hff
      have hff2 : ff ∈ r.suspended := hff
      rw [hempty] at hff2
      simp at hff2
    · rename_i s1 ff heq
      obtain ⟨he, hcheck⟩ := handleFilesStart_some r.state s1 newFiles ff heq
      refine ⟨withinBudget_of_errorsOnly h1 he, ?_, ?_⟩
      · show (r.suspended ++ [ff]).length ≤ 1
        rw [hempty]
        simp
      · intro ff2 hff2
        have hff3 : ff2 ∈ r.suspended ++ [ff] := hff2
        rw [hempty, List.nil_append, List.mem_singleton] at hff3
        rw [hff3]
        exact checkMemoryLimit_none s1 ff hcheck
  | handleFilesResume run w =>
    show RegistryInvariant
      (match r.suspended[run]? with
        | none => r
        | some filteredFiles =>
          { state := handleFilesAppend
              (handleFilesConvert r.state filteredFiles (fun _ => none)).1
              (handleFilesConvert r.state filteredFiles (fun _ => none)).2 w,
            suspended := r.suspended.eraseIdx run })
    split
    · exact ⟨h1, h2, h3⟩
    · rename_i ff hget
      have hget2 := List.getElem?_eq_some_iff.mp hget
      have hrun : run < r.suspended.length := hget2.1
      have hmem : ff ∈ r.suspended := by
        rw [← hget2.2]
        exact List.getElem_mem _
      have hnil : r.suspended.eraseIdx run = [] := by
        apply List.length_eq_zero.mp
        rw [List.length_eraseIdx]
        split <;> omega
      refine ⟨withinBudget_resume r.state ff w h1 (h3 ff hmem), ?_, ?_⟩
      · show (r.suspended.eraseIdx run).length ≤ 1
        rw [hnil]
        simp
      · intro ff2 hff2
        have hff3 : ff2 ∈ r.suspended.eraseIdx run := hff2
        rw [hnil] at hff3
        simp at hff3
  | removeFile index =>
    exact registryInvariant_of_shrinks r _ ⟨h1, h2, h3⟩ (shrinks_removeFile r.state index)
  | deleteSelected =>
    exact registryInvariant_of_shrinks r _ ⟨h1, h2, h3⟩ (shrinks_deleteSelected r.state)
  | deleteFiles fs now =>
    exact registryInvariant_of_shrinks r _ ⟨h1, h2, h3⟩ (shrinks_deleteFiles r.state fs now)
  | clearFiles =>
    have hm := clearFiles_currentMemoryUsage r.state
    have hf := clearFiles_files r.state
    refine ⟨⟨?_, ?_, ?_⟩, h2, ?_⟩
    · show totalSize (clearFiles r.state).files ≤ (clearFiles r.state).currentMemoryUsage
      rw [hf, hm]
      exact Nat.le_refl _
    · show (clearFiles r.state).currentMemoryUsage ≤ MAX_TOTAL_MEMORY
      rw [hm]
      exact Nat.zero_le _
    · show (clearFiles r.state).files.length ≤ MAX_FILES_COUNT
      rw [hf]
      exact Nat.zero_le _
    · intro ff hff
      have hm2 : (clearFiles r.state).currentMemoryUsage ≤ r.state.currentMemoryUsage := by
        rw [hm]
        exact Nat.zero_le _
      have hf2 : (clearFiles r.state).files.length ≤ r.state.files.length := by
        rw [hf]
        exact Nat.zero_le _
      exact checkPassed_of_le ff hm2 hf2 (h3 ff hff)

theorem registryInvariant_run (ops : List RegistryOp) (r : Registry)
    (h : RegistryInvariant r) (hg : RegistryGuarded noOverlap r ops = true) :
    RegistryInvariant (registryRun r ops) := by
  induction ops generalizing r with
  | nil => exact h
  | cons op rest ih =>
    simp only [RegistryGuarded, Bool.and_eq_true] at hg
    exact ih (registryStep r op) (registryInvariant_step r op h hg.1) hg.2

/-- What holds of C30 without overlapping runs: in every registry reached from the freshly
loaded page by calls of `handleFiles` and the rest of their runs (no HEIC conversion yielding
a file), `removeFile`, `deleteSelected`, `deleteFiles` and `clearFiles`, such that
`handleFiles` is never called while a run of it is suspended, the total byte size of the
files is at most the cached `currentMemoryUsage`, which is at most `MAX_TOTAL_MEMORY`, and
there are at most 200 files. -/
theorem registry_within_budget_without_overlap (ops : List RegistryOp)
    (h : RegistryGuarded noOverlap { state := init } ops = true) :
    totalSize (registryRun { state := init } ops).state.files
      ≤ (registryRun { state := init } ops).state.currentMemoryUsage ∧
    (registryRun { state := init } ops).state.currentMemoryUsage ≤ MAX_TOTAL_MEMORY ∧
    totalSize (registryRun { state := init } ops).state.files ≤ 500 * 1024 * 1024 ∧
    (registryRun { state := init } ops).state.files.length ≤ 200 := by
  have h0 : RegistryInvariant { state := init } := by
    refine ⟨⟨by decide, by decide, by decide⟩, by decide, ?_⟩
    intro ff hff
    simp at hff
  obtain ⟨⟨h1, h2, h3⟩, -, -⟩ := registryInvariant_run ops { state := init } h0 h
  exact ⟨h1, h2, le_trans h1 h2, h3⟩

set_option maxRecDepth 100000 in
/-- A session without overlapping runs: after the twenty-five images of 20 MiB, a refused
batch, a removal and another refused batch, the registry holds 24 files of 480 MiB together
under a cached usage of 500 MiB. -/
theorem registry_within_budget_without_overlap_witness :
    RegistryGuarded noOverlap { state := init } budgetSession = true ∧
    (registryRun { state := init } budgetSession).state.files.length = 24 ∧
    totalSize (registryRun { state := init } budgetSession).state.files = 480 * 1024 * 1024 ∧
    (registryRun { state := init } budgetSession).state.currentMemoryUsage
      = 500 * 1024 * 1024 ∧
    totalSize (registryRun { state := init } budgetSession).state.files
      ≤ (registryRun { state := init } budgetSession).state.currentMemoryUsage :=
  ⟨by decide, by decide, by decide, by decide,
   (registry_within_budget_without_overlap budgetSession (by decide)).1⟩

set_option maxRecDepth 100000 in
/-- C30, the divergence: `handleFiles` checks the capacity before its first `await` and
appends after its last, and nothing keeps a second call from starting in between. When
twenty-five images of 20 MiB are handed to `handleFiles` and, while that run is suspended in
its validation loop, twenty-five more, both capacity checks see the empty registry and pass,
and the registry ends with 50 files of 1000 MiB together, twice `MAX_TOTAL_MEMORY`, although
every step is one of the operations of the claim; the cached `currentMemoryUsage`, recomputed
by the second append, is 1000 MiB as well. -/
theorem overlapping_runs_exceed_budget :
    overlappingRuns.files.length = 50 ∧
    totalSize overlappingRuns.files = 1000 * 1024 * 1024 ∧
    MAX_TOTAL_MEMORY < totalSize overlappingRuns.files ∧
    MAX_TOTAL_MEMORY < overlappingRuns.currentMemoryUsage := by
  decide

set_option maxRecDepth 100000 in
/-- The two overlapping runs as a session of registry events: the session reaches the state
`overlappingRuns`, and it is no session without overlap. -/
theorem overlapSession_reaches_overlappingRuns :
    (registryRun { state := init } overlapSession).state = overlappingRuns ∧
    (registryRun { state := init } overlapSession).suspended = [] ∧
    RegistryGuarded noOverlap { state := init } overlapSession = false := by
  decide

end Convertion
